import Mathlib

/-!
# Fortran and SAS lexers (scintilla/lexers/LexFortran.cxx, LexSAS.cxx)

A shallow embedding of the line-state codec, the fold-level pass and the
tokenizer loops, with the properties stated about them.
-/

namespace Lexilla

/-! ## Character classes (CharacterSet.h is not among the two files) -/

/-- Modelled from the spec: `IsADigit`, the decimal digits. -/
def IsADigit (ch : Nat) : Bool := decide (48 ≤ ch) && decide (ch ≤ 57)

/-- Modelled from the spec: `IsAlpha`, the ASCII letters. -/
def IsAlpha (ch : Nat) : Bool :=
  (decide (65 ≤ ch) && decide (ch ≤ 90)) || (decide (97 ≤ ch) && decide (ch ≤ 122))

/-- Modelled from the spec: `IsHexDigit`. -/
def IsHexDigit (ch : Nat) : Bool :=
  IsADigit ch || (decide (65 ≤ ch) && decide (ch ≤ 70)) || (decide (97 ≤ ch) && decide (ch ≤ 102))

/-- Modelled from the spec: `IsIdentifierChar`, a letter, a digit or `_`. -/
def IsIdentifierChar (ch : Nat) : Bool := IsAlpha ch || IsADigit ch || decide (ch = 95)

/-- Modelled from the spec: `IsIdentifierStart`, a letter or `_`. -/
def IsIdentifierStart (ch : Nat) : Bool := IsAlpha ch || decide (ch = 95)

/-- Modelled from the spec: `IsEOLChar`, carriage return or line feed. -/
def IsEOLChar (ch : Nat) : Bool := decide (ch = 13) || decide (ch = 10)

/-- Modelled from the spec: `isspacechar`, blank or one of the bytes 9..13. -/
def isspacechar (ch : Nat) : Bool := decide (ch = 32) || (decide (9 ≤ ch) && decide (ch ≤ 13))

/-- Modelled from the spec: `IsAGraphic`, a visible ASCII character. -/
def IsAGraphic (ch : Nat) : Bool := decide (32 < ch) && decide (ch < 127)

/-- Modelled from the spec: `UnsafeLower`, which sets bit 5. -/
def UnsafeLower (ch : Nat) : Nat := ch ||| 32

/-- Modelled from the spec: lowercasing used by `GetCurrentLowered` and
`GetRangeLowered`; only `A`..`Z` change. -/
def MakeLowerCase (ch : Nat) : Nat := if 65 ≤ ch ∧ ch ≤ 90 then ch + 32 else ch

/-- Modelled from the spec: `IsNumberStart`, a digit, or a dot before a digit. -/
def IsNumberStart (ch chNext : Nat) : Bool :=
  IsADigit ch || (decide (ch = 46) && IsADigit chNext)

/-- Modelled from the spec: `IsFloatExponent(chPrev, ch, chNext)`, the sign of
an exponent: `+` or `-` after `e` or `E` and before a digit. -/
def IsFloatExponent (chPrev ch chNext : Nat) : Bool :=
  (decide (ch = 43) || decide (ch = 45)) && (decide (chPrev = 101) || decide (chPrev = 69))
    && IsADigit chNext

/-- Modelled from the spec: `IsDecimalNumber(chPrev, ch, chNext)` of the SAS
number state: an identifier character, an exponent sign after `e`/`E`, or a
dot that is not followed by a second dot. -/
def IsDecimalNumber (chPrev ch chNext : Nat) : Bool :=
  IsIdentifierChar ch
    || ((decide (ch = 43) || decide (ch = 45)) && (decide (chPrev = 101) || decide (chPrev = 69)))
    || (decide (ch = 46) && !decide (chNext = 46))

/-- The bytes of a string literal. -/
def str (s : String) : List Nat := s.toList.map Char.toNat

/-! ## Keyword tables (WordList.h is not among the two files) -/

/-- Modelled from the spec: a keyword table, a set of lowercase words. -/
structure WordList where
  words : List (List Nat)

/-- Modelled from the spec: `WordList::InList`, exact membership. -/
def WordList.InList (wl : WordList) (s : List Nat) : Bool := wl.words.contains s

/-- Modelled from the spec: `WordList::InListPrefixed(s, marker)`, membership
of `s` among entries that may carry text after the marker (`sin(x)` lists
`sin`); the query reads the table only, never the document. -/
def WordList.InListPrefixed (wl : WordList) (s : List Nat) (marker : Nat) : Bool :=
  wl.words.any (fun w => w == s || (s ++ [marker]).isPrefixOf w)

/-- The keyword tables handed to a lexer, by `KeywordIndex`. -/
abbrev LexerWordList := Nat → WordList

/-! ## Document access (LexAccessor.h, Accessor.h are not among the two files) -/

/-- Modelled from the spec: `styler[pos]`; a position outside the text reads 0. -/
def charAt (text : List Nat) (pos : Nat) : Nat := text.getD pos 0

/-- Whether the byte at the head of `c :: cs` ends a line: a line feed, or a
carriage return not followed by a line feed. -/
def endsLine (c : Nat) (cs : List Nat) : Bool :=
  decide (c = 10) || (decide (c = 13) && !decide (cs.head? = some 10))

/-- Walks `text` from absolute position `p`, skipping `l` line ends. -/
def lineStartFrom : List Nat → Nat → Nat → Nat
  | _, p, 0 => p
  | [], p, _ + 1 => p
  | c :: cs, p, l + 1 =>
    if endsLine c cs then lineStartFrom cs (p + 1) l else lineStartFrom cs (p + 1) (l + 1)

/-- Modelled from the spec: `styler.LineStart(line)`; a line past the last one
starts at the end of the text. -/
def LineStart (text : List Nat) (line : Nat) : Nat := lineStartFrom text 0 line

/-- Counts the line ends among the first `n` bytes of a text. -/
def countLineEnds : List Nat → Nat → Nat
  | _, 0 => 0
  | [], _ + 1 => 0
  | c :: cs, n + 1 => (if endsLine c cs then 1 else 0) + countLineEnds cs n

/-- Modelled from the spec: `styler.GetLine(pos)`. -/
def GetLine (text : List Nat) (pos : Nat) : Nat := countLineEnds text pos

/-- Modelled from the spec: `GetRangeLowered(start, end, buf, size)`: at most
`size - 1` bytes of `[start, end)`, lowercased. -/
def GetRangeLowered (text : List Nat) (start stop size : Nat) : List Nat :=
  (((text.drop start).take (stop - start)).take (size - 1)).map MakeLowerCase

/-! ## StyleContext (StyleContext.h is not among the two files) -/

/-- Modelled from the spec: the scan cursor `StyleContext` together with the
styling side of the accessor: `styles` holds the styles already painted, for
the positions from the start of the pass up to `startSeg`. -/
structure StyleContext (σ : Type) where
  currentPos : Nat
  currentLine : Nat
  lineStartNext : Nat
  atLineStart : Bool
  atLineEnd : Bool
  state : σ
  chPrev : Nat
  ch : Nat
  chNext : Nat
  startSeg : Nat
  styles : List σ
  deriving DecidableEq

/-- The fixed data of one pass: the document text and the end of the range. -/
structure Pass where
  text : List Nat
  endPos : Nat

/-- Modelled from the spec: the end of a pass over `[startPos, startPos + length)`;
a range reaching the end of the document also visits the position just
after the last byte, where pending tokens are closed. -/
def passEnd (text : List Nat) (startPos length : Nat) : Nat :=
  if startPos + length < text.length then startPos + length else text.length + 1

/-- Modelled from the spec: the line-end test of `StyleContext::GetNextChar`:
the last byte of a line, or on the last line the position after the text. -/
def atLineEndAt (text : List Nat) (currentLine lineStartNext pos : Nat) : Bool :=
  if currentLine < GetLine text text.length then decide (lineStartNext - 1 ≤ pos)
  else decide (lineStartNext ≤ pos)

namespace StyleContext

variable {σ : Type}

/-- Modelled from the spec: the constructor `StyleContext(startPos, length,
initStyle, styler)`. -/
def init (text : List Nat) (startPos : Nat) (initStyle : σ) : StyleContext σ :=
  let line := GetLine text startPos
  let next := LineStart text (line + 1)
  { currentPos := startPos, currentLine := line, lineStartNext := next,
    atLineStart := decide (LineStart text line = startPos),
    atLineEnd := atLineEndAt text line next startPos,
    state := initStyle, chPrev := 0, ch := charAt text startPos,
    chNext := charAt text (startPos + 1), startSeg := startPos, styles := [] }

/-- Modelled from the spec: `More()`. -/
def More (p : Pass) (sc : StyleContext σ) : Bool := decide (sc.currentPos < p.endPos)

/-- Modelled from the spec: `Forward()`, one byte at a time. -/
def Forward (p : Pass) (sc : StyleContext σ) : StyleContext σ :=
  if sc.currentPos < p.endPos then
    let line := if sc.atLineEnd then sc.currentLine + 1 else sc.currentLine
    let next := if sc.atLineEnd then LineStart p.text (sc.currentLine + 2) else sc.lineStartNext
    { sc with atLineStart := sc.atLineEnd, currentLine := line, lineStartNext := next,
              chPrev := sc.ch, currentPos := sc.currentPos + 1, ch := sc.chNext,
              chNext := charAt p.text (sc.currentPos + 2),
              atLineEnd := atLineEndAt p.text line next (sc.currentPos + 1) }
  else
    { sc with atLineStart := false, chPrev := 32, ch := 32, chNext := 32, atLineEnd := true }

/-- Modelled from the spec: `styler.ColorTo(pos, style)`, painting
`[startSeg, pos)`. -/
def ColorTo (sc : StyleContext σ) (pos : Nat) (style : σ) : StyleContext σ :=
  if pos < sc.startSeg then sc
  else { sc with styles := sc.styles ++ List.replicate (pos - sc.startSeg) style, startSeg := pos }

/-- Modelled from the spec: `ChangeState`. -/
def ChangeState (sc : StyleContext σ) (state : σ) : StyleContext σ := { sc with state := state }

/-- Modelled from the spec: `SetState`. -/
def SetState (sc : StyleContext σ) (state : σ) : StyleContext σ :=
  { sc.ColorTo sc.currentPos sc.state with state := state }

/-- Modelled from the spec: `ForwardSetState`. -/
def ForwardSetState (p : Pass) (sc : StyleContext σ) (state : σ) : StyleContext σ :=
  (sc.Forward p).SetState state

/-- Modelled from the spec: `Rewind()`, the one rewind of the scanner: the
cursor goes back to the start of the current style segment. -/
def Rewind (p : Pass) (sc : StyleContext σ) : StyleContext σ :=
  let pos := sc.startSeg
  let line := GetLine p.text pos
  let next := LineStart p.text (line + 1)
  { sc with currentPos := pos, currentLine := line, lineStartNext := next,
            atLineStart := decide (LineStart p.text line = pos),
            atLineEnd := atLineEndAt p.text line next pos,
            chPrev := 0, ch := charAt p.text pos, chNext := charAt p.text (pos + 1) }

/-- Modelled from the spec: `GetCurrentLowered(s, len)`. -/
def GetCurrentLowered (p : Pass) (sc : StyleContext σ) (len : Nat) : List Nat :=
  GetRangeLowered p.text sc.startSeg sc.currentPos len

/-- Modelled from the spec: `GetRelative(n)`. -/
def GetRelative (p : Pass) (sc : StyleContext σ) (n : Nat) : Nat :=
  charAt p.text (sc.currentPos + n)

/-- Modelled from the spec: `Match(ch0, ch1)`. -/
def Match (sc : StyleContext σ) (ch0 ch1 : Nat) : Bool :=
  decide (sc.ch = ch0) && decide (sc.chNext = ch1)

/-- Modelled from the spec: `Complete()`, painting the pending segment but
not the position after the text. -/
def Complete (p : Pass) (sc : StyleContext σ) : StyleContext σ :=
  sc.ColorTo (if p.text.length < sc.currentPos then sc.currentPos - 1 else sc.currentPos) sc.state

end StyleContext

namespace Fortran

/-! ## Line-state codec (LexFortran.cxx, lines 51-54, 93-94, 327-328, 339-341) -/

/-- Bit 0 of the line state: the line is a comment line. -/
def FortranLineStateMaskLineComment : Nat := 1

/-- Bit 1 of the line state: the line ends in a string continuation. -/
def FortranLineStateLineContinuation : Nat := 2

/-- The value handed to `SetLineState` at a line end (line 327):
`lineState | (parenCount << 8)`, kept in a 32-bit integer. -/
def encodeLineState (lineState parenCount : Nat) : Nat :=
  (lineState ||| (parenCount <<< 8)) % 2 ^ 32

/-- Bracket depth read back at the start of a pass (line 93): `lineState >> 8`. -/
def decodeParenCount (lineState : Nat) : Nat := lineState >>> 8

/-- Continuation flag read back at the start of a pass (line 94). -/
def decodeContinuation (lineState : Nat) : Nat :=
  lineState &&& FortranLineStateLineContinuation

/-- `GetLineCommentState` (lines 339-341). -/
def GetLineCommentState (lineState : Nat) : Nat :=
  lineState &&& FortranLineStateMaskLineComment


/-! ## The Fortran tokenizer (LexFortran.cxx, lines 27-337) -/

/-- The `SCE_F_*` styles of SciLexer.h. -/
inductive Style
  | SCE_F_DEFAULT | SCE_F_COMMENT | SCE_F_PREPROCESSOR | SCE_F_STRING_SQ | SCE_F_STRING_DQ
  | SCE_F_ESCAPECHAR | SCE_F_NUMBER | SCE_F_IDENTIFIER | SCE_F_OPERATOR | SCE_F_OPERATOR2
  | SCE_F_WORD | SCE_F_FOLDING_WORD | SCE_F_TYPE | SCE_F_ATTRIBUTE | SCE_F_INTRINSIC
  | SCE_F_FUNCTION | SCE_F_FUNCTION_DEFINITION
  deriving DecidableEq, Repr, Inhabited

open Style

/-- `struct EscapeSequence` (lines 27-49). -/
structure EscapeSequence where
  outerState : Style
  digitsLeft : Int
  deriving DecidableEq, Repr

/-- `EscapeSequence::resetEscapeState` (lines 31-44): the new sub-scanner and
whether an escape starts. -/
def EscapeSequence.resetEscapeState (state : Style) (chNext : Nat) : EscapeSequence × Bool :=
  let digitsLeft : Int :=
    if chNext = 120 then 3
    else if chNext = 117 then 5
    else if chNext = 85 then 9
    else if chNext ∈ [92, 39, 34, 97, 98, 102, 110, 114, 116, 118, 48] then 1
    else 0
  ({ outerState := state, digitsLeft := digitsLeft }, decide (digitsLeft ≠ 0))

/-- `EscapeSequence::atEscapeEnd` (lines 45-48). -/
def EscapeSequence.atEscapeEnd (e : EscapeSequence) (ch : Nat) : EscapeSequence × Bool :=
  let d := e.digitsLeft - 1
  ({ e with digitsLeft := d }, decide (d ≤ 0) || !IsHexDigit ch)

/-- `KeywordIndex_Keyword` (line 58). -/
def KeywordIndex_Keyword : Nat := 0
/-- `KeywordIndex_CodeFolding` (line 59). -/
def KeywordIndex_CodeFolding : Nat := 1
/-- `KeywordIndex_Type` (line 60). -/
def KeywordIndex_Type : Nat := 2
/-- `KeywordIndex_Attribute` (line 61). -/
def KeywordIndex_Attribute : Nat := 3
/-- `KeywordIndex_Function` (line 62). -/
def KeywordIndex_Function : Nat := 4

/-- `enum class KeywordType` (lines 66-76). -/
inductive KeywordType
  | None | Change | Select | Else | Module | End | Type | Function | Call
  deriving DecidableEq, Repr

/-- The style a `KeywordType` casts to (lines 74-75, 144). -/
def KeywordType.toStyle : KeywordType → Style
  | .Function => SCE_F_FUNCTION_DEFINITION
  | _ => SCE_F_FUNCTION

/-- The local variables of `ColouriseFortranDoc` (lines 79-86) and the calls
of `styler.SetLineState(line, value)` made so far, in their order. -/
structure Lexer where
  sc : StyleContext Style
  lineState : Nat
  visibleChars : Nat
  parenCount : Nat
  ifConstruct : Bool
  kwType : KeywordType
  escSeq : EscapeSequence
  lineWrites : List (Nat × Nat)
  deriving DecidableEq

/-- The lookahead loop of lines 153-156. -/
def skipBlanks (text : List Nat) (lineStartNext : Nat) : Nat → Nat → Nat → Nat × Nat
  | 0, chNext, pos => (chNext, pos)
  | fuel + 1, chNext, pos =>
    if chNext ≤ 32 ∧ pos < lineStartNext then
      skipBlanks text lineStartNext fuel (charAt text (pos + 1)) (pos + 1)
    else (chNext, pos)

/-- The lookahead of lines 147-156: the first byte above a blank, and its
position. -/
def lookahead (p : Pass) (sc : StyleContext Style) : Nat × Nat :=
  let first : Nat × Nat :=
    if sc.ch ≤ 32 ∧ sc.currentPos < sc.lineStartNext then (sc.chNext, sc.currentPos + 1)
    else (sc.ch, sc.currentPos)
  skipBlanks p.text sc.lineStartNext (sc.lineStartNext - first.2) first.1 first.2

/-- Lines 200-225: whether `end` or `type` is followed by a word that takes
the folding away (`type is`, `end file`, `end union`, `end map`,
`end structure`). -/
def partnerUnfolds (p : Pass) (sc : StyleContext Style) (kwType : KeywordType) (pos : Nat) : Bool :=
  let buf := GetRangeLowered p.text pos sc.lineStartNext 12
  let index : Nat :=
    if kwType = .Type then
      (if [105, 115].isPrefixOf buf then 2 else 0)
    else if [102, 105, 108, 101].isPrefixOf buf then 4
    else if [117, 110, 105, 111, 110].isPrefixOf buf then 5
    else if [109, 97, 112].isPrefixOf buf then 3
    else if [115, 116, 114, 117, 99, 116, 117, 114, 101].isPrefixOf buf then 9
    else 0
  decide (index ≠ 0) && !IsIdentifierChar (buf.getD index 0)

/-- The outcome of classifying a finished identifier: its style and the new
`kwType` and `ifConstruct`. -/
structure Classified where
  state : Style
  kwType : KeywordType
  ifConstruct : Bool
  deriving DecidableEq, Repr

/-- Lines 133-145: the table lookups, in their order. -/
def tableStyle (keywordLists : LexerWordList) (s : List Nat) (prevWord : KeywordType) : Style :=
  if (keywordLists KeywordIndex_CodeFolding).InList s then SCE_F_FOLDING_WORD
  else if (keywordLists KeywordIndex_Keyword).InList s then SCE_F_WORD
  else if (keywordLists KeywordIndex_Type).InList s then SCE_F_TYPE
  else if (keywordLists KeywordIndex_Attribute).InList s then SCE_F_ATTRIBUTE
  else if (keywordLists KeywordIndex_Function).InListPrefixed s 40 then SCE_F_INTRINSIC
  else if prevWord = .Function ∨ prevWord = .Call then prevWord.toStyle
  else SCE_F_IDENTIFIER

/-- Lines 161-171: a reserved keyword at bracket depth 0. -/
def classifyWord (s : List Nat) (ifConstruct : Bool) : Classified :=
  let kw1 : KeywordType := if s = str "call" then .Call else .None
  if s = str "else" then ⟨SCE_F_WORD, .Else, ifConstruct⟩
  else if s = str "change" then ⟨SCE_F_WORD, .Change, ifConstruct⟩
  else if ifConstruct ∧ s = str "then" then ⟨SCE_F_FOLDING_WORD, kw1, false⟩
  else ⟨SCE_F_WORD, kw1, ifConstruct⟩

/-- Lines 173-199: a folding keyword at bracket depth 0, before the partner
word is looked at. -/
def classifyFolding (s : List Nat) (prevWord : KeywordType) (ifConstruct : Bool)
    (chNext : Nat) : Classified :=
  let state : Style :=
    if prevWord = .End ∨ prevWord = .Module then SCE_F_WORD else SCE_F_FOLDING_WORD
  if s = str "end" then ⟨state, .End, ifConstruct⟩
  else if s = str "module" then ⟨state, .Module, ifConstruct⟩
  else if s = str "select" ∨ s = str "enumeration" then ⟨state, .Select, ifConstruct⟩
  else if s = str "function" ∨ s = str "subroutine" then ⟨state, .Function, ifConstruct⟩
  else if state = SCE_F_FOLDING_WORD then
    if s = str "if" then ⟨SCE_F_WORD, .None, decide (prevWord ≠ .Else)⟩
    else if s = str "type" then
      if chNext = 40 ∨ prevWord = .Select then ⟨SCE_F_WORD, .None, ifConstruct⟩
      else ⟨state, .Type, ifConstruct⟩
    else if s = str "team" then
      if prevWord ≠ .Change then ⟨SCE_F_WORD, .None, ifConstruct⟩
      else ⟨state, .None, ifConstruct⟩
    else ⟨state, .None, ifConstruct⟩
  else ⟨state, .None, ifConstruct⟩

/-- Lines 146-227: the classification of the identifier that ends at the
cursor, from the style `state` that the tables of lines 133-145 gave it. -/
def classifyFrom (p : Pass) (L : Lexer) (state : Style) : Classified :=
  let s := L.sc.GetCurrentLowered p 64
  let prevWord := L.kwType
  if state = SCE_F_WORD ∨ state = SCE_F_FOLDING_WORD then
    let la := lookahead p L.sc
    if la.1 = 61 then ⟨SCE_F_ATTRIBUTE, .None, L.ifConstruct⟩
    else if L.parenCount ≠ 0 then ⟨SCE_F_WORD, .None, L.ifConstruct⟩
    else if state = SCE_F_WORD then classifyWord s L.ifConstruct
    else
      let c := classifyFolding s prevWord L.ifConstruct la.1
      if c.state = SCE_F_FOLDING_WORD ∧ (c.kwType = .End ∨ c.kwType = .Type) ∧ IsAlpha la.1
          ∧ partnerUnfolds p L.sc c.kwType la.2 then
        { c with state := SCE_F_WORD }
      else c
  else ⟨state, .None, L.ifConstruct⟩

/-- Lines 126-227: the classification of the identifier that ends at the
cursor. -/
def classify (p : Pass) (keywordLists : LexerWordList) (L : Lexer) : Classified :=
  classifyFrom p L (tableStyle keywordLists (L.sc.GetCurrentLowered p 64) L.kwType)

/-- Lines 235-263: the two string states. -/
def stringCase (p : Pass) (L : Lexer) : Lexer :=
  if L.sc.atLineStart ∧ L.lineState ≠ FortranLineStateLineContinuation then
    { L with sc := L.sc.SetState SCE_F_DEFAULT }
  else
    let L := if L.sc.atLineStart then { L with lineState := 0 } else L
    let sc := L.sc
    if sc.ch = 38 ∧ IsEOLChar sc.chNext then
      { L with lineState := FortranLineStateLineContinuation }
    else if sc.ch = 92 then
      let r := EscapeSequence.resetEscapeState sc.state sc.chNext
      if r.2 then { L with escSeq := r.1, sc := (sc.SetState SCE_F_ESCAPECHAR).Forward p }
      else { L with escSeq := r.1 }
    else if sc.ch = (if sc.state = SCE_F_STRING_SQ then 39 else 34) then
      if sc.ch = sc.chNext then
        { L with escSeq := { outerState := sc.state, digitsLeft := 1 },
                 sc := (sc.SetState SCE_F_ESCAPECHAR).Forward p }
      else
        { L with sc := (sc.Forward p).SetState SCE_F_DEFAULT }
    else L

/-- Lines 129-130 and 228-231: the finished identifier takes its style and
the scanner goes back to the default state. -/
def identifierCase (c : Classified) (L : Lexer) : Lexer :=
  let sc1 := if c.state ≠ SCE_F_IDENTIFIER then L.sc.ChangeState c.state else L.sc
  { L with kwType := c.kwType, ifConstruct := c.ifConstruct, sc := sc1.SetState SCE_F_DEFAULT }

/-- The `switch` of lines 98-278; the flag says that `continue` was taken
(line 268). -/
def switchCase (p : Pass) (keywordLists : LexerWordList) (L : Lexer) : Lexer × Bool :=
  let sc := L.sc
  match sc.state with
  | SCE_F_OPERATOR => ({ L with sc := sc.SetState SCE_F_DEFAULT }, false)
  | SCE_F_OPERATOR2 =>
    if sc.ch = 46 then ({ L with sc := sc.ForwardSetState p SCE_F_DEFAULT }, false)
    else if !IsAlpha sc.ch then ({ L with sc := (sc.Rewind p).SetState SCE_F_OPERATOR }, false)
    else (L, false)
  | SCE_F_NUMBER =>
    if !IsIdentifierChar sc.ch then
      if IsFloatExponent sc.chPrev sc.ch sc.chNext then ({ L with sc := sc.Forward p }, false)
      else if sc.ch ≠ 46 ∨ sc.chPrev = 46 ∨ (IsAlpha sc.chNext
          ∧ ¬(UnsafeLower sc.chNext = 101 ∧ IsADigit (sc.GetRelative p 2))) then
        ({ L with sc := sc.SetState SCE_F_DEFAULT }, false)
      else (L, false)
    else (L, false)
  | SCE_F_IDENTIFIER =>
    if !IsIdentifierChar sc.ch then (identifierCase (classify p keywordLists L) L, false)
    else (L, false)
  | SCE_F_STRING_SQ => (stringCase p L, false)
  | SCE_F_STRING_DQ => (stringCase p L, false)
  | SCE_F_ESCAPECHAR =>
    let r := L.escSeq.atEscapeEnd sc.ch
    if r.2 then ({ L with escSeq := r.1, sc := sc.SetState r.1.outerState }, true)
    else ({ L with escSeq := r.1 }, false)
  | SCE_F_COMMENT =>
    if sc.atLineStart then ({ L with sc := sc.SetState SCE_F_DEFAULT }, false) else (L, false)
  | SCE_F_PREPROCESSOR =>
    if sc.atLineStart then ({ L with sc := sc.SetState SCE_F_DEFAULT }, false) else (L, false)
  | _ => (L, false)

/-- Lines 282-287: whether a comment sigil at the start of a line opens a
directive. -/
def isDirective (p : Pass) (sc : StyleContext Style) : Bool :=
  decide (sc.chNext = 36) ||
    (IsAlpha sc.chNext &&
      (let s := GetRangeLowered p.text (sc.currentPos + 1) sc.lineStartNext 5
       (str "dec$").isPrefixOf s || (str "dir$").isPrefixOf s || (str "gcc$").isPrefixOf s
         || (str "ms$").isPrefixOf s))

/-- Lines 280-321: the dispatch made in the default state. -/
def defaultCase (p : Pass) (L : Lexer) : Lexer :=
  let sc := L.sc
  if sc.state ≠ SCE_F_DEFAULT then L
  else if L.visibleChars = 0 ∧ sc.ch ∈ [67, 99, 42, 33] then
    if isDirective p sc then { L with sc := sc.SetState SCE_F_PREPROCESSOR }
    else if UnsafeLower sc.ch = 99 ∧ IsAGraphic sc.chNext then
      { L with sc := sc.SetState SCE_F_IDENTIFIER }
    else { L with lineState := 1, sc := sc.SetState SCE_F_COMMENT }
  else if L.visibleChars = 0 ∧ sc.ch = 35 then { L with sc := sc.SetState SCE_F_PREPROCESSOR }
  else if sc.ch = 33 then { L with sc := sc.SetState SCE_F_COMMENT }
  else if sc.ch = 34 then { L with sc := sc.SetState SCE_F_STRING_DQ }
  else if sc.ch = 39 then { L with sc := sc.SetState SCE_F_STRING_SQ }
  else if IsNumberStart sc.ch sc.chNext then { L with sc := sc.SetState SCE_F_NUMBER }
  else if IsIdentifierStart sc.ch then { L with sc := sc.SetState SCE_F_IDENTIFIER }
  else if sc.ch = 46 ∧ IsAlpha sc.chNext then { L with sc := sc.SetState SCE_F_OPERATOR2 }
  else if IsAGraphic sc.ch then
    let parenCount :=
      if sc.ch = 40 ∨ sc.ch = 91 ∨ sc.ch = 123 then L.parenCount + 1
      else if sc.ch = 41 ∨ sc.ch = 93 ∨ sc.ch = 125 then
        (if L.parenCount > 0 then L.parenCount - 1 else L.parenCount)
      else L.parenCount
    { L with kwType := .None, parenCount := parenCount, sc := sc.SetState SCE_F_OPERATOR }
  else L

/-- Lines 323-333: the end of an iteration. -/
def lineTail (p : Pass) (L : Lexer) : Lexer :=
  let L1 := if L.visibleChars = 0 ∧ !isspacechar L.sc.ch then
      { L with visibleChars := L.visibleChars + 1 } else L
  let L2 := if L1.sc.atLineEnd then
      { L1 with lineWrites :=
                  L1.lineWrites ++ [(L1.sc.currentLine, encodeLineState L1.lineState L1.parenCount)],
                lineState := L1.lineState &&& FortranLineStateLineContinuation,
                visibleChars := 0, kwType := .None, ifConstruct := false }
    else L1
  { L2 with sc := L2.sc.Forward p }

/-- One iteration of the loop of lines 97-334. -/
def step (p : Pass) (keywordLists : LexerWordList) (L : Lexer) : Lexer :=
  let r := switchCase p keywordLists L
  if r.2 then r.1 else lineTail p (defaultCase p r.1)

/-- The loop of lines 97-334, for at most the given number of iterations. -/
def run (p : Pass) (keywordLists : LexerWordList) : Nat → Lexer → Lexer
  | 0, L => L
  | n + 1, L => if L.sc.More p then run p keywordLists n (step p keywordLists L) else L

/-- Lines 79-95: the state in which the loop is entered. -/
def initLexer (text : List Nat) (startPos : Nat) (initStyle : Style)
    (lineStates : Nat → Nat) : Lexer :=
  let sc := StyleContext.init text startPos initStyle
  let lineState := if sc.currentLine > 0 then lineStates (sc.currentLine - 1) else 0
  { sc := sc,
    lineState := if sc.currentLine > 0 then decodeContinuation lineState else 0,
    visibleChars := 0,
    parenCount := if sc.currentLine > 0 then decodeParenCount lineState else 0,
    ifConstruct := false, kwType := .None,
    escSeq := { outerState := SCE_F_DEFAULT, digitsLeft := 0 },
    lineWrites := [] }

/-- A number of iterations that the loop never exceeds. -/
def loopBound (endPos : Nat) : Nat := (3 * (endPos + 1) + 3) * (2 * endPos + 4) + 1

/-- `ColouriseFortranDoc` (lines 78-337). -/
def ColouriseFortranDoc (text : List Nat) (startPos length : Nat) (initStyle : Style)
    (keywordLists : LexerWordList) (lineStates : Nat → Nat) : Lexer :=
  let p : Pass := { text := text, endPos := passEnd text startPos length }
  let L := run p keywordLists (loopBound p.endPos) (initLexer text startPos initStyle lineStates)
  { L with sc := L.sc.Complete p }

/-- The line states held by the host once the calls of `SetLineState` in
`writes` are made on the store `lineStates`. -/
def applyLineWrites (lineStates : Nat → Nat) (writes : List (Nat × Nat)) : Nat → Nat :=
  writes.foldl (fun f w => Function.update f w.1 w.2) lineStates

/-! ## The Fortran fold pass (LexFortran.cxx, lines 343-410) -/

/-- Modelled from the spec: `SC_FOLDLEVELBASE` of Scintilla.h. -/
def SC_FOLDLEVELBASE : Nat := 0x400

/-- Modelled from the spec: `SC_FOLDLEVELHEADERFLAG` of Scintilla.h. -/
def SC_FOLDLEVELHEADERFLAG : Nat := 0x2000

/-- One call of `styler.SetLevel(line, lev)` (line 400), with the values of
`levelUse` and `levelNext` that `lev` was packed from. -/
structure LevelWrite where
  line : Nat
  levelUse : Nat
  levelNext : Nat
  lev : Nat
  deriving DecidableEq, Repr

/-- What the fold pass reads: the text, the styles, the line states. -/
structure FoldInput where
  text : List Nat
  styleAt : Nat → Style
  lineState : Nat → Nat
  endPos : Nat

/-- The local variables of `FoldFortranDoc` while it runs, and the calls of
`SetLevel` made so far. -/
structure FoldState where
  startPos : Nat
  lineCurrent : Nat
  levelCurrent : Nat
  levelNext : Int
  lineCommentPrev : Nat
  lineCommentCurrent : Nat
  lineStartNext : Nat
  style : Style
  writes : List LevelWrite

/-- The loop of lines 370-378: the letters after the first one, at most 8 of
them; the result is the cursor and the buffer. -/
def captureWord (text : List Nat) : Nat → Nat → List Nat → Nat × List Nat
  | 0, pos, buf => (pos, buf)
  | fuel + 1, pos, buf =>
    let ch := charAt text pos
    if !IsAlpha ch then (pos, buf)
    else captureWord text fuel (pos + 1) (buf ++ [UnsafeLower ch])

/-- Lines 363-386: the effect of entering a folding-keyword run at the
cursor: the new cursor and the change of `levelNext`. -/
def foldWord (text : List Nat) (startPos : Nat) : Nat × Int :=
  let ch := charAt text startPos
  if ch ∈ [67, 69, 99, 101] then
    let r := captureWord text 8 (startPos + 1) [UnsafeLower ch]
    if (str "end").isPrefixOf r.2 ∨ r.2 = str "continue" then (r.1 - 1, 1 - 2) else (r.1 - 1, 1)
  else (startPos + 1, 1)

/-- Lines 389-407: the end of a line. -/
def foldLineEnd (f : FoldInput) (s : FoldState) : FoldState :=
  let lineCommentNext := GetLineCommentState (f.lineState (s.lineCurrent + 1))
  let clamped : Int := max s.levelNext (SC_FOLDLEVELBASE : Int)
  let levelNext : Int :=
    if s.lineCommentCurrent ≠ 0 then clamped + ((lineCommentNext : Int) - (s.lineCommentPrev : Int))
    else clamped
  let levelUse := s.levelCurrent
  let lev := (levelUse ||| (levelNext.toNat <<< 16)) % 2 ^ 32
  let lev := if (levelUse : Int) < levelNext then lev ||| SC_FOLDLEVELHEADERFLAG else lev
  { s with writes := s.writes ++ [⟨s.lineCurrent, levelUse, levelNext.toNat, lev⟩],
           lineCurrent := s.lineCurrent + 1,
           lineStartNext := min (LineStart f.text (s.lineCurrent + 2)) f.endPos,
           levelCurrent := levelNext.toNat, levelNext := levelNext,
           lineCommentPrev := s.lineCommentCurrent, lineCommentCurrent := lineCommentNext }

/-- Lines 360-388: the style at the cursor is read, a folding-keyword run
that starts there is accounted for, and the cursor moves on. -/
def foldAdvance (f : FoldInput) (s : FoldState) : FoldState :=
  let stylePrev := s.style
  let style := f.styleAt s.startPos
  if style = SCE_F_FOLDING_WORD ∧ stylePrev ≠ SCE_F_FOLDING_WORD then
    let r := foldWord f.text s.startPos
    { s with style := style, startPos := r.1 + 1, levelNext := s.levelNext + r.2 }
  else { s with style := style, startPos := s.startPos + 1 }

/-- One iteration of the loop of lines 359-409. -/
def foldStep (f : FoldInput) (s : FoldState) : FoldState :=
  let s2 := foldAdvance f s
  if s2.startPos = s2.lineStartNext then foldLineEnd f s2 else s2

/-- The loop of lines 359-409, for at most the given number of iterations. -/
def foldLoop (f : FoldInput) : Nat → FoldState → FoldState
  | 0, s => s
  | n + 1, s => if s.startPos < f.endPos then foldLoop f n (foldStep f s) else s

/-- Lines 344-358: the state in which the loop is entered. -/
def foldInit (f : FoldInput) (levelAt : Nat → Nat) (startPos : Nat) : FoldState :=
  let lineCurrent := GetLine f.text startPos
  let levelCurrent := if lineCurrent > 0 then levelAt (lineCurrent - 1) >>> 16 else SC_FOLDLEVELBASE
  { startPos := startPos, lineCurrent := lineCurrent, levelCurrent := levelCurrent,
    levelNext := levelCurrent,
    lineCommentPrev :=
      if lineCurrent > 0 then GetLineCommentState (f.lineState (lineCurrent - 1)) else 0,
    lineCommentCurrent := GetLineCommentState (f.lineState lineCurrent),
    lineStartNext := min (LineStart f.text (lineCurrent + 1)) f.endPos,
    style := SCE_F_DEFAULT, writes := [] }

/-- `FoldFortranDoc` (lines 343-410): the calls of `SetLevel` it makes, in
their order. -/
def FoldFortranDoc (text : List Nat) (styleAt : Nat → Style) (lineState : Nat → Nat)
    (levelAt : Nat → Nat) (startPos lengthDoc : Nat) : List LevelWrite :=
  let f : FoldInput := ⟨text, styleAt, lineState, startPos + lengthDoc⟩
  (foldLoop f lengthDoc (foldInit f levelAt startPos)).writes

end Fortran

namespace SAS

/-! ## The SAS tokenizer (LexSAS.cxx, lines 34-156) -/

/-- The `SCE_SAS_*` styles of SciLexer.h. -/
inductive Style
  | SCE_SAS_DEFAULT | SCE_SAS_OPERATOR | SCE_SAS_NUMBER | SCE_SAS_MACRO | SCE_SAS_IDENTIFIER
  | SCE_SAS_STRINGDQ | SCE_SAS_STRINGSQ | SCE_SAS_COMMENT | SCE_SAS_COMMENTBLOCK
  | SCE_SAS_WORD | SCE_SAS_MACRO_KEYWORD | SCE_SAS_MACRO_FUNCTION | SCE_SAS_BASIC_FUNCTION
  deriving DecidableEq, Repr, Inhabited

open Style

/-- `KeywordIndex_Keyword` (line 28). -/
def KeywordIndex_Keyword : Nat := 0
/-- `KeywordIndex_Macro` (line 29). -/
def KeywordIndex_Macro : Nat := 1
/-- `KeywordIndex_Function` (line 30). -/
def KeywordIndex_Function : Nat := 2

/-- Modelled from the spec: `PyLineStateMaskEmptyLine` of LexerUtils.h. -/
def PyLineStateMaskEmptyLine : Nat := 1
/-- Modelled from the spec: `PyLineStateMaskCommentLine` of LexerUtils.h. -/
def PyLineStateMaskCommentLine : Nat := 2
/-- Modelled from the spec: `PyLineStateMaskCloseBrace` of LexerUtils.h. -/
def PyLineStateMaskCloseBrace : Nat := 8

/-- Modelled from the spec: `GetTabIndentCount`, the next multiple of 4. -/
def GetTabIndentCount (indentCount : Nat) : Nat := (indentCount / 4 + 1) * 4

/-- Modelled from the spec: `StyleContext::GetLineNextChar()`: the first byte
from the cursor to the end of the line that is not white space, or 0. -/
def GetLineNextChar (p : Pass) (sc : StyleContext Style) : Nat :=
  if !isspacechar sc.ch then sc.ch
  else
    (((p.text.drop (sc.currentPos + 1)).take (sc.lineStartNext - (sc.currentPos + 1))).find?
      (fun c => !isspacechar c)).getD 0

/-- The local variables of `ColouriseSASDoc` (lines 35-40) and the calls of
`styler.SetLineState(line, value)` made so far, in their order. -/
structure Lexer where
  sc : StyleContext Style
  visibleChars : Nat
  indentCount : Nat
  lineState : Nat
  chPrevNonWhite : Nat
  lineWrites : List (Nat × Nat)
  deriving DecidableEq

/-- The loop of lines 77-79, which skips the letters after a closing quote. -/
def forwardWhileAlpha (p : Pass) : Nat → StyleContext Style → StyleContext Style
  | 0, sc => sc
  | fuel + 1, sc => if IsAlpha sc.ch then forwardWhileAlpha p fuel (sc.Forward p) else sc

/-- Lines 54-70: the end of an identifier or of a macro name. -/
def wordCase (p : Pass) (keywordLists : LexerWordList) (sc : StyleContext Style) :
    StyleContext Style :=
  if !IsIdentifierChar sc.ch then
    let s := sc.GetCurrentLowered p 64
    let sc1 :=
      if sc.state = SCE_SAS_MACRO then
        if (keywordLists KeywordIndex_Macro).InListPrefixed (s.drop 1) 40 then
          sc.ChangeState (if sc.ch = 40 then SCE_SAS_MACRO_FUNCTION else SCE_SAS_MACRO_KEYWORD)
        else sc
      else if (keywordLists KeywordIndex_Keyword).InList s then sc.ChangeState SCE_SAS_WORD
      else if sc.ch = 40 ∧ (keywordLists KeywordIndex_Function).InListPrefixed s 40 then
        sc.ChangeState SCE_SAS_BASIC_FUNCTION
      else sc
    sc1.SetState SCE_SAS_DEFAULT
  else sc

/-- Lines 84-98: the two comment states. -/
def commentCase (p : Pass) (L : Lexer) : Lexer :=
  let L := if L.sc.atLineStart then { L with lineState := PyLineStateMaskCommentLine } else L
  let sc := L.sc
  if (sc.state = SCE_SAS_COMMENT ∧ sc.ch = 59) ∨ (sc.state ≠ SCE_SAS_COMMENT ∧ sc.Match 42 47) then
    let sc1 := if sc.state ≠ SCE_SAS_COMMENT then sc.Forward p else sc
    let sc2 := sc1.ForwardSetState p SCE_SAS_DEFAULT
    if L.lineState = PyLineStateMaskCommentLine ∧ GetLineNextChar p sc2 ≠ 0 then
      { L with sc := sc2, lineState := 0 }
    else { L with sc := sc2 }
  else L

/-- The `switch` of lines 43-99. -/
def switchCase (p : Pass) (keywordLists : LexerWordList) (L : Lexer) : Lexer :=
  let sc := L.sc
  match sc.state with
  | SCE_SAS_OPERATOR => { L with sc := sc.SetState SCE_SAS_DEFAULT }
  | SCE_SAS_NUMBER =>
    if !IsDecimalNumber sc.chPrev sc.ch sc.chNext then { L with sc := sc.SetState SCE_SAS_DEFAULT }
    else L
  | SCE_SAS_MACRO => { L with sc := wordCase p keywordLists sc }
  | SCE_SAS_IDENTIFIER => { L with sc := wordCase p keywordLists sc }
  | SCE_SAS_STRINGDQ =>
    if sc.ch = 34 then
      let sc1 := sc.Forward p
      { L with sc := (forwardWhileAlpha p (p.endPos + 1 - sc1.currentPos) sc1).SetState
                        SCE_SAS_DEFAULT }
    else L
  | SCE_SAS_STRINGSQ =>
    if sc.ch = 39 then
      let sc1 := sc.Forward p
      { L with sc := (forwardWhileAlpha p (p.endPos + 1 - sc1.currentPos) sc1).SetState
                        SCE_SAS_DEFAULT }
    else L
  | SCE_SAS_COMMENT => commentCase p L
  | SCE_SAS_COMMENTBLOCK => commentCase p L
  | _ => L

/-- Lines 101-127: the dispatch made in the default state. -/
def defaultCase (p : Pass) (L : Lexer) : Lexer :=
  let sc := L.sc
  if sc.state ≠ SCE_SAS_DEFAULT then L
  else
    let L1 : Lexer :=
      if sc.ch = 34 then { L with sc := sc.SetState SCE_SAS_STRINGDQ }
      else if sc.ch = 39 then { L with sc := sc.SetState SCE_SAS_STRINGSQ }
      else if sc.Match 47 42 then { L with sc := (sc.SetState SCE_SAS_COMMENTBLOCK).Forward p }
      else if sc.Match 37 42 then { L with sc := sc.SetState SCE_SAS_COMMENT }
      else if IsNumberStart sc.ch sc.chNext then { L with sc := sc.SetState SCE_SAS_NUMBER }
      else if IsIdentifierStart sc.ch ∨ (sc.ch = 37 ∧ IsIdentifierStart sc.chNext) then
        { L with sc := sc.SetState (if sc.ch = 37 then SCE_SAS_MACRO else SCE_SAS_IDENTIFIER) }
      else if IsAGraphic sc.ch then
        let sc1 := sc.SetState SCE_SAS_OPERATOR
        if sc.ch = 42 ∧ L.chPrevNonWhite ∈ [0, 59, 47] then
          { L with sc := sc1.ChangeState SCE_SAS_COMMENT }
        else if L.visibleChars = 0 ∧ (sc.ch = 125 ∨ sc.ch = 93 ∨ sc.ch = 41) then
          { L with sc := sc1, lineState := L.lineState ||| PyLineStateMaskCloseBrace }
        else { L with sc := sc1 }
      else L
    if L1.visibleChars = 0 ∧ (L1.sc.state = SCE_SAS_COMMENT ∨ L1.sc.state = SCE_SAS_COMMENTBLOCK)
    then { L1 with lineState := PyLineStateMaskCommentLine }
    else L1

/-- Lines 129-152: the end of an iteration. -/
def lineTail (p : Pass) (L : Lexer) : Lexer :=
  let ch := L.sc.ch
  let L1 : Lexer :=
    if L.visibleChars = 0 then
      if ch = 32 then { L with indentCount := L.indentCount + 1 }
      else if ch = 9 then { L with indentCount := GetTabIndentCount L.indentCount }
      else if !isspacechar ch then { L with visibleChars := L.visibleChars + 1 }
      else L
    else L
  let L2 := if ch > 32 then { L1 with chPrevNonWhite := ch } else L1
  let L3 : Lexer :=
    if L2.sc.atLineEnd then
      let ls := L2.lineState ||| (L2.indentCount <<< 16)
      let ls := if L2.visibleChars = 0 ∧ ls &&& PyLineStateMaskCommentLine = 0
        then ls ||| PyLineStateMaskEmptyLine else ls
      { L2 with lineWrites := L2.lineWrites ++ [(L2.sc.currentLine, ls % 2 ^ 32)],
                lineState := 0, visibleChars := 0, indentCount := 0, chPrevNonWhite := 0 }
    else L2
  { L3 with sc := L3.sc.Forward p }

/-- One iteration of the loop of lines 42-153. -/
def step (p : Pass) (keywordLists : LexerWordList) (L : Lexer) : Lexer :=
  lineTail p (defaultCase p (switchCase p keywordLists L))

/-- The loop of lines 42-153, for at most the given number of iterations. -/
def run (p : Pass) (keywordLists : LexerWordList) : Nat → Lexer → Lexer
  | 0, L => L
  | n + 1, L => if L.sc.More p then run p keywordLists n (step p keywordLists L) else L

/-- Lines 35-40: the state in which the loop is entered. -/
def initLexer (text : List Nat) (startPos : Nat) (initStyle : Style) : Lexer :=
  { sc := StyleContext.init text startPos initStyle, visibleChars := 0, indentCount := 0,
    lineState := 0, chPrevNonWhite := 0, lineWrites := [] }

/-- `ColouriseSASDoc` (lines 34-156). -/
def ColouriseSASDoc (text : List Nat) (startPos length : Nat) (initStyle : Style)
    (keywordLists : LexerWordList) : Lexer :=
  let p : Pass := { text := text, endPos := passEnd text startPos length }
  let L := run p keywordLists (p.endPos + 1 - startPos) (initLexer text startPos initStyle)
  { L with sc := L.sc.Complete p }

end SAS

/-! ## Invariants used in the proofs -/

namespace Fortran

open Style

/-- Whether the iteration entered in `L` finishes an identifier (line 125). -/
def exits (L : Lexer) : Bool :=
  decide (L.sc.state = SCE_F_IDENTIFIER) && !IsIdentifierChar L.sc.ch

/-- One iteration of the loop, with the classification of the identifier that
it may finish supplied from outside. -/
def stepG (p : Pass) (c : Classified) (L : Lexer) : Lexer :=
  if exits L then lineTail p (defaultCase p (identifierCase c L))
  else step p (fun _ => ⟨[]⟩) L

/-- What is known of the keyword tables: for some table indices and words
whether the word is listed, and for some words whether the function table
lists them before a `(`. -/
structure Known where
  inList : List (Nat × List Nat × Bool)
  inListPrefixed : List (List Nat × Bool)

/-- The known answer of `InList`, if any. -/
def Known.getList (k : Known) (i : Nat) (s : List Nat) : Option Bool :=
  (k.inList.find? (fun e => decide (e.1 = i) && decide (e.2.1 = s))).map (fun e => e.2.2)

/-- The known answer of `InListPrefixed` on the function table, if any. -/
def Known.getPrefixed (k : Known) (s : List Nat) : Option Bool :=
  (k.inListPrefixed.find? (fun e => decide (e.1 = s))).map (fun e => e.2)

/-- The tables agree with what is known of them. -/
def Known.Holds (k : Known) (keywordLists : LexerWordList) : Prop :=
  (∀ e ∈ k.inList, (keywordLists e.1).InList e.2.1 = e.2.2) ∧
  (∀ e ∈ k.inListPrefixed, (keywordLists KeywordIndex_Function).InListPrefixed e.1 40 = e.2)

/-- The lookups of `tableStyle`, answered from what is known; `none` when an
answer that is needed is not known. -/
def tableStyleK (k : Known) (s : List Nat) (prevWord : KeywordType) : Option Style :=
  (k.getList KeywordIndex_CodeFolding s).bind fun b1 =>
  if b1 then some SCE_F_FOLDING_WORD else
  (k.getList KeywordIndex_Keyword s).bind fun b2 =>
  if b2 then some SCE_F_WORD else
  (k.getList KeywordIndex_Type s).bind fun b3 =>
  if b3 then some SCE_F_TYPE else
  (k.getList KeywordIndex_Attribute s).bind fun b4 =>
  if b4 then some SCE_F_ATTRIBUTE else
  (k.getPrefixed s).bind fun b5 =>
  if b5 then some SCE_F_INTRINSIC
  else if prevWord = .Function ∨ prevWord = .Call then some prevWord.toStyle
  else some SCE_F_IDENTIFIER

/-- The loop run from what is known of the tables. -/
def runK (p : Pass) (k : Known) : Nat → Lexer → Option Lexer
  | 0, L => some L
  | n + 1, L =>
    if L.sc.More p then
      if exits L then
        (tableStyleK k (L.sc.GetCurrentLowered p 64) L.kwType).bind fun t =>
          runK p k n (stepG p (classifyFrom p L t) L)
      else runK p k n (stepG p ⟨SCE_F_DEFAULT, .None, false⟩ L)
    else some L

/-- The packed integer of line 396-399. -/
def packLevel (levelUse levelNext : Nat) : Nat :=
  let lev := (levelUse ||| (levelNext <<< 16)) % 2 ^ 32
  if levelUse < levelNext then lev ||| SC_FOLDLEVELHEADERFLAG else lev

/-- Keyword tables used in the examples: reserved words `then`, `else`,
`call`; folding words `end`, `if`, `do`; functions `abs(`, `sin(`. -/
def kwDemo : LexerWordList := fun i =>
  if i = KeywordIndex_Keyword then ⟨[str "then", str "else", str "call"]⟩
  else if i = KeywordIndex_CodeFolding then ⟨[str "end", str "if", str "do"]⟩
  else if i = KeywordIndex_Function then ⟨[str "abs(", str "sin("]⟩
  else ⟨[]⟩

/-- The state in which the loop is after `n` iterations over the whole of
`text`, entered in the default state, with the example tables. -/
def demoState (text : List Nat) (n : Nat) : Lexer :=
  run ⟨text, passEnd text 0 text.length⟩ kwDemo n (initLexer text 0 SCE_F_DEFAULT (fun _ => 0))

/-- What is known in the examples on `if (c) then`: `if` is a folding word,
`then` and `else` are reserved words only, and the five lookups of the word
`c` give `b1` .. `b5`. -/
def knownIfThen (b1 b2 b3 b4 b5 : Bool) : Known :=
  ⟨[(KeywordIndex_CodeFolding, str "if", true), (KeywordIndex_CodeFolding, str "then", false),
    (KeywordIndex_Keyword, str "then", true), (KeywordIndex_CodeFolding, str "else", false),
    (KeywordIndex_Keyword, str "else", true),
    (KeywordIndex_CodeFolding, str "c", b1), (KeywordIndex_Keyword, str "c", b2),
    (KeywordIndex_Type, str "c", b3), (KeywordIndex_Attribute, str "c", b4)],
   [(str "c", b5)]⟩

/-- The styles painted by a pass over the whole of `text` from the default
state, when the tables are as known; `none` when more must be known. -/
def stylesK (text : List Nat) (k : Known) : Option (List Style) :=
  (runK ⟨text, passEnd text 0 text.length⟩ k (loopBound (passEnd text 0 text.length))
    (initLexer text 0 SCE_F_DEFAULT (fun _ => 0))).map
      (fun L => (L.sc.Complete ⟨text, passEnd text 0 text.length⟩).styles)

/-- What is known when only the word `w` is looked up: its five lookups give
`b1` .. `b5`. -/
def knownWord (w : List Nat) (b1 b2 b3 b4 b5 : Bool) : Known :=
  ⟨[(KeywordIndex_CodeFolding, w, b1), (KeywordIndex_Keyword, w, b2),
    (KeywordIndex_Type, w, b3), (KeywordIndex_Attribute, w, b4)],
   [(w, b5)]⟩

/-- What is known of the tables `keywordLists` about the word `w`. -/
def knownOf (keywordLists : LexerWordList) (w : List Nat) : Known :=
  knownWord w ((keywordLists KeywordIndex_CodeFolding).InList w)
    ((keywordLists KeywordIndex_Keyword).InList w) ((keywordLists KeywordIndex_Type).InList w)
    ((keywordLists KeywordIndex_Attribute).InList w)
    ((keywordLists KeywordIndex_Function).InListPrefixed w 40)

/-- A fresh document is tokenized and then folded, both over its whole
length: the calls of `SetLevel` made. -/
def lexAndFold (text : List Nat) (keywordLists : LexerWordList) : List LevelWrite :=
  let L := ColouriseFortranDoc text 0 text.length SCE_F_DEFAULT keywordLists (fun _ => 0)
  FoldFortranDoc text (fun pos => L.sc.styles.getD pos SCE_F_DEFAULT)
    (applyLineWrites (fun _ => 0) L.lineWrites) (fun _ => 0) 0 text.length

/-- Keyword tables with the one-letter folding word `a` and the folding word
`do`. -/
def kwOneLetter : LexerWordList := fun i =>
  if i = KeywordIndex_CodeFolding then ⟨[str "a", str "do"]⟩ else ⟨[]⟩

/-- The fold loop stands at the start of line `m`, at level `lvl` with no
pending change, the line before being a comment line or not as `prev` says. -/
structure AtLine (f : FoldInput) (s : FoldState) (m lvl prev : Nat) : Prop where
  pos : s.startPos = LineStart f.text m
  line : s.lineCurrent = m
  next : s.lineStartNext = LineStart f.text (m + 1)
  cur : s.levelCurrent = lvl
  pend : s.levelNext = lvl
  prev : s.lineCommentPrev = prev
  comment : s.lineCommentCurrent = GetLineCommentState (f.lineState m)

/-- What is known in the example on `end if`: `if` and `end` are folding
words, `then` is a reserved word only, and the five lookups of the word `c`
give `b1` .. `b5`. -/
def knownEndIf (b1 b2 b3 b4 b5 : Bool) : Known :=
  ⟨[(KeywordIndex_CodeFolding, str "if", true), (KeywordIndex_CodeFolding, str "end", true),
    (KeywordIndex_CodeFolding, str "then", false), (KeywordIndex_Keyword, str "then", true),
    (KeywordIndex_CodeFolding, str "c", b1), (KeywordIndex_Keyword, str "c", b2),
    (KeywordIndex_Type, str "c", b3), (KeywordIndex_Attribute, str "c", b4)],
   [(str "c", b5)]⟩

/-- Two states of the loop that differ at most in the bracket depth and in the
line states written so far. -/
def ParenEq (L M : Lexer) : Prop :=
  M.sc = L.sc ∧ M.lineState = L.lineState ∧ M.visibleChars = L.visibleChars ∧
  M.ifConstruct = L.ifConstruct ∧ M.kwType = L.kwType ∧ M.escSeq = L.escSeq

/-- The loop run from what is known of the tables, as long as no finished
identifier has its class decided by the bracket depth: `none` when a word of
the reserved or folding table is met that no `=` follows. -/
def runKP (p : Pass) (k : Known) : Nat → Lexer → Option Lexer
  | 0, L => some L
  | n + 1, L =>
    if L.sc.More p then
      if exits L then
        (tableStyleK k (L.sc.GetCurrentLowered p 64) L.kwType).bind fun t =>
          if (t = SCE_F_WORD ∨ t = SCE_F_FOLDING_WORD) ∧ (lookahead p L.sc).1 ≠ 61 then none
          else runKP p k n (stepG p (classifyFrom p L t) L)
      else runKP p k n (stepG p ⟨SCE_F_DEFAULT, .None, false⟩ L)
    else some L

/-- The state entered by the dispatch of lines 280-321, if any: it depends on
the cursor and on `visibleChars` only. -/
def dispatchState (p : Pass) (visibleChars : Nat) (sc : StyleContext Style) : Option Style :=
  if sc.state ≠ SCE_F_DEFAULT then none
  else if visibleChars = 0 ∧ sc.ch ∈ [67, 99, 42, 33] then
    if isDirective p sc then some SCE_F_PREPROCESSOR
    else if UnsafeLower sc.ch = 99 ∧ IsAGraphic sc.chNext then some SCE_F_IDENTIFIER
    else some SCE_F_COMMENT
  else if visibleChars = 0 ∧ sc.ch = 35 then some SCE_F_PREPROCESSOR
  else if sc.ch = 33 then some SCE_F_COMMENT
  else if sc.ch = 34 then some SCE_F_STRING_DQ
  else if sc.ch = 39 then some SCE_F_STRING_SQ
  else if IsNumberStart sc.ch sc.chNext then some SCE_F_NUMBER
  else if IsIdentifierStart sc.ch then some SCE_F_IDENTIFIER
  else if sc.ch = 46 ∧ IsAlpha sc.chNext then some SCE_F_OPERATOR2
  else if IsAGraphic sc.ch then some SCE_F_OPERATOR
  else none

/-- The bracket depth after an operator byte (lines 310-316). -/
def bracketDepth (ch parenCount : Nat) : Nat :=
  if ch = 40 ∨ ch = 91 ∨ ch = 123 then parenCount + 1
  else if ch = 41 ∨ ch = 93 ∨ ch = 125 then (if parenCount > 0 then parenCount - 1 else parenCount)
  else parenCount

/-- The cursor is consistent with the pass that started at `startPos`: the
pending segment lies before the cursor, the cursor is not after the end of
the range, the styles painted so far are those of the positions before the
pending segment, which starts inside the text or right after it, and inside
the range the two bytes held by the cursor are those of the text. -/
structure ScOK {σ : Type} (p : Pass) (startPos : Nat) (sc : StyleContext σ) : Prop where
  seg_le : sc.startSeg ≤ sc.currentPos
  pos_le : sc.currentPos ≤ p.endPos
  seg_text : sc.startSeg ≤ p.text.length
  painted : sc.styles.length + startPos = sc.startSeg
  chars : sc.currentPos < p.endPos →
    sc.ch = charAt p.text sc.currentPos ∧ sc.chNext = charAt p.text (sc.currentPos + 1)

/-- The forms that the cursor can have after the `switch` of an iteration
entered with the cursor `sc`: unchanged; the pending segment closed on the
spot (possibly after a change of its style, and not in the dotted-operator
state); one step forward and the
segment closed (after a byte that is not 0); rewound to the start of the
segment, which becomes an operator; one step forward; or an escape sequence
opened and one step forward. -/
def SwitchForm (p : Pass) (sc sc' : StyleContext Style) : Prop :=
  (sc' = sc ∧ sc.state ≠ SCE_F_OPERATOR) ∨
  (∃ sc0, sc' = sc0.SetState SCE_F_DEFAULT ∧ (sc0 = sc ∨ ∃ s, sc0 = sc.ChangeState s) ∧
    sc.state ≠ SCE_F_OPERATOR2) ∨
  (sc' = (sc.Forward p).SetState SCE_F_DEFAULT ∧ sc.ch ≠ 0) ∨
  (sc' = (sc.Rewind p).SetState SCE_F_OPERATOR ∧ sc.state = SCE_F_OPERATOR2) ∨
  (sc' = sc.Forward p ∧ sc.state = SCE_F_NUMBER) ∨
  (sc' = (sc.SetState SCE_F_ESCAPECHAR).Forward p ∧
    (sc.state = SCE_F_STRING_SQ ∨ sc.state = SCE_F_STRING_DQ))

/-- The state to which an escape sequence returns is the default state or a
string state. -/
def OuterOK (L : Lexer) : Prop :=
  L.escSeq.outerState = SCE_F_DEFAULT ∨ L.escSeq.outerState = SCE_F_STRING_SQ ∨
    L.escSeq.outerState = SCE_F_STRING_DQ

/-- The rank of a state in the termination argument: the two operator states
come before all others. -/
def rank (s : Style) : Nat :=
  if s = SCE_F_OPERATOR then 0 else if s = SCE_F_OPERATOR2 then 1 else 2

/-- Whether the state is the escape state, as a number. -/
def escBit (s : Style) : Nat := if s = SCE_F_ESCAPECHAR then 1 else 0

/-- The quantity that every iteration of the loop of `ColouriseFortranDoc`
lowers: first the room after the start of the pending segment together with
the rank of the state, then the room after the cursor together with the
escape bit. -/
def scanMeasure (p : Pass) (sc : StyleContext Style) : Nat :=
  (3 * (p.endPos + 1 - sc.startSeg) + rank sc.state) * (2 * p.endPos + 4)
    + (2 * (p.endPos - sc.currentPos) + escBit sc.state)

/-- In the operator state the cursor is past the start of the pending
segment, or at the end of the range. -/
def Settled (p : Pass) (sc : StyleContext Style) : Prop :=
  sc.state = SCE_F_OPERATOR → sc.startSeg < sc.currentPos ∨ p.endPos ≤ sc.currentPos

/-- The cursor is consistent, not before the position `pos0` and not after
the position that follows the text. -/
def InText {σ : Type} (p : Pass) (startPos pos0 : Nat) (sc : StyleContext σ) : Prop :=
  ScOK p startPos sc ∧ pos0 ≤ sc.currentPos ∧ sc.currentPos ≤ p.text.length

/-- The text of `n` opening brackets followed by a line end and the line
`end`. -/
def bracketDoc (n : Nat) : List Nat := List.replicate n 40 ++ str "\nend\n"

/-- The state of the loop of `ColouriseFortranDoc` on `bracketDoc n` after `j`
iterations, `1 ≤ j ≤ n`: the cursor on byte `j`, in the operator state, at
bracket depth `j`. -/
def bracketState (n j : Nat) : Lexer :=
  { sc := { currentPos := j, currentLine := 0, lineStartNext := n + 1, atLineStart := false,
            atLineEnd := decide (n ≤ j), state := SCE_F_OPERATOR, chPrev := 40,
            ch := charAt (bracketDoc n) j, chNext := charAt (bracketDoc n) (j + 1),
            startSeg := j - 1, styles := List.replicate (j - 1) SCE_F_OPERATOR },
    lineState := 0, visibleChars := 1, parenCount := j, ifConstruct := false, kwType := .None,
    escSeq := { outerState := SCE_F_DEFAULT, digitsLeft := 0 }, lineWrites := [] }

/-- A state of the loop at the start of the line `end` of `bracketDoc n`, in
the default state, at bracket depth `pc`, with the pending segment starting
at `seg`. -/
def lineStartState (n pc seg : Nat) (sty : List Style) (lw : List (Nat × Nat)) (cp : Nat) :
    Lexer :=
  { sc := { currentPos := n + 1, currentLine := 1, lineStartNext := n + 5, atLineStart := true,
            atLineEnd := false, state := SCE_F_DEFAULT, chPrev := cp, ch := 101, chNext := 110,
            startSeg := seg, styles := sty },
    lineState := 0, visibleChars := 0, parenCount := pc, ifConstruct := false, kwType := .None,
    escSeq := { outerState := SCE_F_DEFAULT, digitsLeft := 0 }, lineWrites := lw }

/-- The state of the loop `i` bytes into the word `end` of `bracketDoc n`, in
the identifier state. -/
def identState (n pc : Nat) (sty : List Style) (lw : List (Nat × Nat)) (i : Nat) : Lexer :=
  { sc := { currentPos := n + 1 + i, currentLine := 1, lineStartNext := n + 5,
            atLineStart := false, atLineEnd := decide (3 ≤ i), state := SCE_F_IDENTIFIER,
            chPrev := charAt (bracketDoc n) (n + i), ch := charAt (bracketDoc n) (n + 1 + i),
            chNext := charAt (bracketDoc n) (n + 2 + i), startSeg := n + 1, styles := sty },
    lineState := 0, visibleChars := 1, parenCount := pc, ifConstruct := false, kwType := .None,
    escSeq := { outerState := SCE_F_DEFAULT, digitsLeft := 0 }, lineWrites := lw }

end Fortran

/-! ## Theorems -/

namespace Fortran

theorem encode_lt (flags n : Nat) (hf : flags < 4) (hn : n < 2 ^ 23) :
    (flags ||| (n <<< 8)) < 2 ^ 32 := by
  have h1 : flags < 2 ^ 32 := by omega
  have h2 : n <<< 8 < 2 ^ 32 := by
    rw [Nat.shiftLeft_eq]; omega
  exact Nat.or_lt_two_pow h1 h2

theorem encode_eq_add (flags n : Nat) (hf : flags < 4) :
    (flags ||| (n <<< 8)) = n * 256 + flags := by
  have h : n <<< 8 = 2 ^ 8 * n := by rw [Nat.shiftLeft_eq]; ring
  have hb : flags < 2 ^ 8 := by omega
  rw [Nat.lor_comm, h, ← Nat.mul_add_lt_is_or hb n]; ring

theorem and_two_eq (m : Nat) : m &&& 2 = (m % 4) &&& 2 := by
  have h3 : m &&& 3 = m % 4 := Nat.and_pow_two_sub_one_eq_mod m 2
  have : (3 : Nat) &&& 2 = 2 := by decide
  calc m &&& 2 = m &&& (3 &&& 2) := by rw [this]
    _ = (m &&& 3) &&& 2 := by rw [Nat.land_assoc]
    _ = (m % 4) &&& 2 := by rw [h3]

/-- C3: the integer written at a line end, `flags | (n << 8)`, decodes back to
the pair it was built from, for every flags value below 4 and every bracket
depth below 2^23. -/
theorem C3_codec_roundtrip (flags n : Nat) (hf : flags < 4) (hn : n < 2 ^ 23) :
    decodeParenCount (encodeLineState flags n) = n ∧
    GetLineCommentState (encodeLineState flags n) = flags &&& 1 ∧
    decodeContinuation (encodeLineState flags n) = flags &&& 2 := by
  have hlt := encode_lt flags n hf hn
  have heq := encode_eq_add flags n hf
  unfold decodeParenCount GetLineCommentState decodeContinuation encodeLineState
    FortranLineStateMaskLineComment FortranLineStateLineContinuation
  rw [Nat.mod_eq_of_lt hlt, heq]
  refine ⟨?_, ?_, ?_⟩
  · rw [Nat.shiftRight_eq_div_pow]; omega
  · rw [Nat.and_one_is_mod, Nat.and_one_is_mod]; omega
  · rw [and_two_eq (n * 256 + flags), and_two_eq flags]
    congr 1; omega

theorem C3_codec_roundtrip_witness :
    (3 < 4) ∧ (5 < 2 ^ 23) ∧ decodeParenCount (encodeLineState 3 5) = 5 ∧
    GetLineCommentState (encodeLineState 3 5) = 3 &&& 1 ∧
    decodeContinuation (encodeLineState 3 5) = 3 &&& 2 :=
  ⟨by decide, by decide, C3_codec_roundtrip 3 5 (by decide) (by decide)⟩

/-! ### The fold pass -/

open Style

theorem GetLineCommentState_le (x : Nat) : GetLineCommentState x ≤ 1 := by
  unfold GetLineCommentState FortranLineStateMaskLineComment
  rw [Nat.and_one_is_mod]; omega

theorem switchCase_noexit (p : Pass) (kw kw' : LexerWordList) (L : Lexer)
    (h : exits L = false) : switchCase p kw L = switchCase p kw' L := by
  unfold switchCase
  simp only []
  split <;> try rfl
  rename_i hs
  simp only [exits, hs, decide_True, Bool.true_and, Bool.not_eq_false'] at h
  simp only [h, Bool.not_true, Bool.false_eq_true, if_false]

theorem step_eq_stepG (p : Pass) (kw : LexerWordList) (L : Lexer) :
    step p kw L = stepG p (classify p kw L) L := by
  unfold stepG
  split
  · rename_i h
    simp only [exits, Bool.and_eq_true, decide_eq_true_eq] at h
    unfold step switchCase
    simp only [h.1, h.2]
    rfl
  · rename_i h
    simp only [Bool.not_eq_true] at h
    unfold step
    rw [switchCase_noexit p kw _ L h]

theorem Known.getList_sound (k : Known) (kw : LexerWordList) (hk : k.Holds kw) (i : Nat)
    (s : List Nat) (b : Bool) (h : k.getList i s = some b) : (kw i).InList s = b := by
  unfold Known.getList at h
  simp only [Option.map_eq_some'] at h
  obtain ⟨e, he, hb⟩ := h
  have hm := List.mem_of_find?_eq_some he
  have hp := List.find?_some he
  simp only [Bool.and_eq_true, decide_eq_true_eq] at hp
  have := hk.1 e hm
  rw [hp.1, hp.2, hb] at this
  exact this

theorem Known.getPrefixed_sound (k : Known) (kw : LexerWordList) (hk : k.Holds kw)
    (s : List Nat) (b : Bool) (h : k.getPrefixed s = some b) :
    (kw KeywordIndex_Function).InListPrefixed s 40 = b := by
  unfold Known.getPrefixed at h
  simp only [Option.map_eq_some'] at h
  obtain ⟨e, he, hb⟩ := h
  have hm := List.mem_of_find?_eq_some he
  have hp := List.find?_some he
  simp only [decide_eq_true_eq] at hp
  have := hk.2 e hm
  rw [hp, hb] at this
  exact this

theorem tableStyleK_sound (k : Known) (kw : LexerWordList) (hk : k.Holds kw) (s : List Nat)
    (prevWord : KeywordType) (t : Style) (h : tableStyleK k s prevWord = some t) :
    tableStyle kw s prevWord = t := by
  unfold tableStyleK at h
  unfold tableStyle
  cases h1 : k.getList KeywordIndex_CodeFolding s with
  | none => simp [h1] at h
  | some b1 =>
    rw [Known.getList_sound k kw hk _ _ _ h1]
    cases b1 with
    | true => simpa [h1] using h
    | false =>
      cases h2 : k.getList KeywordIndex_Keyword s with
      | none => simp [h1, h2] at h
      | some b2 =>
        rw [Known.getList_sound k kw hk _ _ _ h2]
        cases b2 with
        | true => simpa [h1, h2] using h
        | false =>
          cases h3 : k.getList KeywordIndex_Type s with
          | none => simp [h1, h2, h3] at h
          | some b3 =>
            rw [Known.getList_sound k kw hk _ _ _ h3]
            cases b3 with
            | true => simpa [h1, h2, h3] using h
            | false =>
              cases h4 : k.getList KeywordIndex_Attribute s with
              | none => simp [h1, h2, h3, h4] at h
              | some b4 =>
                rw [Known.getList_sound k kw hk _ _ _ h4]
                cases b4 with
                | true => simpa [h1, h2, h3, h4] using h
                | false =>
                  cases h5 : k.getPrefixed s with
                  | none => simp [h1, h2, h3, h4, h5] at h
                  | some b5 =>
                    rw [Known.getPrefixed_sound k kw hk _ _ h5]
                    cases b5 with
                    | true => simpa [h1, h2, h3, h4, h5] using h
                    | false =>
                      simp only [h1, h2, h3, h4, h5, Option.some_bind, Bool.false_eq_true,
                        if_false] at h
                      split at h <;> rename_i hc
                      · simp only [Option.some.injEq] at h
                        simp [hc, h]
                      · simp only [Option.some.injEq] at h
                        simp [hc, h]

theorem stepG_noexit (p : Pass) (c c' : Classified) (L : Lexer) (h : exits L = false) :
    stepG p c L = stepG p c' L := by
  unfold stepG
  simp [h]

theorem runK_sound (p : Pass) (k : Known) (kw : LexerWordList) (hk : k.Holds kw) :
    ∀ (n : Nat) (L L' : Lexer), runK p k n L = some L' → run p kw n L = L' := by
  intro n
  induction n with
  | zero => intro L L' h; simpa [runK, run] using h
  | succ n ih =>
    intro L L' h
    unfold runK at h
    unfold run
    by_cases hm : L.sc.More p = true
    · rw [if_pos hm] at h ⊢
      rw [step_eq_stepG]
      by_cases he : exits L = true
      · rw [if_pos he] at h
        cases ht : tableStyleK k (L.sc.GetCurrentLowered p 64) L.kwType with
        | none => simp [ht] at h
        | some t =>
          rw [ht] at h
          have := tableStyleK_sound k kw hk _ _ _ ht
          unfold classify
          rw [this]
          exact ih _ _ h
      · rw [if_neg he] at h
        simp only [Bool.not_eq_true] at he
        rw [stepG_noexit p _ ⟨SCE_F_DEFAULT, .None, false⟩ L he]
        exact ih _ _ h
    · rw [if_neg hm] at h ⊢
      simpa using h

/-- What `ColouriseFortranDoc` returns when the tables are as known. -/
theorem Colourise_of_runK (text : List Nat) (startPos length : Nat) (initStyle : Style)
    (kw : LexerWordList) (ls : Nat → Nat) (k : Known) (hk : k.Holds kw) (L' : Lexer)
    (h : runK ⟨text, passEnd text startPos length⟩ k (loopBound (passEnd text startPos length))
      (initLexer text startPos initStyle ls) = some L') :
    ColouriseFortranDoc text startPos length initStyle kw ls
      = { L' with sc := L'.sc.Complete ⟨text, passEnd text startPos length⟩ } := by
  unfold ColouriseFortranDoc
  simp only
  rw [runK_sound _ k kw hk _ _ _ h]

theorem initLexer_zero (text : List Nat) (initStyle : Style) (ls : Nat → Nat) :
    initLexer text 0 initStyle ls = initLexer text 0 initStyle (fun _ => 0) := by
  have h : GetLine text 0 = 0 := by
    unfold GetLine; cases text <;> rfl
  unfold initLexer
  simp only [StyleContext.init, h, gt_iff_lt, Nat.lt_irrefl, if_false]

theorem classifyFrom_paren (p : Pass) (L : Lexer) (t : Style) (h : L.parenCount ≠ 0) :
    (classifyFrom p L t).state ≠ SCE_F_FOLDING_WORD := by
  unfold classifyFrom
  simp only
  split
  · split
    · simp
    · simp [h]
  · rename_i hn
    simp only [not_or] at hn
    exact hn.2

theorem identifierCase_styles (c : Classified) (L : Lexer) (h : L.sc.state = SCE_F_IDENTIFIER)
    (hseg : L.sc.startSeg ≤ L.sc.currentPos) :
    (identifierCase c L).sc.styles
      = L.sc.styles ++ List.replicate (L.sc.currentPos - L.sc.startSeg) c.state ∧
    (identifierCase c L).sc.startSeg = L.sc.currentPos ∧
    (identifierCase c L).sc.state = SCE_F_DEFAULT := by
  unfold identifierCase
  by_cases hc : c.state = SCE_F_IDENTIFIER
  · simp [hc, StyleContext.SetState, StyleContext.ColorTo, Nat.not_lt.mpr hseg, h]
  · simp [hc, StyleContext.SetState, StyleContext.ColorTo, StyleContext.ChangeState,
      Nat.not_lt.mpr hseg]

/-- C20: an identifier that is finished while the bracket depth is not zero is
never classified, nor painted, as a folding keyword. -/
theorem C20_no_folding_in_brackets (p : Pass) (kw : LexerWordList) (L : Lexer)
    (hexit : exits L = true) (hseg : L.sc.startSeg ≤ L.sc.currentPos)
    (hparen : L.parenCount ≠ 0) :
    (classify p kw L).state ≠ SCE_F_FOLDING_WORD ∧
    (switchCase p kw L).1.sc.styles
      = L.sc.styles ++ List.replicate (L.sc.currentPos - L.sc.startSeg) (classify p kw L).state ∧
    (switchCase p kw L).1.parenCount = L.parenCount := by
  simp only [exits, Bool.and_eq_true, decide_eq_true_eq] at hexit
  refine ⟨classifyFrom_paren p L _ hparen, ?_, ?_⟩
  · unfold switchCase
    simp only [hexit.1, hexit.2]
    exact (identifierCase_styles _ L hexit.1 hseg).1
  · unfold switchCase
    simp only [hexit.1, hexit.2]
    rfl

theorem C20_no_folding_in_brackets_witness :
    (classify ⟨str "(if)\n", 6⟩ kwDemo (demoState (str "(if)\n") 3)).state ≠ SCE_F_FOLDING_WORD ∧
    (switchCase ⟨str "(if)\n", 6⟩ kwDemo (demoState (str "(if)\n") 3)).1.sc.styles
      = (demoState (str "(if)\n") 3).sc.styles ++
        List.replicate ((demoState (str "(if)\n") 3).sc.currentPos
            - (demoState (str "(if)\n") 3).sc.startSeg)
          (classify ⟨str "(if)\n", 6⟩ kwDemo (demoState (str "(if)\n") 3)).state ∧
    (switchCase ⟨str "(if)\n", 6⟩ kwDemo (demoState (str "(if)\n") 3)).1.parenCount
      = (demoState (str "(if)\n") 3).parenCount :=
  C20_no_folding_in_brackets ⟨str "(if)\n", 6⟩ kwDemo (demoState (str "(if)\n") 3)
    (by decide) (by decide) (by decide)

theorem tableStyle_hit (kw : LexerWordList) (s : List Nat) (prevWord : KeywordType)
    (h : (kw KeywordIndex_Keyword).InList s = true ∨ (kw KeywordIndex_CodeFolding).InList s = true) :
    tableStyle kw s prevWord = SCE_F_WORD ∨ tableStyle kw s prevWord = SCE_F_FOLDING_WORD := by
  unfold tableStyle
  by_cases h1 : (kw KeywordIndex_CodeFolding).InList s = true
  · right; simp [h1]
  · left
    rcases h with h | h
    · simp [h1, h]
    · exact absurd h h1

/-- C12 (counterexample): in `(if)`, with `if` in the folding table, the
word inside the brackets is painted `SCE_F_WORD`, not `SCE_F_IDENTIFIER`. -/
theorem C12_counterexample :
    (kwDemo KeywordIndex_CodeFolding).InList (str "if") = true ∧
    (ColouriseFortranDoc (str "(if)\n") 0 5 SCE_F_DEFAULT kwDemo (fun _ => 0)).sc.styles
      = [SCE_F_OPERATOR, SCE_F_WORD, SCE_F_WORD, SCE_F_OPERATOR, SCE_F_DEFAULT] := by
  decide

/-- C12 (amended): an identifier that hits the reserved-keyword or the
folding-keyword table while the bracket depth is not zero, and that is not
followed by `=`, is classified and painted `SCE_F_WORD`, the plain keyword
style, and it leaves no `kwType` behind and `ifConstruct` as it was. -/
theorem C12_keyword_in_brackets (p : Pass) (kw : LexerWordList) (L : Lexer)
    (hexit : exits L = true) (hseg : L.sc.startSeg ≤ L.sc.currentPos)
    (hparen : L.parenCount ≠ 0)
    (hhit : (kw KeywordIndex_Keyword).InList (L.sc.GetCurrentLowered p 64) = true ∨
      (kw KeywordIndex_CodeFolding).InList (L.sc.GetCurrentLowered p 64) = true)
    (hnoeq : (lookahead p L.sc).1 ≠ 61) :
    classify p kw L = ⟨SCE_F_WORD, .None, L.ifConstruct⟩ ∧
    (switchCase p kw L).1.sc.styles
      = L.sc.styles ++ List.replicate (L.sc.currentPos - L.sc.startSeg) SCE_F_WORD ∧
    (switchCase p kw L).1.kwType = .None ∧
    (switchCase p kw L).1.ifConstruct = L.ifConstruct := by
  have hc : classify p kw L = ⟨SCE_F_WORD, .None, L.ifConstruct⟩ := by
    unfold classify classifyFrom
    simp only
    rw [if_pos (tableStyle_hit kw _ L.kwType hhit), if_neg hnoeq, if_pos hparen]
  simp only [exits, Bool.and_eq_true, decide_eq_true_eq] at hexit
  refine ⟨hc, ?_, ?_, ?_⟩
  · unfold switchCase
    simp only [hexit.1, hexit.2, hc]
    exact (identifierCase_styles _ L hexit.1 hseg).1
  · unfold switchCase
    simp only [hexit.1, hexit.2, hc]
    rfl
  · unfold switchCase
    simp only [hexit.1, hexit.2, hc]
    rfl

theorem C12_keyword_in_brackets_witness :
    classify ⟨str "(if)\n", 6⟩ kwDemo (demoState (str "(if)\n") 3)
      = ⟨SCE_F_WORD, .None, (demoState (str "(if)\n") 3).ifConstruct⟩ ∧
    (switchCase ⟨str "(if)\n", 6⟩ kwDemo (demoState (str "(if)\n") 3)).1.sc.styles
      = (demoState (str "(if)\n") 3).sc.styles ++
        List.replicate ((demoState (str "(if)\n") 3).sc.currentPos
            - (demoState (str "(if)\n") 3).sc.startSeg) SCE_F_WORD ∧
    (switchCase ⟨str "(if)\n", 6⟩ kwDemo (demoState (str "(if)\n") 3)).1.kwType = .None ∧
    (switchCase ⟨str "(if)\n", 6⟩ kwDemo (demoState (str "(if)\n") 3)).1.ifConstruct
      = (demoState (str "(if)\n") 3).ifConstruct :=
  C12_keyword_in_brackets ⟨str "(if)\n", 6⟩ kwDemo (demoState (str "(if)\n") 3)
    (by decide) (by decide) (by decide) (by decide) (by decide)

theorem Known.holds_nil (kw : LexerWordList) : (⟨[], []⟩ : Known).Holds kw :=
  ⟨by intro e he; simp at he, by intro e he; simp at he⟩

/-- A value read off the result of `ColouriseFortranDoc` over a pass from the
start of the text, computed from what is known of the tables. -/
theorem final_of_runK {α : Type} (f : Lexer → α) (text : List Nat) (length : Nat)
    (initStyle : Style) (kw : LexerWordList) (ls : Nat → Nat) (k : Known) (hk : k.Holds kw)
    (v : α)
    (h : (runK ⟨text, passEnd text 0 length⟩ k (loopBound (passEnd text 0 length))
      (initLexer text 0 initStyle (fun _ => 0))).map
        (fun L => f { L with sc := L.sc.Complete ⟨text, passEnd text 0 length⟩ }) = some v) :
    f (ColouriseFortranDoc text 0 length initStyle kw ls) = v := by
  rw [Option.map_eq_some'] at h
  obtain ⟨L', h1, h2⟩ := h
  rw [← initLexer_zero text initStyle ls] at h1
  rw [Colourise_of_runK text 0 length initStyle kw ls k hk L' h1]
  exact h2

/-- C17 (counterexample): in `'\x41424'` the escape run covers the backslash,
the `x` and two hex digits; the third hex digit after the letter is painted
as string. In `'\n1'` the digit after the simple escape is painted as string. -/
theorem C17_counterexample :
    (ColouriseFortranDoc (str "'\\x41424'\n") 0 10 SCE_F_DEFAULT kwDemo (fun _ => 0)).sc.styles
      = [SCE_F_STRING_SQ, SCE_F_ESCAPECHAR, SCE_F_ESCAPECHAR, SCE_F_ESCAPECHAR, SCE_F_ESCAPECHAR,
         SCE_F_STRING_SQ, SCE_F_STRING_SQ, SCE_F_STRING_SQ, SCE_F_STRING_SQ, SCE_F_DEFAULT] ∧
    (ColouriseFortranDoc (str "'\\n1'\n") 0 6 SCE_F_DEFAULT kwDemo (fun _ => 0)).sc.styles
      = [SCE_F_STRING_SQ, SCE_F_ESCAPECHAR, SCE_F_ESCAPECHAR, SCE_F_STRING_SQ, SCE_F_STRING_SQ,
         SCE_F_DEFAULT] := by
  decide

theorem lineTail_sc (p : Pass) (L : Lexer) : (lineTail p L).sc = L.sc.Forward p := by
  unfold lineTail
  simp only
  split <;> split <;> rfl

theorem lineTail_escSeq (p : Pass) (L : Lexer) : (lineTail p L).escSeq = L.escSeq := by
  unfold lineTail
  simp only
  split <;> split <;> rfl

theorem Forward_state {σ : Type} (p : Pass) (sc : StyleContext σ) :
    (sc.Forward p).state = sc.state := by
  unfold StyleContext.Forward
  split <;> rfl

theorem Forward_pos {σ : Type} (p : Pass) (sc : StyleContext σ) (h : sc.currentPos < p.endPos) :
    (sc.Forward p).currentPos = sc.currentPos + 1 := by
  unfold StyleContext.Forward
  rw [if_pos h]

theorem defaultCase_of_ne (p : Pass) (L : Lexer) (h : L.sc.state ≠ SCE_F_DEFAULT) :
    defaultCase p L = L := by
  unfold defaultCase
  simp only [h, ne_eq, not_false_eq_true, if_true]

theorem step_escape_end (p : Pass) (kw : LexerWordList) (L : Lexer)
    (hs : L.sc.state = SCE_F_ESCAPECHAR)
    (hend : L.escSeq.digitsLeft ≤ 1 ∨ IsHexDigit L.sc.ch = false) :
    step p kw L = { L with escSeq := ⟨L.escSeq.outerState, L.escSeq.digitsLeft - 1⟩,
                           sc := L.sc.SetState L.escSeq.outerState } := by
  have h2 : (L.escSeq.atEscapeEnd L.sc.ch).2 = true := by
    unfold EscapeSequence.atEscapeEnd
    rcases hend with h | h
    · simp only [Bool.or_eq_true, decide_eq_true_eq]; left; omega
    · simp [h]
  unfold step switchCase
  simp only [hs, h2, if_true]
  rfl

theorem step_escape_go (p : Pass) (kw : LexerWordList) (L : Lexer)
    (hs : L.sc.state = SCE_F_ESCAPECHAR)
    (hd : 1 < L.escSeq.digitsLeft) (hx : IsHexDigit L.sc.ch = true) :
    (step p kw L).sc.state = SCE_F_ESCAPECHAR ∧
    (step p kw L).escSeq = ⟨L.escSeq.outerState, L.escSeq.digitsLeft - 1⟩ ∧
    (L.sc.currentPos < p.endPos → (step p kw L).sc.currentPos = L.sc.currentPos + 1) := by
  have h2 : (L.escSeq.atEscapeEnd L.sc.ch).2 = false := by
    unfold EscapeSequence.atEscapeEnd
    simp only [hx, Bool.not_true, Bool.or_false, decide_eq_false_iff_not]
    omega
  have e : step p kw L = lineTail p { L with escSeq := (L.escSeq.atEscapeEnd L.sc.ch).1 } := by
    unfold step switchCase
    simp only [hs, h2, Bool.false_eq_true, if_false]
    rw [defaultCase_of_ne]
    simp [hs]
  rw [e, lineTail_sc, lineTail_escSeq, Forward_state]
  refine ⟨hs, rfl, ?_⟩
  intro h
  exact Forward_pos p _ h

theorem resetEscapeState_simple (s : Style) (c : Nat)
    (h : c ∈ [92, 39, 34, 97, 98, 102, 110, 114, 116, 118, 48]) :
    EscapeSequence.resetEscapeState s c = (⟨s, 1⟩, true) := by
  simp only [List.mem_cons, List.mem_singleton, List.not_mem_nil, or_false] at h
  rcases h with h | h | h | h | h | h | h | h | h | h | h <;> subst h <;> rfl

theorem resetEscapeState_other (s : Style) (c : Nat)
    (h : c ∉ [120, 117, 85, 92, 39, 34, 97, 98, 102, 110, 114, 116, 118, 48]) :
    EscapeSequence.resetEscapeState s c = (⟨s, 0⟩, false) := by
  simp only [List.mem_cons, List.mem_singleton, List.not_mem_nil, or_false, not_or] at h
  obtain ⟨h1, h2, h3, h4⟩ := h
  unfold EscapeSequence.resetEscapeState
  simp only [h1, h2, h3, if_false]
  have : c ∉ [92, 39, 34, 97, 98, 102, 110, 114, 116, 118, 48] := by
    simp only [List.mem_cons, List.mem_singleton, List.not_mem_nil, or_false, not_or]
    exact h4
  simp [this]

theorem switchCase_backslash (p : Pass) (kw : LexerWordList) (L : Lexer)
    (hstr : L.sc.state = SCE_F_STRING_SQ ∨ L.sc.state = SCE_F_STRING_DQ)
    (hls : L.sc.atLineStart = false) (hch : L.sc.ch = 92) :
    (switchCase p kw L).1.escSeq = (EscapeSequence.resetEscapeState L.sc.state L.sc.chNext).1 ∧
    ((EscapeSequence.resetEscapeState L.sc.state L.sc.chNext).2 = true →
      (switchCase p kw L).1.sc = (L.sc.SetState SCE_F_ESCAPECHAR).Forward p) ∧
    ((EscapeSequence.resetEscapeState L.sc.state L.sc.chNext).2 = false →
      (switchCase p kw L).1.sc = L.sc) := by
  have e : (switchCase p kw L).1 = stringCase p L := by
    unfold switchCase
    rcases hstr with h | h <;> simp only [h]
  rw [e]
  unfold stringCase
  simp only [hls, hch, Bool.false_eq_true, false_and, if_false]
  have h38 : ¬ ((92 : Nat) = 38 ∧ IsEOLChar L.sc.chNext = true) := by
    intro h; exact absurd h.1 (by decide)
  rw [if_neg h38]
  simp only [if_true]
  by_cases hr : (EscapeSequence.resetEscapeState L.sc.state L.sc.chNext).2 = true
  · simp [hr]
  · simp only [Bool.not_eq_true] at hr
    simp [hr]

/-- C17 (amended): in a string, `\x`, `\u`, `\U` set `digitsLeft` to 3, 5, 9
and a simple escape sets it to 1; a backslash before any other byte starts no
escape. The escape state is entered on the backslash and the letter is
consumed with it; from then on each iteration lowers `digitsLeft` by one and
ends the run, restoring the string state without moving, as soon as the
count reaches 0 or the byte is not a hex digit. The run therefore holds the
backslash, the letter and at most 2, 4 or 8 hex digits (none after a simple
escape), as the example texts show for all keyword tables. -/
theorem C17_escape (p : Pass) (kw : LexerWordList) (L : Lexer) (ls : Nat → Nat) :
    (∀ s, EscapeSequence.resetEscapeState s 120 = (⟨s, 3⟩, true) ∧
          EscapeSequence.resetEscapeState s 117 = (⟨s, 5⟩, true) ∧
          EscapeSequence.resetEscapeState s 85 = (⟨s, 9⟩, true)) ∧
    (∀ s c, c ∈ [92, 39, 34, 97, 98, 102, 110, 114, 116, 118, 48] →
          EscapeSequence.resetEscapeState s c = (⟨s, 1⟩, true)) ∧
    (∀ s c, c ∉ [120, 117, 85, 92, 39, 34, 97, 98, 102, 110, 114, 116, 118, 48] →
          EscapeSequence.resetEscapeState s c = (⟨s, 0⟩, false)) ∧
    ((L.sc.state = SCE_F_STRING_SQ ∨ L.sc.state = SCE_F_STRING_DQ) → L.sc.atLineStart = false →
      L.sc.ch = 92 →
      (switchCase p kw L).1.escSeq = (EscapeSequence.resetEscapeState L.sc.state L.sc.chNext).1 ∧
      ((EscapeSequence.resetEscapeState L.sc.state L.sc.chNext).2 = true →
        (switchCase p kw L).1.sc = (L.sc.SetState SCE_F_ESCAPECHAR).Forward p) ∧
      ((EscapeSequence.resetEscapeState L.sc.state L.sc.chNext).2 = false →
        (switchCase p kw L).1.sc = L.sc)) ∧
    (L.sc.state = SCE_F_ESCAPECHAR →
      (L.escSeq.digitsLeft ≤ 1 ∨ IsHexDigit L.sc.ch = false) →
      step p kw L = { L with escSeq := ⟨L.escSeq.outerState, L.escSeq.digitsLeft - 1⟩,
                             sc := L.sc.SetState L.escSeq.outerState }) ∧
    (L.sc.state = SCE_F_ESCAPECHAR → 1 < L.escSeq.digitsLeft → IsHexDigit L.sc.ch = true →
      (step p kw L).sc.state = SCE_F_ESCAPECHAR ∧
      (step p kw L).escSeq = ⟨L.escSeq.outerState, L.escSeq.digitsLeft - 1⟩ ∧
      (L.sc.currentPos < p.endPos → (step p kw L).sc.currentPos = L.sc.currentPos + 1)) ∧
    (ColouriseFortranDoc (str "'\\x41424'\n") 0 10 SCE_F_DEFAULT kw ls).sc.styles
      = [SCE_F_STRING_SQ, SCE_F_ESCAPECHAR, SCE_F_ESCAPECHAR, SCE_F_ESCAPECHAR, SCE_F_ESCAPECHAR,
         SCE_F_STRING_SQ, SCE_F_STRING_SQ, SCE_F_STRING_SQ, SCE_F_STRING_SQ, SCE_F_DEFAULT] ∧
    (ColouriseFortranDoc (str "\"\\u123456\"\n") 0 11 SCE_F_DEFAULT kw ls).sc.styles
      = [SCE_F_STRING_DQ, SCE_F_ESCAPECHAR, SCE_F_ESCAPECHAR, SCE_F_ESCAPECHAR, SCE_F_ESCAPECHAR,
         SCE_F_ESCAPECHAR, SCE_F_ESCAPECHAR, SCE_F_STRING_DQ, SCE_F_STRING_DQ, SCE_F_STRING_DQ,
         SCE_F_DEFAULT] ∧
    (ColouriseFortranDoc (str "'\\U1234567890'\n") 0 15 SCE_F_DEFAULT kw ls).sc.styles
      = [SCE_F_STRING_SQ, SCE_F_ESCAPECHAR, SCE_F_ESCAPECHAR, SCE_F_ESCAPECHAR, SCE_F_ESCAPECHAR,
         SCE_F_ESCAPECHAR, SCE_F_ESCAPECHAR, SCE_F_ESCAPECHAR, SCE_F_ESCAPECHAR, SCE_F_ESCAPECHAR,
         SCE_F_ESCAPECHAR, SCE_F_STRING_SQ, SCE_F_STRING_SQ, SCE_F_STRING_SQ, SCE_F_DEFAULT] ∧
    (ColouriseFortranDoc (str "'\\n1'\n") 0 6 SCE_F_DEFAULT kw ls).sc.styles
      = [SCE_F_STRING_SQ, SCE_F_ESCAPECHAR, SCE_F_ESCAPECHAR, SCE_F_STRING_SQ, SCE_F_STRING_SQ,
         SCE_F_DEFAULT] ∧
    (ColouriseFortranDoc (str "'\\x4g1'\n") 0 8 SCE_F_DEFAULT kw ls).sc.styles
      = [SCE_F_STRING_SQ, SCE_F_ESCAPECHAR, SCE_F_ESCAPECHAR, SCE_F_ESCAPECHAR, SCE_F_STRING_SQ,
         SCE_F_STRING_SQ, SCE_F_STRING_SQ, SCE_F_DEFAULT] ∧
    (ColouriseFortranDoc (str "'\\q1'\n") 0 6 SCE_F_DEFAULT kw ls).sc.styles
      = [SCE_F_STRING_SQ, SCE_F_STRING_SQ, SCE_F_STRING_SQ, SCE_F_STRING_SQ, SCE_F_STRING_SQ,
         SCE_F_DEFAULT] := by
  refine ⟨fun s => ⟨rfl, rfl, rfl⟩, resetEscapeState_simple, resetEscapeState_other,
    switchCase_backslash p kw L, step_escape_end p kw L, step_escape_go p kw L,
    ?_, ?_, ?_, ?_, ?_, ?_⟩
  · exact final_of_runK (fun L => L.sc.styles) _ _ _ kw ls _ (Known.holds_nil kw) _ (by decide)
  · exact final_of_runK (fun L => L.sc.styles) _ _ _ kw ls _ (Known.holds_nil kw) _ (by decide)
  · exact final_of_runK (fun L => L.sc.styles) _ _ _ kw ls _ (Known.holds_nil kw) _ (by decide)
  · exact final_of_runK (fun L => L.sc.styles) _ _ _ kw ls _ (Known.holds_nil kw) _ (by decide)
  · exact final_of_runK (fun L => L.sc.styles) _ _ _ kw ls _ (Known.holds_nil kw) _ (by decide)
  · exact final_of_runK (fun L => L.sc.styles) _ _ _ kw ls _ (Known.holds_nil kw) _ (by decide)

/-- C13 (the code at the failing input): the texts `end`/`=1` and `end`/`x`
agree on the whole of line 0, yet `end` is painted as an attribute in the
first and as a folding keyword in the second: the lookahead of lines 149-152
steps from the end-of-line byte onto the first byte of the next line. -/
theorem C13_lookahead_reads_next_line :
    (str "end\n=1\n").take 4 = (str "end\nx\n").take 4 ∧
    (ColouriseFortranDoc (str "end\n=1\n") 0 7 SCE_F_DEFAULT kwDemo (fun _ => 0)).sc.styles.take 4
      = [SCE_F_ATTRIBUTE, SCE_F_ATTRIBUTE, SCE_F_ATTRIBUTE, SCE_F_DEFAULT] ∧
    (ColouriseFortranDoc (str "end\nx\n") 0 6 SCE_F_DEFAULT kwDemo (fun _ => 0)).sc.styles.take 4
      = [SCE_F_FOLDING_WORD, SCE_F_FOLDING_WORD, SCE_F_FOLDING_WORD, SCE_F_DEFAULT] ∧
    lookahead ⟨str "end\n=1\n", 8⟩ (demoState (str "end\n=1\n") 3).sc = (61, 4) ∧
    (demoState (str "end\n=1\n") 3).sc.lineStartNext = 4 := by
  decide

theorem styles_of_stylesK (text : List Nat) (kw : LexerWordList) (ls : Nat → Nat) (k : Known)
    (hk : k.Holds kw) (v : List Style) (h : stylesK text k = some v) :
    (ColouriseFortranDoc text 0 text.length SCE_F_DEFAULT kw ls).sc.styles = v :=
  final_of_runK (fun L => L.sc.styles) text text.length SCE_F_DEFAULT kw ls k hk v h

theorem knownIfThen_holds (kw : LexerWordList)
    (hif : (kw KeywordIndex_CodeFolding).InList (str "if") = true)
    (hthen : (kw KeywordIndex_CodeFolding).InList (str "then") = false)
    (hthen' : (kw KeywordIndex_Keyword).InList (str "then") = true)
    (helse : (kw KeywordIndex_CodeFolding).InList (str "else") = false)
    (helse' : (kw KeywordIndex_Keyword).InList (str "else") = true) :
    (knownIfThen ((kw KeywordIndex_CodeFolding).InList (str "c"))
      ((kw KeywordIndex_Keyword).InList (str "c")) ((kw KeywordIndex_Type).InList (str "c"))
      ((kw KeywordIndex_Attribute).InList (str "c"))
      ((kw KeywordIndex_Function).InListPrefixed (str "c") 40)).Holds kw := by
  constructor
  · intro e he
    simp only [knownIfThen, List.mem_cons, List.mem_singleton, List.not_mem_nil, or_false] at he
    rcases he with h | h | h | h | h | h | h | h | h <;> subst h <;> first | assumption | rfl
  · intro e he
    simp only [knownIfThen, List.mem_singleton] at he
    subst he
    rfl

theorem ifThen_styles : ∀ b1 b2 b3 b4 b5 : Bool,
    ((stylesK (str "if (c) then\n") (knownIfThen b1 b2 b3 b4 b5)).map
        (fun v => (v.take 2, v.drop 7))
      = some ([SCE_F_WORD, SCE_F_WORD],
          [SCE_F_FOLDING_WORD, SCE_F_FOLDING_WORD, SCE_F_FOLDING_WORD, SCE_F_FOLDING_WORD,
           SCE_F_DEFAULT])) ∧
    ((stylesK (str "else if (c) then\n") (knownIfThen b1 b2 b3 b4 b5)).map
        (fun v => (v.take 7, v.drop 12))
      = some ([SCE_F_WORD, SCE_F_WORD, SCE_F_WORD, SCE_F_WORD, SCE_F_DEFAULT, SCE_F_WORD,
           SCE_F_WORD],
          [SCE_F_WORD, SCE_F_WORD, SCE_F_WORD, SCE_F_WORD, SCE_F_DEFAULT])) ∧
    (stylesK (str "then\n") (knownIfThen b1 b2 b3 b4 b5)
      = some [SCE_F_WORD, SCE_F_WORD, SCE_F_WORD, SCE_F_WORD, SCE_F_DEFAULT]) := by
  decide

theorem lineTail_flag (p : Pass) (M : Lexer) (h : (lineTail p M).sc.atLineStart = true) :
    (lineTail p M).ifConstruct = false := by
  rw [lineTail_sc] at h
  have hend : M.sc.atLineEnd = true := by
    unfold StyleContext.Forward at h
    split at h
    · exact h
    · simp at h
  unfold lineTail
  simp only
  split <;> simp [hend]

theorem SetState_atLineStart {σ : Type} (sc : StyleContext σ) (s : σ) :
    (sc.SetState s).atLineStart = sc.atLineStart := by
  unfold StyleContext.SetState StyleContext.ColorTo
  split <;> rfl

theorem switchCase_continue (p : Pass) (kw : LexerWordList) (L : Lexer)
    (h : (switchCase p kw L).2 = true) :
    (switchCase p kw L).1.sc.atLineStart = L.sc.atLineStart ∧
    (switchCase p kw L).1.ifConstruct = L.ifConstruct := by
  by_cases hs : L.sc.state = SCE_F_ESCAPECHAR
  · unfold switchCase
    simp only [hs]
    split
    · exact ⟨SetState_atLineStart _ _, rfl⟩
    · exact ⟨rfl, rfl⟩
  · exfalso
    have h2 : (switchCase p kw L).2 = false := by
      unfold switchCase
      simp only
      repeat' split
      all_goals first | rfl | exact absurd ‹L.sc.state = SCE_F_ESCAPECHAR› hs
    rw [h2] at h
    exact Bool.noConfusion h

/-- The flag `ifConstruct` is down whenever an iteration leaves the scanner at
the start of a line. -/
theorem step_flag (p : Pass) (kw : LexerWordList) (L : Lexer)
    (hL : L.sc.atLineStart = true → L.ifConstruct = false) :
    (step p kw L).sc.atLineStart = true → (step p kw L).ifConstruct = false := by
  unfold step
  simp only
  split
  · rename_i hc
    obtain ⟨h1, h2⟩ := switchCase_continue p kw L hc
    rw [h1, h2]
    exact hL
  · exact lineTail_flag p _

theorem run_flag (p : Pass) (kw : LexerWordList) :
    ∀ (n : Nat) (L : Lexer), (L.sc.atLineStart = true → L.ifConstruct = false) →
      (run p kw n L).sc.atLineStart = true → (run p kw n L).ifConstruct = false := by
  intro n
  induction n with
  | zero => intro L hL; exact hL
  | succ n ih =>
    intro L hL
    unfold run
    split
    · exact ih _ (step_flag p kw L hL)
    · exact hL

theorem map_of_stylesK {α : Type} (g : List Style → α) (text : List Nat) (kw : LexerWordList)
    (ls : Nat → Nat) (k : Known) (hk : k.Holds kw) (w : α)
    (h : (stylesK text k).map g = some w) :
    g (ColouriseFortranDoc text 0 text.length SCE_F_DEFAULT kw ls).sc.styles = w := by
  rw [Option.map_eq_some'] at h
  obtain ⟨v, h1, h2⟩ := h
  rw [styles_of_stylesK text kw ls k hk v h1]
  exact h2

/-- C16: with `if` a folding word and `then`, `else` reserved words only, at
bracket depth 0: in `if (c) then` the `if` is painted as keyword and the
`then` as folding keyword; in `else if (c) then` and in a line that is just
`then` the `then` is painted as keyword; and whenever the loop stands at the
start of a line the flag `ifConstruct` is down. -/
theorem C16_if_then (kw : LexerWordList) (ls : Nat → Nat)
    (hif : (kw KeywordIndex_CodeFolding).InList (str "if") = true)
    (hthen : (kw KeywordIndex_CodeFolding).InList (str "then") = false)
    (hthen' : (kw KeywordIndex_Keyword).InList (str "then") = true)
    (helse : (kw KeywordIndex_CodeFolding).InList (str "else") = false)
    (helse' : (kw KeywordIndex_Keyword).InList (str "else") = true) :
    ((ColouriseFortranDoc (str "if (c) then\n") 0 12 SCE_F_DEFAULT kw ls).sc.styles.take 2
        = [SCE_F_WORD, SCE_F_WORD] ∧
     (ColouriseFortranDoc (str "if (c) then\n") 0 12 SCE_F_DEFAULT kw ls).sc.styles.drop 7
        = [SCE_F_FOLDING_WORD, SCE_F_FOLDING_WORD, SCE_F_FOLDING_WORD, SCE_F_FOLDING_WORD,
           SCE_F_DEFAULT]) ∧
    ((ColouriseFortranDoc (str "else if (c) then\n") 0 17 SCE_F_DEFAULT kw ls).sc.styles.take 7
        = [SCE_F_WORD, SCE_F_WORD, SCE_F_WORD, SCE_F_WORD, SCE_F_DEFAULT, SCE_F_WORD, SCE_F_WORD] ∧
     (ColouriseFortranDoc (str "else if (c) then\n") 0 17 SCE_F_DEFAULT kw ls).sc.styles.drop 12
        = [SCE_F_WORD, SCE_F_WORD, SCE_F_WORD, SCE_F_WORD, SCE_F_DEFAULT]) ∧
    (ColouriseFortranDoc (str "then\n") 0 5 SCE_F_DEFAULT kw ls).sc.styles
        = [SCE_F_WORD, SCE_F_WORD, SCE_F_WORD, SCE_F_WORD, SCE_F_DEFAULT] ∧
    (∀ (text : List Nat) (startPos length : Nat) (initStyle : Style) (n : Nat),
      (run ⟨text, passEnd text startPos length⟩ kw n
          (initLexer text startPos initStyle ls)).sc.atLineStart = true →
      (run ⟨text, passEnd text startPos length⟩ kw n
          (initLexer text startPos initStyle ls)).ifConstruct = false) := by
  have hk := knownIfThen_holds kw hif hthen hthen' helse helse'
  obtain ⟨h1, h2, h3⟩ := ifThen_styles ((kw KeywordIndex_CodeFolding).InList (str "c"))
      ((kw KeywordIndex_Keyword).InList (str "c")) ((kw KeywordIndex_Type).InList (str "c"))
      ((kw KeywordIndex_Attribute).InList (str "c"))
      ((kw KeywordIndex_Function).InListPrefixed (str "c") 40)
  have e1 := map_of_stylesK _ _ kw ls _ hk _ h1
  have e2 := map_of_stylesK _ _ kw ls _ hk _ h2
  have e3 := styles_of_stylesK _ kw ls _ hk _ h3
  simp only [Prod.mk.injEq] at e1 e2
  refine ⟨e1, e2, e3, ?_⟩
  intro text startPos length initStyle n
  exact run_flag _ kw n _ (fun _ => rfl)

theorem C16_if_then_witness :
    ((ColouriseFortranDoc (str "if (c) then\n") 0 12 SCE_F_DEFAULT kwDemo (fun _ => 0)).sc.styles.take 2
        = [SCE_F_WORD, SCE_F_WORD] ∧
     (ColouriseFortranDoc (str "if (c) then\n") 0 12 SCE_F_DEFAULT kwDemo (fun _ => 0)).sc.styles.drop 7
        = [SCE_F_FOLDING_WORD, SCE_F_FOLDING_WORD, SCE_F_FOLDING_WORD, SCE_F_FOLDING_WORD,
           SCE_F_DEFAULT]) :=
  (C16_if_then kwDemo (fun _ => 0) (by decide) (by decide) (by decide) (by decide)
    (by decide)).1

theorem knownOf_holds (kw : LexerWordList) (w : List Nat) : (knownOf kw w).Holds kw := by
  constructor
  · intro e he
    simp only [knownOf, knownWord, List.mem_cons, List.mem_singleton, List.not_mem_nil,
      or_false] at he
    rcases he with h | h | h | h <;> subst h <;> rfl
  · intro e he
    simp only [knownOf, knownWord, List.mem_singleton] at he
    subst he
    rfl

theorem dotted_unclosed : ∀ b1 b2 b3 b4 b5 : Bool,
    (stylesK (str ".ab\n") (knownWord (str "ab") b1 b2 b3 b4 b5)).map
        (fun v => decide (v.take 1 = [SCE_F_OPERATOR] ∧ v.length = 4 ∧ SCE_F_OPERATOR2 ∉ v ∧
          v.getD 1 SCE_F_DEFAULT = v.getD 2 SCE_F_DEFAULT ∧
          v.getD 1 SCE_F_DEFAULT ∉ [SCE_F_OPERATOR, SCE_F_DEFAULT] ∧ v.drop 3 = [SCE_F_DEFAULT]))
      = some true := by
  decide

theorem SetState_eq {σ : Type} (sc : StyleContext σ) (s : σ) (h : sc.startSeg ≤ sc.currentPos) :
    sc.SetState s = { sc with styles := sc.styles ++ List.replicate (sc.currentPos - sc.startSeg) sc.state,
                              startSeg := sc.currentPos, state := s } := by
  unfold StyleContext.SetState StyleContext.ColorTo
  rw [if_neg (Nat.not_lt.mpr h)]

theorem number_dot_operator (p : Pass) (kw : LexerWordList) (L : Lexer)
    (hs : L.sc.state = SCE_F_NUMBER) (hch : L.sc.ch = 46)
    (hseg : L.sc.startSeg ≤ L.sc.currentPos)
    (hal : IsAlpha L.sc.chNext = true)
    (hexp : ¬(UnsafeLower L.sc.chNext = 101 ∧ IsADigit (L.sc.GetRelative p 2) = true)) :
    (defaultCase p (switchCase p kw L).1).sc.state = SCE_F_OPERATOR2 ∧
    (defaultCase p (switchCase p kw L).1).sc.startSeg = L.sc.currentPos ∧
    (defaultCase p (switchCase p kw L).1).sc.styles
      = L.sc.styles ++ List.replicate (L.sc.currentPos - L.sc.startSeg) SCE_F_NUMBER := by
  have h1 : IsIdentifierChar L.sc.ch = false := by rw [hch]; decide
  have h2 : IsFloatExponent L.sc.chPrev L.sc.ch L.sc.chNext = false := by
    rw [hch]; simp [IsFloatExponent]
  have e : (switchCase p kw L).1 = { L with sc := L.sc.SetState SCE_F_DEFAULT } := by
    unfold switchCase
    simp only [hs, h1, h2, Bool.not_false, if_true, Bool.false_eq_true, if_false]
    rw [if_pos]
    right; right
    exact ⟨hal, hexp⟩
  rw [e, SetState_eq _ _ hseg]
  unfold defaultCase
  have hn : IsNumberStart 46 L.sc.chNext = false := by
    simp only [IsNumberStart, Bool.or_eq_false_iff, Bool.and_eq_false_imp]
    refine ⟨by decide, fun _ => ?_⟩
    revert hal
    simp only [IsAlpha, IsADigit, Bool.or_eq_true, Bool.and_eq_true, decide_eq_true_eq,
      Bool.and_eq_false_imp, decide_eq_false_iff_not]
    omega
  have hid : IsIdentifierStart 46 = false := by decide
  simp [hch, hal, hn, hid, hs, StyleContext.SetState, StyleContext.ColorTo]

theorem number_dot_stays (p : Pass) (kw : LexerWordList) (L : Lexer)
    (hs : L.sc.state = SCE_F_NUMBER) (hch : L.sc.ch = 46) (hprev : L.sc.chPrev ≠ 46)
    (hnext : IsAlpha L.sc.chNext = false ∨
      (UnsafeLower L.sc.chNext = 101 ∧ IsADigit (L.sc.GetRelative p 2) = true)) :
    switchCase p kw L = (L, false) := by
  have h1 : IsIdentifierChar L.sc.ch = false := by rw [hch]; decide
  have h2 : IsFloatExponent L.sc.chPrev L.sc.ch L.sc.chNext = false := by
    rw [hch]; simp [IsFloatExponent]
  unfold switchCase
  simp only [hs, h1, h2, Bool.not_false, if_true, Bool.false_eq_true, if_false]
  rw [if_neg]
  intro h
  rcases h with h | h | h
  · exact h hch
  · exact hprev h
  · rcases hnext with hn | hn
    · rw [hn] at h; exact Bool.noConfusion h.1
    · exact h.2 hn

theorem operator2_rewind (p : Pass) (kw : LexerWordList) (L : Lexer)
    (hs : L.sc.state = SCE_F_OPERATOR2) (hch : L.sc.ch ≠ 46) (hal : IsAlpha L.sc.ch = false) :
    (switchCase p kw L).1.sc.currentPos = L.sc.startSeg ∧
    (switchCase p kw L).1.sc.state = SCE_F_OPERATOR ∧
    (switchCase p kw L).1.sc.styles = L.sc.styles ∧
    (switchCase p kw L).1.sc.startSeg = L.sc.startSeg := by
  unfold switchCase
  simp only [hs, hch, hal, if_false, Bool.not_false, if_true]
  simp [StyleContext.SetState, StyleContext.ColorTo, StyleContext.Rewind]

/-- C18: for all keyword tables, `1.eq.2` and `1.AND.2` are painted number,
one dotted-operator run over both dots and the letters, number; in `1.0`,
`1.e5` and `1.` before a blank the dot stays in the one number run; and in
`.ab` the dot alone is painted as operator and the letters are lexed afresh
as one token that is no operator. In general: a number at a dot before a
letter that starts no exponent ends there and the dot opens a dotted-operator
run; at a dot before anything else (or before an exponent) the number goes
on; and a dotted-operator run that meets a byte that is neither a letter nor
a dot is rewound to its first byte, which becomes an operator. -/
theorem C18_dotted_operator (kw : LexerWordList) (ls : Nat → Nat) (p : Pass) (L : Lexer) :
    (ColouriseFortranDoc (str "1.eq.2\n") 0 7 SCE_F_DEFAULT kw ls).sc.styles
      = [SCE_F_NUMBER, SCE_F_OPERATOR2, SCE_F_OPERATOR2, SCE_F_OPERATOR2, SCE_F_OPERATOR2,
         SCE_F_NUMBER, SCE_F_DEFAULT] ∧
    (ColouriseFortranDoc (str "1.AND.2\n") 0 8 SCE_F_DEFAULT kw ls).sc.styles
      = [SCE_F_NUMBER, SCE_F_OPERATOR2, SCE_F_OPERATOR2, SCE_F_OPERATOR2, SCE_F_OPERATOR2,
         SCE_F_OPERATOR2, SCE_F_NUMBER, SCE_F_DEFAULT] ∧
    (ColouriseFortranDoc (str "1.0\n") 0 4 SCE_F_DEFAULT kw ls).sc.styles
      = [SCE_F_NUMBER, SCE_F_NUMBER, SCE_F_NUMBER, SCE_F_DEFAULT] ∧
    (ColouriseFortranDoc (str "1.e5\n") 0 5 SCE_F_DEFAULT kw ls).sc.styles
      = [SCE_F_NUMBER, SCE_F_NUMBER, SCE_F_NUMBER, SCE_F_NUMBER, SCE_F_DEFAULT] ∧
    (ColouriseFortranDoc (str "1. \n") 0 4 SCE_F_DEFAULT kw ls).sc.styles
      = [SCE_F_NUMBER, SCE_F_NUMBER, SCE_F_DEFAULT, SCE_F_DEFAULT] ∧
    ((ColouriseFortranDoc (str ".ab\n") 0 4 SCE_F_DEFAULT kw ls).sc.styles.take 1
        = [SCE_F_OPERATOR] ∧
     (ColouriseFortranDoc (str ".ab\n") 0 4 SCE_F_DEFAULT kw ls).sc.styles.length = 4 ∧
     SCE_F_OPERATOR2 ∉ (ColouriseFortranDoc (str ".ab\n") 0 4 SCE_F_DEFAULT kw ls).sc.styles ∧
     (ColouriseFortranDoc (str ".ab\n") 0 4 SCE_F_DEFAULT kw ls).sc.styles.getD 1 SCE_F_DEFAULT
        = (ColouriseFortranDoc (str ".ab\n") 0 4 SCE_F_DEFAULT kw ls).sc.styles.getD 2
            SCE_F_DEFAULT ∧
     (ColouriseFortranDoc (str ".ab\n") 0 4 SCE_F_DEFAULT kw ls).sc.styles.getD 1 SCE_F_DEFAULT
        ∉ [SCE_F_OPERATOR, SCE_F_DEFAULT] ∧
     (ColouriseFortranDoc (str ".ab\n") 0 4 SCE_F_DEFAULT kw ls).sc.styles.drop 3
        = [SCE_F_DEFAULT]) ∧
    (L.sc.state = SCE_F_NUMBER → L.sc.ch = 46 → L.sc.startSeg ≤ L.sc.currentPos →
      IsAlpha L.sc.chNext = true →
      ¬(UnsafeLower L.sc.chNext = 101 ∧ IsADigit (L.sc.GetRelative p 2) = true) →
      (defaultCase p (switchCase p kw L).1).sc.state = SCE_F_OPERATOR2 ∧
      (defaultCase p (switchCase p kw L).1).sc.startSeg = L.sc.currentPos ∧
      (defaultCase p (switchCase p kw L).1).sc.styles
        = L.sc.styles ++ List.replicate (L.sc.currentPos - L.sc.startSeg) SCE_F_NUMBER) ∧
    (L.sc.state = SCE_F_NUMBER → L.sc.ch = 46 → L.sc.chPrev ≠ 46 →
      (IsAlpha L.sc.chNext = false ∨
        (UnsafeLower L.sc.chNext = 101 ∧ IsADigit (L.sc.GetRelative p 2) = true)) →
      switchCase p kw L = (L, false)) ∧
    (L.sc.state = SCE_F_OPERATOR2 → L.sc.ch ≠ 46 → IsAlpha L.sc.ch = false →
      (switchCase p kw L).1.sc.currentPos = L.sc.startSeg ∧
      (switchCase p kw L).1.sc.state = SCE_F_OPERATOR ∧
      (switchCase p kw L).1.sc.styles = L.sc.styles ∧
      (switchCase p kw L).1.sc.startSeg = L.sc.startSeg) := by
  refine ⟨?_, ?_, ?_, ?_, ?_, ?_, number_dot_operator p kw L, number_dot_stays p kw L,
    operator2_rewind p kw L⟩
  · exact final_of_runK (fun L => L.sc.styles) _ _ _ kw ls _ (Known.holds_nil kw) _ (by decide)
  · exact final_of_runK (fun L => L.sc.styles) _ _ _ kw ls _ (Known.holds_nil kw) _ (by decide)
  · exact final_of_runK (fun L => L.sc.styles) _ _ _ kw ls _ (Known.holds_nil kw) _ (by decide)
  · exact final_of_runK (fun L => L.sc.styles) _ _ _ kw ls _ (Known.holds_nil kw) _ (by decide)
  · exact final_of_runK (fun L => L.sc.styles) _ _ _ kw ls _ (Known.holds_nil kw) _ (by decide)
  · have h := dotted_unclosed ((kw KeywordIndex_CodeFolding).InList (str "ab"))
      ((kw KeywordIndex_Keyword).InList (str "ab")) ((kw KeywordIndex_Type).InList (str "ab"))
      ((kw KeywordIndex_Attribute).InList (str "ab"))
      ((kw KeywordIndex_Function).InListPrefixed (str "ab") 40)
    have e := map_of_stylesK _ _ kw ls _ (knownOf_holds kw (str "ab")) _ h
    exact of_decide_eq_true e

/-- C14 (the code at the failing input): `do do` holds two folding-keyword
runs and the pending level rises by two, but in `a a`, with the one-letter
folding word `a`, the two runs raise it by one only: after a run that does
not start with `c` or `e` the cursor is moved twice (lines 365 and 388), the
style of the byte stepped over is never read, and the run that starts right
after that byte is taken for the continuation of the first. -/
theorem C14_second_run_missed :
    (ColouriseFortranDoc (str "do do\n") 0 6 SCE_F_DEFAULT kwOneLetter (fun _ => 0)).sc.styles
      = [SCE_F_FOLDING_WORD, SCE_F_FOLDING_WORD, SCE_F_DEFAULT, SCE_F_FOLDING_WORD,
         SCE_F_FOLDING_WORD, SCE_F_DEFAULT] ∧
    (lexAndFold (str "do do\n") kwOneLetter).map (fun w => (w.line, w.levelUse, w.levelNext))
      = [(0, SC_FOLDLEVELBASE, SC_FOLDLEVELBASE + 2)] ∧
    (ColouriseFortranDoc (str "a a\n") 0 4 SCE_F_DEFAULT kwOneLetter (fun _ => 0)).sc.styles
      = [SCE_F_FOLDING_WORD, SCE_F_DEFAULT, SCE_F_FOLDING_WORD, SCE_F_DEFAULT] ∧
    (lexAndFold (str "a a\n") kwOneLetter).map (fun w => (w.line, w.levelUse, w.levelNext))
      = [(0, SC_FOLDLEVELBASE, SC_FOLDLEVELBASE + 1)] := by
  decide

theorem foldLoop_add (f : FoldInput) : ∀ (a b : Nat) (s : FoldState),
    foldLoop f (a + b) s = foldLoop f b (foldLoop f a s) := by
  intro a
  induction a with
  | zero => intro b s; simp [foldLoop]
  | succ a ih =>
    intro b s
    rw [Nat.succ_add]
    by_cases h : s.startPos < f.endPos
    · simp only [foldLoop, h, if_true]
      exact ih b _
    · simp only [foldLoop, h, if_false]
      cases b with
      | zero => rfl
      | succ b => simp only [foldLoop, h, if_false]

theorem foldAdvance_plain (f : FoldInput) (s : FoldState)
    (h : f.styleAt s.startPos ≠ SCE_F_FOLDING_WORD) :
    foldAdvance f s = { s with style := f.styleAt s.startPos, startPos := s.startPos + 1 } := by
  unfold foldAdvance
  simp only [h, false_and, if_false]

/-- The loop over the rest of a line that holds no folding-keyword style: the
cursor reaches the end of the line and the line is closed once. -/
theorem foldLoop_line (f : FoldInput) : ∀ (n : Nat) (s : FoldState),
    s.startPos + (n + 1) = s.lineStartNext → s.lineStartNext ≤ f.endPos →
    (∀ pos, s.startPos ≤ pos → pos < s.lineStartNext → f.styleAt pos ≠ SCE_F_FOLDING_WORD) →
    foldLoop f (n + 1) s
      = foldLineEnd f { s with startPos := s.lineStartNext,
                               style := f.styleAt (s.lineStartNext - 1) } := by
  intro n
  induction n with
  | zero =>
    intro s h1 h2 h3
    have hlt : s.startPos < f.endPos := by omega
    have hst := h3 s.startPos (Nat.le_refl _) (by omega)
    simp only [foldLoop, hlt, if_true, foldStep, foldAdvance_plain f s hst]
    have e : s.lineStartNext - 1 = s.startPos := by omega
    rw [if_pos (by simpa using h1), e]
    simp only [← h1]
  | succ n ih =>
    intro s h1 h2 h3
    have hlt : s.startPos < f.endPos := by omega
    have hst := h3 s.startPos (Nat.le_refl _) (by omega)
    rw [foldLoop]
    simp only [hlt, if_true, foldStep, foldAdvance_plain f s hst]
    rw [if_neg (by show s.startPos + 1 ≠ s.lineStartNext; omega)]
    exact ih { s with style := f.styleAt s.startPos, startPos := s.startPos + 1 }
      (by show s.startPos + 1 + (n + 1) = s.lineStartNext; omega) h2
      (fun pos hp1 hp2 => h3 pos (by have : s.startPos + 1 ≤ pos := hp1; omega) hp2)

/-- One comment line without folding-keyword style, entered in step with the
line starts: the loop closes it with the comment adjustment alone. -/
theorem fold_comment_line (f : FoldInput) (s : FoldState) (m lvl prev : Nat)
    (h : AtLine f s m lvl prev)
    (hne : LineStart f.text m < LineStart f.text (m + 1))
    (hend : LineStart f.text (m + 1) ≤ f.endPos)
    (hst : ∀ pos, LineStart f.text m ≤ pos → pos < LineStart f.text (m + 1) →
      f.styleAt pos ≠ SCE_F_FOLDING_WORD)
    (hb : SC_FOLDLEVELBASE ≤ lvl) (hc : GetLineCommentState (f.lineState m) = 1)
    (hp : prev ≤ 1) :
    (foldLoop f (LineStart f.text (m + 1) - LineStart f.text m) s).writes
      = s.writes ++ [⟨m, lvl, lvl + GetLineCommentState (f.lineState (m + 1)) - prev,
          packLevel lvl (lvl + GetLineCommentState (f.lineState (m + 1)) - prev)⟩] ∧
    (foldLoop f (LineStart f.text (m + 1) - LineStart f.text m) s).startPos
      = LineStart f.text (m + 1) ∧
    (foldLoop f (LineStart f.text (m + 1) - LineStart f.text m) s).lineCurrent = m + 1 ∧
    (foldLoop f (LineStart f.text (m + 1) - LineStart f.text m) s).lineStartNext
      = min (LineStart f.text (m + 2)) f.endPos ∧
    (foldLoop f (LineStart f.text (m + 1) - LineStart f.text m) s).levelCurrent
      = lvl + GetLineCommentState (f.lineState (m + 1)) - prev ∧
    (foldLoop f (LineStart f.text (m + 1) - LineStart f.text m) s).levelNext
      = ((lvl + GetLineCommentState (f.lineState (m + 1)) - prev : Nat) : Int) ∧
    (foldLoop f (LineStart f.text (m + 1) - LineStart f.text m) s).lineCommentPrev = 1 ∧
    (foldLoop f (LineStart f.text (m + 1) - LineStart f.text m) s).lineCommentCurrent
      = GetLineCommentState (f.lineState (m + 1)) := by
  obtain ⟨n, hn⟩ : ∃ n, LineStart f.text (m + 1) - LineStart f.text m = n + 1 :=
    ⟨LineStart f.text (m + 1) - LineStart f.text m - 1, by omega⟩
  have hnx := GetLineCommentState_le (f.lineState (m + 1))
  rw [hn, foldLoop_line f n s (by rw [h.pos, h.next]; omega) (by rw [h.next]; exact hend)
    (by intro pos h1 h2; rw [h.pos] at h1; rw [h.next] at h2; exact hst pos h1 h2)]
  simp only [foldLineEnd, h.line, h.cur, h.pend, h.prev, h.comment, hc, h.next,
    SC_FOLDLEVELBASE] at hb ⊢
  have e1 : (max (lvl : Int) ((1024 : Nat) : Int)) = lvl := by omega
  have e2 : ((lvl : Int) + ((GetLineCommentState (f.lineState (m + 1)) : Int) - (prev : Int))).toNat
      = lvl + GetLineCommentState (f.lineState (m + 1)) - prev := by omega
  have e3 : ((lvl : Int) + ((GetLineCommentState (f.lineState (m + 1)) : Int) - (prev : Int)))
      = ((lvl + GetLineCommentState (f.lineState (m + 1)) - prev : Nat) : Int) := by omega
  simp only [e1, ne_eq, one_ne_zero, not_false_eq_true, if_true, e2]
  simp only [true_and, and_true]
  refine ⟨?_, e3⟩
  congr 2
  unfold packLevel
  simp only [e3, Nat.cast_lt]

theorem le_lineStartFrom : ∀ (cs : List Nat) (p l : Nat), p ≤ lineStartFrom cs p l := by
  intro cs
  induction cs with
  | nil => intro p l; cases l <;> simp [lineStartFrom]
  | cons c cs ih =>
    intro p l
    cases l with
    | zero => simp [lineStartFrom]
    | succ l =>
      simp only [lineStartFrom]
      split
      · exact Nat.le_trans (Nat.le_succ p) (ih (p + 1) l)
      · exact Nat.le_trans (Nat.le_succ p) (ih (p + 1) (l + 1))

theorem lineStartFrom_mono : ∀ (cs : List Nat) (p l : Nat),
    lineStartFrom cs p l ≤ lineStartFrom cs p (l + 1) := by
  intro cs
  induction cs with
  | nil => intro p l; cases l <;> simp [lineStartFrom]
  | cons c cs ih =>
    intro p l
    cases l with
    | zero =>
      simp only [lineStartFrom]
      split
      · exact Nat.le_succ p
      · exact Nat.le_trans (Nat.le_succ p) (le_lineStartFrom cs (p + 1) 1)
    | succ l =>
      simp only [lineStartFrom]
      split
      · exact ih (p + 1) l
      · exact ih (p + 1) (l + 1)

theorem LineStart_mono (text : List Nat) (a b : Nat) (h : a ≤ b) :
    LineStart text a ≤ LineStart text b := by
  induction b with
  | zero => have : a = 0 := by omega
            subst this; exact Nat.le_refl _
  | succ b ih =>
    by_cases hab : a = b + 1
    · subst hab; exact Nat.le_refl _
    · exact Nat.le_trans (ih (by omega)) (lineStartFrom_mono text 0 b)

/-- A block of `r + 1` comment lines without folding-keyword style, followed
by a line that is no comment line: the loop leaves it at the level `L` that it
had before the block. -/
theorem fold_comment_block (f : FoldInput) : ∀ (r : Nat) (s : FoldState) (m L prev : Nat),
    AtLine f s m (L + prev) prev → prev ≤ 1 → SC_FOLDLEVELBASE ≤ L →
    (∀ j, j ≤ r → LineStart f.text (m + j) < LineStart f.text (m + j + 1)) →
    LineStart f.text (m + r + 1) ≤ f.endPos →
    (∀ j, j ≤ r → GetLineCommentState (f.lineState (m + j)) = 1) →
    GetLineCommentState (f.lineState (m + r + 1)) = 0 →
    (∀ pos, LineStart f.text m ≤ pos → pos < LineStart f.text (m + r + 1) →
      f.styleAt pos ≠ SCE_F_FOLDING_WORD) →
    (foldLoop f (LineStart f.text (m + r + 1) - LineStart f.text m) s).levelCurrent = L ∧
    (foldLoop f (LineStart f.text (m + r + 1) - LineStart f.text m) s).levelNext = (L : Int) ∧
    (foldLoop f (LineStart f.text (m + r + 1) - LineStart f.text m) s).lineCurrent = m + r + 1 ∧
    (foldLoop f (LineStart f.text (m + r + 1) - LineStart f.text m) s).startPos
      = LineStart f.text (m + r + 1) ∧
    ∃ ws, (foldLoop f (LineStart f.text (m + r + 1) - LineStart f.text m) s).writes
        = s.writes ++ ws ∧ ws.length = r + 1 ∧
      (∀ w ∈ ws.head?, w.line = m ∧ w.levelUse = L + prev) ∧
      (∀ w ∈ ws.getLast?, w.line = m + r ∧ w.levelNext = L) := by
  intro r
  induction r with
  | zero =>
    intro s m L prev hat hp hb hne hend hc hn hst
    have h1 := fold_comment_line f s m (L + prev) prev hat (hne 0 (Nat.le_refl _)) hend hst
      (by omega) (hc 0 (Nat.le_refl _)) hp
    simp only [Nat.add_zero] at h1 ⊢
    rw [hn] at h1
    obtain ⟨w1, w2, w3, _, w5, w6, _, _⟩ := h1
    refine ⟨by rw [w5]; omega, by rw [w6]; congr 1; omega, w3, w2, _, w1, rfl, ?_, ?_⟩
    · intro w hw
      simp only [List.head?_cons, Option.mem_def, Option.some.injEq] at hw
      subst hw; exact ⟨rfl, rfl⟩
    · intro w hw
      simp only [List.getLast?_singleton, Option.mem_def, Option.some.injEq] at hw
      subst hw; exact ⟨rfl, by simp only; omega⟩
  | succ r ih =>
    intro s m L prev hat hp hb hne hend hc hn hst
    have hm1 := LineStart_mono f.text (m + 1) (m + (r + 1) + 1) (by omega)
    have hm2 := LineStart_mono f.text (m + 2) (m + (r + 1) + 1) (by omega)
    have hne0 := hne 0 (Nat.zero_le _)
    simp only [Nat.add_zero] at hne0
    have h1 := fold_comment_line f s m (L + prev) prev hat hne0 (by omega)
      (fun pos a b => hst pos a (by omega)) (by omega) (hc 0 (Nat.zero_le _)) hp
    have hc1 : GetLineCommentState (f.lineState (m + 1)) = 1 := hc 1 (by omega)
    rw [hc1] at h1
    obtain ⟨w1, w2, w3, w4, w5, w6, w7, w8⟩ := h1
    have e : L + prev + 1 - prev = L + 1 := by omega
    rw [e] at w1 w5 w6
    have hsplit : LineStart f.text (m + (r + 1) + 1) - LineStart f.text m
        = (LineStart f.text (m + 1) - LineStart f.text m)
          + (LineStart f.text (m + (r + 1) + 1) - LineStart f.text (m + 1)) := by
      omega
    rw [hsplit, foldLoop_add]
    have hat' : AtLine f (foldLoop f (LineStart f.text (m + 1) - LineStart f.text m) s)
        (m + 1) (L + 1) 1 :=
      ⟨w2, w3, by rw [w4]; exact Nat.min_eq_left (by omega), w5, w6, w7, by rw [w8, hc1]⟩
    have h2 := ih _ (m + 1) L 1 hat' (Nat.le_refl _) hb
      (fun j hj => by have := hne (j + 1) (by omega); simpa [Nat.add_assoc, Nat.add_comm 1] using this)
      (by have : m + 1 + r + 1 = m + (r + 1) + 1 := by omega
          rw [this]; exact hend)
      (fun j hj => by have := hc (j + 1) (by omega); simpa [Nat.add_assoc, Nat.add_comm 1] using this)
      (by have : m + 1 + r + 1 = m + (r + 1) + 1 := by omega
          rw [this]; exact hn)
      (fun pos a b => hst pos (by omega) (by
          have : m + 1 + r + 1 = m + (r + 1) + 1 := by omega
          rw [this] at b; exact b))
    obtain ⟨g1, g2, g3, g4, ws, g5, g6, g7, g8⟩ := h2
    have hidx : m + 1 + r + 1 = m + (r + 1) + 1 := by omega
    rw [hidx] at g1 g2 g3 g4 g5
    refine ⟨g1, g2, g3, g4,
      (⟨m, L + prev, L + 1, packLevel (L + prev) (L + 1)⟩ : LevelWrite) :: ws,
      by rw [g5, w1]; simp, by simp [g6], ?_, ?_⟩
    · intro w hw
      simp only [List.head?_cons, Option.mem_def, Option.some.injEq] at hw
      subst hw; exact ⟨rfl, rfl⟩
    · intro w hw
      cases ws with
      | nil => simp at g6
      | cons b l =>
        rw [List.getLast?_cons_cons] at hw
        obtain ⟨a, b⟩ := g8 w hw
        exact ⟨by rw [a]; omega, b⟩

/-- C15: a block of `k ≥ 1` comment lines `l .. l+k-1` that hold no
folding-keyword style, entered by the fold loop at the start of line `l` at a
level `L ≥ SC_FOLDLEVELBASE` with no pending change and from a line that is
no comment line (or from the start of the document), and followed by a line
that is no comment line: after the block the level is `L` again, the first
line of the block was at `L` and the level following its last line is `L`. -/
theorem C15_comment_block (f : FoldInput) (s : FoldState) (l k L : Nat) (hk : 0 < k)
    (hat : AtLine f s l L 0) (hb : SC_FOLDLEVELBASE ≤ L)
    (hne : ∀ j, j < k → LineStart f.text (l + j) < LineStart f.text (l + j + 1))
    (hend : LineStart f.text (l + k) ≤ f.endPos)
    (hc : ∀ j, j < k → GetLineCommentState (f.lineState (l + j)) = 1)
    (hn : GetLineCommentState (f.lineState (l + k)) = 0)
    (hst : ∀ pos, LineStart f.text l ≤ pos → pos < LineStart f.text (l + k) →
      f.styleAt pos ≠ SCE_F_FOLDING_WORD) :
    (foldLoop f (LineStart f.text (l + k) - LineStart f.text l) s).levelCurrent = L ∧
    (foldLoop f (LineStart f.text (l + k) - LineStart f.text l) s).levelNext = (L : Int) ∧
    (foldLoop f (LineStart f.text (l + k) - LineStart f.text l) s).lineCurrent = l + k ∧
    (foldLoop f (LineStart f.text (l + k) - LineStart f.text l) s).startPos
      = LineStart f.text (l + k) ∧
    ∃ ws, (foldLoop f (LineStart f.text (l + k) - LineStart f.text l) s).writes = s.writes ++ ws ∧
      ws.length = k ∧
      (∀ w ∈ ws.head?, w.line = l ∧ w.levelUse = L) ∧
      (∀ w ∈ ws.getLast?, w.line = l + k - 1 ∧ w.levelNext = L) := by
  obtain ⟨r, rfl⟩ : ∃ r, k = r + 1 := ⟨k - 1, by omega⟩
  have h := fold_comment_block f r s l L 0 hat (Nat.zero_le _) hb
    (fun j hj => hne j (by omega)) hend (fun j hj => hc j (by omega)) hn hst
  exact h

theorem foldInit_atLine (f : FoldInput) (levelAt : Nat → Nat) :
    AtLine f (foldInit f levelAt 0) 0 SC_FOLDLEVELBASE 0 ↔ LineStart f.text 1 ≤ f.endPos := by
  have h : GetLine f.text 0 = 0 := by
    unfold GetLine; cases f.text <;> rfl
  have h0 : LineStart f.text 0 = 0 := by
    unfold LineStart; cases f.text <;> rfl
  constructor
  · intro hat
    have := hat.next
    simp only [foldInit, h, Nat.zero_add] at this
    omega
  · intro hle
    constructor <;> simp [foldInit, h, h0, Nat.min_eq_left hle]

theorem C15_comment_block_witness :
    (foldLoop ⟨str "!a\n!b\nc\n", fun _ => SCE_F_COMMENT, fun l => if l ≤ 1 then 1 else 0, 8⟩
      (LineStart (str "!a\n!b\nc\n") (0 + 2) - LineStart (str "!a\n!b\nc\n") 0)
      (foldInit ⟨str "!a\n!b\nc\n", fun _ => SCE_F_COMMENT, fun l => if l ≤ 1 then 1 else 0, 8⟩
        (fun _ => 0) 0)).levelCurrent = SC_FOLDLEVELBASE :=
  (C15_comment_block
    ⟨str "!a\n!b\nc\n", fun _ => SCE_F_COMMENT, fun l => if l ≤ 1 then 1 else 0, 8⟩
    (foldInit ⟨str "!a\n!b\nc\n", fun _ => SCE_F_COMMENT, fun l => if l ≤ 1 then 1 else 0, 8⟩
      (fun _ => 0) 0)
    0 2 SC_FOLDLEVELBASE (by decide)
    ((foldInit_atLine _ _).mpr (by decide)) (Nat.le_refl _)
    (by decide) (by decide) (by decide) (by decide)
    (fun pos _ _ => by simp)).1

/-- C11 (counterexample): two comment lines and the line `do`: the first
comment line is written with the header flag and the second is one level
below it. -/
theorem C11_counterexample :
    (lexAndFold (str "!a\n!b\ndo\n") kwDemo).map
        (fun w => (w.line, w.levelUse, w.levelNext, decide (w.lev &&& SC_FOLDLEVELHEADERFLAG ≠ 0)))
      = [(0, SC_FOLDLEVELBASE, SC_FOLDLEVELBASE + 1, true),
         (1, SC_FOLDLEVELBASE + 1, SC_FOLDLEVELBASE, false),
         (2, SC_FOLDLEVELBASE, SC_FOLDLEVELBASE + 1, true)] := by
  decide

theorem lexAndFold_of_runK {α : Type} (g : List LevelWrite → α) (text : List Nat)
    (kw : LexerWordList) (k : Known) (hk : k.Holds kw) (v : α)
    (h : (runK ⟨text, passEnd text 0 text.length⟩ k (loopBound (passEnd text 0 text.length))
      (initLexer text 0 SCE_F_DEFAULT (fun _ => 0))).map
        (fun L => g (FoldFortranDoc text
          (fun pos => (L.sc.Complete ⟨text, passEnd text 0 text.length⟩).styles.getD pos
            SCE_F_DEFAULT)
          (applyLineWrites (fun _ => 0) L.lineWrites) (fun _ => 0) 0 text.length)) = some v) :
    g (lexAndFold text kw) = v := by
  unfold lexAndFold
  exact final_of_runK (fun L => g (FoldFortranDoc text
      (fun pos => L.sc.styles.getD pos SCE_F_DEFAULT)
      (applyLineWrites (fun _ => 0) L.lineWrites) (fun _ => 0) 0 text.length))
    text text.length SCE_F_DEFAULT kw (fun _ => 0) k hk v h

/-- Two comment lines at the start of a document, without folding-keyword
style, before a line that is no comment line: the calls of `SetLevel`. -/
theorem fold_two_comment_lines (f : FoldInput) (s : FoldState)
    (hat : AtLine f s 0 SC_FOLDLEVELBASE 0)
    (h01 : LineStart f.text 0 < LineStart f.text 1)
    (h12 : LineStart f.text 1 < LineStart f.text 2) (hend : LineStart f.text 2 ≤ f.endPos)
    (hc0 : GetLineCommentState (f.lineState 0) = 1)
    (hc1 : GetLineCommentState (f.lineState 1) = 1)
    (hc2 : GetLineCommentState (f.lineState 2) = 0)
    (hst : ∀ pos, pos < LineStart f.text 2 → f.styleAt pos ≠ SCE_F_FOLDING_WORD) :
    (foldLoop f (LineStart f.text 2 - LineStart f.text 0) s).writes
      = s.writes ++
        [⟨0, SC_FOLDLEVELBASE, SC_FOLDLEVELBASE + 1,
            packLevel SC_FOLDLEVELBASE (SC_FOLDLEVELBASE + 1)⟩,
         ⟨1, SC_FOLDLEVELBASE + 1, SC_FOLDLEVELBASE,
            packLevel (SC_FOLDLEVELBASE + 1) SC_FOLDLEVELBASE⟩] := by
  have a := fold_comment_line f s 0 SC_FOLDLEVELBASE 0 hat h01
    (by simp only [Nat.zero_add]; omega)
    (fun pos _ hp => hst pos (by simp only [Nat.zero_add] at hp; omega)) (Nat.le_refl _) hc0
    (Nat.zero_le _)
  simp only [Nat.zero_add, hc1, Nat.sub_zero] at a
  obtain ⟨w1, w2, w3, w4, w5, w6, w7, w8⟩ := a
  have hsplit : LineStart f.text 2 - LineStart f.text 0
      = (LineStart f.text 1 - LineStart f.text 0) + (LineStart f.text 2 - LineStart f.text 1) := by
    omega
  rw [hsplit, foldLoop_add]
  have hat' : AtLine f (foldLoop f (LineStart f.text 1 - LineStart f.text 0) s) 1
      (SC_FOLDLEVELBASE + 1) 1 :=
    ⟨w2, w3, by rw [w4]; exact Nat.min_eq_left hend, w5, w6, w7, by rw [w8, hc1]⟩
  have b := fold_comment_line f _ 1 (SC_FOLDLEVELBASE + 1) 1 hat' h12 hend
    (fun pos _ hp => hst pos hp) (by omega) hc1 (Nat.le_refl _)
  simp only [hc2, Nat.add_zero, Nat.add_sub_cancel] at b
  rw [b.1, w1]
  simp

/-- C11 (amended): two full-line comments and a code line. The comment block
folds under its first line: that line is written at the level before the
block with the header flag, the second comment line one level deeper and
without the flag, and the level following it is the level before the block.
For the text of two `!` lines and the line `do`, with `do` a folding word,
the code line is at the base level and the level following it is one higher. -/
theorem C11_comment_lines (kw : LexerWordList)
    (hdo : (kw KeywordIndex_CodeFolding).InList (str "do") = true)
    (f : FoldInput) (s : FoldState) :
    (lexAndFold (str "!a\n!b\ndo\n") kw).map
        (fun w => (w.line, w.levelUse, w.levelNext, decide (w.lev &&& SC_FOLDLEVELHEADERFLAG ≠ 0)))
      = [(0, SC_FOLDLEVELBASE, SC_FOLDLEVELBASE + 1, true),
         (1, SC_FOLDLEVELBASE + 1, SC_FOLDLEVELBASE, false),
         (2, SC_FOLDLEVELBASE, SC_FOLDLEVELBASE + 1, true)] ∧
    (AtLine f s 0 SC_FOLDLEVELBASE 0 →
      LineStart f.text 0 < LineStart f.text 1 → LineStart f.text 1 < LineStart f.text 2 →
      LineStart f.text 2 ≤ f.endPos →
      GetLineCommentState (f.lineState 0) = 1 → GetLineCommentState (f.lineState 1) = 1 →
      GetLineCommentState (f.lineState 2) = 0 →
      (∀ pos, pos < LineStart f.text 2 → f.styleAt pos ≠ SCE_F_FOLDING_WORD) →
      (foldLoop f (LineStart f.text 2 - LineStart f.text 0) s).writes
        = s.writes ++
          [⟨0, SC_FOLDLEVELBASE, SC_FOLDLEVELBASE + 1,
              packLevel SC_FOLDLEVELBASE (SC_FOLDLEVELBASE + 1)⟩,
           ⟨1, SC_FOLDLEVELBASE + 1, SC_FOLDLEVELBASE,
              packLevel (SC_FOLDLEVELBASE + 1) SC_FOLDLEVELBASE⟩]) ∧
    packLevel SC_FOLDLEVELBASE (SC_FOLDLEVELBASE + 1) &&& SC_FOLDLEVELHEADERFLAG ≠ 0 ∧
    packLevel (SC_FOLDLEVELBASE + 1) SC_FOLDLEVELBASE &&& SC_FOLDLEVELHEADERFLAG = 0 := by
  refine ⟨?_, fold_two_comment_lines f s, by decide, by decide⟩
  have hk : (⟨[(KeywordIndex_CodeFolding, str "do", true)], []⟩ : Known).Holds kw := by
    constructor
    · intro e he
      simp only [List.mem_singleton] at he
      subst he
      exact hdo
    · intro e he; simp at he
  exact lexAndFold_of_runK _ _ kw _ hk _ (by decide)

theorem C11_comment_lines_witness :
    (lexAndFold (str "!a\n!b\ndo\n") kwDemo).map
        (fun w => (w.line, w.levelUse, w.levelNext, decide (w.lev &&& SC_FOLDLEVELHEADERFLAG ≠ 0)))
      = [(0, SC_FOLDLEVELBASE, SC_FOLDLEVELBASE + 1, true),
         (1, SC_FOLDLEVELBASE + 1, SC_FOLDLEVELBASE, false),
         (2, SC_FOLDLEVELBASE, SC_FOLDLEVELBASE + 1, true)] :=
  (C11_comment_lines kwDemo (by decide)
    ⟨[], fun _ => SCE_F_DEFAULT, fun _ => 0, 0⟩
    ⟨0, 0, 0, 0, 0, 0, 0, SCE_F_DEFAULT, []⟩).1

/-- C10 (counterexample): with `abs(` in the function table of the Fortran
tokenizer, `abs` is painted as intrinsic although a blank follows it. -/
theorem C10_counterexample :
    (kwDemo KeywordIndex_Function).InListPrefixed (str "abs") 40 = true ∧
    (ColouriseFortranDoc (str "abs x\n") 0 6 SCE_F_DEFAULT kwDemo (fun _ => 0)).sc.styles
      = [SCE_F_INTRINSIC, SCE_F_INTRINSIC, SCE_F_INTRINSIC, SCE_F_DEFAULT, SCE_F_IDENTIFIER,
         SCE_F_DEFAULT] := by
  decide

theorem sas_wordCase_function (p : Pass) (kw : LexerWordList) (sc : StyleContext SAS.Style)
    (hs : sc.state = SAS.Style.SCE_SAS_IDENTIFIER) (hch : IsIdentifierChar sc.ch = false)
    (hseg : sc.startSeg ≤ sc.currentPos)
    (hkw : (kw SAS.KeywordIndex_Keyword).InList (sc.GetCurrentLowered p 64) = false)
    (hfn : (kw SAS.KeywordIndex_Function).InListPrefixed (sc.GetCurrentLowered p 64) 40 = true) :
    (SAS.wordCase p kw sc).styles
      = sc.styles ++ List.replicate (sc.currentPos - sc.startSeg)
          (if sc.ch = 40 then SAS.Style.SCE_SAS_BASIC_FUNCTION else SAS.Style.SCE_SAS_IDENTIFIER) ∧
    (SAS.wordCase p kw sc).state = SAS.Style.SCE_SAS_DEFAULT := by
  unfold SAS.wordCase
  simp only [hch, hs, hkw, hfn, Bool.not_false, if_true, and_true]
  by_cases h40 : sc.ch = 40
  · simp [h40, StyleContext.SetState, StyleContext.ColorTo, StyleContext.ChangeState,
      Nat.not_lt.mpr hseg]
  · simp [h40, StyleContext.SetState, StyleContext.ColorTo, Nat.not_lt.mpr hseg, hs]

theorem tableStyle_function (kw : LexerWordList) (s : List Nat) (prevWord : KeywordType)
    (h1 : (kw KeywordIndex_CodeFolding).InList s = false)
    (h0 : (kw KeywordIndex_Keyword).InList s = false)
    (h2 : (kw KeywordIndex_Type).InList s = false)
    (h3 : (kw KeywordIndex_Attribute).InList s = false)
    (h4 : (kw KeywordIndex_Function).InListPrefixed s 40 = true) :
    tableStyle kw s prevWord = SCE_F_INTRINSIC := by
  unfold tableStyle
  simp [h1, h0, h2, h3, h4]

/-- C10 (amended): an identifier that is in the builtin-function table and in
no table of higher priority is painted, in the SAS tokenizer, as
`SCE_SAS_BASIC_FUNCTION` when the byte after it is `(` and as
`SCE_SAS_IDENTIFIER` otherwise; in the Fortran tokenizer it is painted as
`SCE_F_INTRINSIC` whatever the byte after it. -/
theorem C10_function_call (p : Pass) (kw : LexerWordList) (sc : StyleContext SAS.Style)
    (L : Lexer) :
    (sc.state = SAS.Style.SCE_SAS_IDENTIFIER → IsIdentifierChar sc.ch = false →
      sc.startSeg ≤ sc.currentPos →
      (kw SAS.KeywordIndex_Keyword).InList (sc.GetCurrentLowered p 64) = false →
      (kw SAS.KeywordIndex_Function).InListPrefixed (sc.GetCurrentLowered p 64) 40 = true →
      (SAS.wordCase p kw sc).styles
        = sc.styles ++ List.replicate (sc.currentPos - sc.startSeg)
            (if sc.ch = 40 then SAS.Style.SCE_SAS_BASIC_FUNCTION
             else SAS.Style.SCE_SAS_IDENTIFIER) ∧
      (SAS.wordCase p kw sc).state = SAS.Style.SCE_SAS_DEFAULT) ∧
    (exits L = true → L.sc.startSeg ≤ L.sc.currentPos →
      (kw KeywordIndex_CodeFolding).InList (L.sc.GetCurrentLowered p 64) = false →
      (kw KeywordIndex_Keyword).InList (L.sc.GetCurrentLowered p 64) = false →
      (kw KeywordIndex_Type).InList (L.sc.GetCurrentLowered p 64) = false →
      (kw KeywordIndex_Attribute).InList (L.sc.GetCurrentLowered p 64) = false →
      (kw KeywordIndex_Function).InListPrefixed (L.sc.GetCurrentLowered p 64) 40 = true →
      (switchCase p kw L).1.sc.styles
        = L.sc.styles ++ List.replicate (L.sc.currentPos - L.sc.startSeg) SCE_F_INTRINSIC ∧
      (switchCase p kw L).1.sc.state = SCE_F_DEFAULT) := by
  refine ⟨sas_wordCase_function p kw sc, ?_⟩
  intro hexit hseg h1 h0 h2 h3 h4
  have ht := tableStyle_function kw _ L.kwType h1 h0 h2 h3 h4
  have hc : classify p kw L = ⟨SCE_F_INTRINSIC, .None, L.ifConstruct⟩ := by
    unfold classify classifyFrom
    simp [ht]
  simp only [exits, Bool.and_eq_true, decide_eq_true_eq] at hexit
  have e : (switchCase p kw L).1 = identifierCase (classify p kw L) L := by
    unfold switchCase
    simp only [hexit.1, hexit.2, if_true]
  rw [e, hc]
  have := identifierCase_styles ⟨SCE_F_INTRINSIC, .None, L.ifConstruct⟩ L hexit.1 hseg
  exact ⟨this.1, this.2.2⟩



theorem C10_function_call_witness :
    (SAS.wordCase ⟨str "abs(1)\n", 8⟩
        (fun i => if i = SAS.KeywordIndex_Function then ⟨[str "abs("]⟩ else ⟨[]⟩)
        (SAS.run ⟨str "abs(1)\n", 8⟩
          (fun i => if i = SAS.KeywordIndex_Function then ⟨[str "abs("]⟩ else ⟨[]⟩) 3
          (SAS.initLexer (str "abs(1)\n") 0 SAS.Style.SCE_SAS_DEFAULT)).sc).styles
      = [SAS.Style.SCE_SAS_BASIC_FUNCTION, SAS.Style.SCE_SAS_BASIC_FUNCTION,
         SAS.Style.SCE_SAS_BASIC_FUNCTION] ∧
    (switchCase ⟨str "abs x\n", 7⟩ kwDemo (demoState (str "abs x\n") 3)).1.sc.styles
      = [SCE_F_INTRINSIC, SCE_F_INTRINSIC, SCE_F_INTRINSIC] :=
  ⟨((C10_function_call ⟨str "abs(1)\n", 8⟩
        (fun i => if i = SAS.KeywordIndex_Function then ⟨[str "abs("]⟩ else ⟨[]⟩)
        (SAS.run ⟨str "abs(1)\n", 8⟩
          (fun i => if i = SAS.KeywordIndex_Function then ⟨[str "abs("]⟩ else ⟨[]⟩) 3
          (SAS.initLexer (str "abs(1)\n") 0 SAS.Style.SCE_SAS_DEFAULT)).sc
        (demoState (str "abs x\n") 3)).1
      (by decide) (by decide) (by decide) (by decide) (by decide)).1,
   ((C10_function_call ⟨str "abs x\n", 7⟩ kwDemo
        (SAS.initLexer (str "abs(1)\n") 0 SAS.Style.SCE_SAS_DEFAULT).sc
        (demoState (str "abs x\n") 3)).2
      (by decide) (by decide) (by decide) (by decide) (by decide) (by decide) (by decide)).1⟩

/-- C9 (counterexample): in `"he said ""hi"""` the two doubled quotes are
painted as escape characters, so the string is split into several style
runs. -/
theorem C9_counterexample :
    (ColouriseFortranDoc (str "\"he said \"\"hi\"\"\"\n") 0 17 SCE_F_DEFAULT kwDemo
        (fun _ => 0)).sc.styles
      = [SCE_F_STRING_DQ, SCE_F_STRING_DQ, SCE_F_STRING_DQ, SCE_F_STRING_DQ, SCE_F_STRING_DQ,
         SCE_F_STRING_DQ, SCE_F_STRING_DQ, SCE_F_STRING_DQ, SCE_F_STRING_DQ,
         SCE_F_ESCAPECHAR, SCE_F_ESCAPECHAR, SCE_F_STRING_DQ, SCE_F_STRING_DQ,
         SCE_F_ESCAPECHAR, SCE_F_ESCAPECHAR, SCE_F_STRING_DQ, SCE_F_DEFAULT] := by
  decide

theorem Forward_styles {σ : Type} (p : Pass) (sc : StyleContext σ) :
    (sc.Forward p).styles = sc.styles := by
  unfold StyleContext.Forward
  split <;> rfl

theorem Forward_startSeg {σ : Type} (p : Pass) (sc : StyleContext σ) :
    (sc.Forward p).startSeg = sc.startSeg := by
  unfold StyleContext.Forward
  split <;> rfl

theorem step_doubled_quote (p : Pass) (kw : LexerWordList) (L : Lexer)
    (hstr : (L.sc.state = SCE_F_STRING_SQ ∧ L.sc.ch = 39) ∨
            (L.sc.state = SCE_F_STRING_DQ ∧ L.sc.ch = 34))
    (hls : L.sc.atLineStart = false) (hnext : L.sc.chNext = L.sc.ch)
    (hseg : L.sc.startSeg ≤ L.sc.currentPos) (hpos : L.sc.currentPos + 1 < p.endPos) :
    (step p kw (step p kw L)).sc.state = L.sc.state ∧
    (step p kw (step p kw L)).sc.currentPos = L.sc.currentPos + 2 ∧
    (step p kw (step p kw L)).sc.styles
      = L.sc.styles ++ List.replicate (L.sc.currentPos - L.sc.startSeg) L.sc.state
          ++ [SCE_F_ESCAPECHAR, SCE_F_ESCAPECHAR] := by
  have e1 : step p kw L
      = lineTail p { L with escSeq := { outerState := L.sc.state, digitsLeft := 1 },
                            sc := (L.sc.SetState SCE_F_ESCAPECHAR).Forward p } := by
    have hq : L.sc.ch = (if L.sc.state = SCE_F_STRING_SQ then 39 else 34) := by
      rcases hstr with h | h <;> simp [h.1, h.2]
    have h38 : ¬ (L.sc.ch = 38 ∧ IsEOLChar L.sc.chNext = true) := by
      rcases hstr with h | h <;> simp [h.2]
    have h92 : ¬ L.sc.ch = 92 := by
      rcases hstr with h | h <;> simp [h.2]
    have e : switchCase p kw L = (stringCase p L, false) := by
      unfold switchCase
      rcases hstr with h | h <;> simp only [h.1]
    have e2 : stringCase p L
        = { L with escSeq := { outerState := L.sc.state, digitsLeft := 1 },
                   sc := (L.sc.SetState SCE_F_ESCAPECHAR).Forward p } := by
      unfold stringCase
      simp only [hls, Bool.false_eq_true, false_and, if_false]
      rw [if_neg h38, if_neg h92, if_pos hq, if_pos hnext.symm]
    unfold step
    simp only [e, Bool.false_eq_true, if_false, e2]
    rw [defaultCase_of_ne]
    simp only [Forward_state]
    rw [SetState_eq _ _ hseg]
    simp
  have hsc1 : (step p kw L).sc = ((L.sc.SetState SCE_F_ESCAPECHAR).Forward p).Forward p := by
    rw [e1, lineTail_sc]
  have hes1 : (step p kw L).escSeq = { outerState := L.sc.state, digitsLeft := 1 } := by
    rw [e1, lineTail_escSeq]
  have hst1 : (step p kw L).sc.state = SCE_F_ESCAPECHAR := by
    rw [hsc1, Forward_state, Forward_state, SetState_eq _ _ hseg]
  have hp0 : (L.sc.SetState SCE_F_ESCAPECHAR).currentPos = L.sc.currentPos := by
    rw [SetState_eq _ _ hseg]
  have hp1 : ((L.sc.SetState SCE_F_ESCAPECHAR).Forward p).currentPos = L.sc.currentPos + 1 := by
    rw [Forward_pos, hp0]
    rw [hp0]; omega
  have hp2 : (step p kw L).sc.currentPos = L.sc.currentPos + 2 := by
    rw [hsc1, Forward_pos, hp1]
    rw [hp1]; exact hpos
  have hseg1 : (step p kw L).sc.startSeg = L.sc.currentPos := by
    rw [hsc1, Forward_startSeg, Forward_startSeg, SetState_eq _ _ hseg]
  have hsty1 : (step p kw L).sc.styles
      = L.sc.styles ++ List.replicate (L.sc.currentPos - L.sc.startSeg) L.sc.state := by
    rw [hsc1, Forward_styles, Forward_styles, SetState_eq _ _ hseg]
  have e3 := step_escape_end p kw (step p kw L) hst1 (Or.inl (by rw [hes1]))
  have hseg2 : (step p kw L).sc.startSeg ≤ (step p kw L).sc.currentPos := by
    rw [hseg1, hp2]; omega
  rw [e3]
  simp only
  rw [SetState_eq _ _ hseg2]
  simp only [hes1, hp2, hsty1, hseg1, hst1]
  refine ⟨trivial, trivial, ?_⟩
  have : L.sc.currentPos + 2 - L.sc.currentPos = 2 := by omega
  rw [this]
  rfl



/-- C9 (amended): in `"he said ""hi"""`, for all keyword tables, the
characters from the opening quote through the final quote are painted as
double-quoted string except the two doubled quotes, which are painted as
escape characters, and the default state returns exactly after the final
quote. In general a doubled quote met in a string of its own kind does not
end the string: the pair is painted as an escape character and two
iterations later the scanner is in the same string state two positions on. -/
theorem C9_doubled_quote (p : Pass) (kw : LexerWordList) (L : Lexer) (ls : Nat → Nat) :
    (ColouriseFortranDoc (str "\"he said \"\"hi\"\"\"\n") 0 17 SCE_F_DEFAULT kw ls).sc.styles
      = [SCE_F_STRING_DQ, SCE_F_STRING_DQ, SCE_F_STRING_DQ, SCE_F_STRING_DQ, SCE_F_STRING_DQ,
         SCE_F_STRING_DQ, SCE_F_STRING_DQ, SCE_F_STRING_DQ, SCE_F_STRING_DQ,
         SCE_F_ESCAPECHAR, SCE_F_ESCAPECHAR, SCE_F_STRING_DQ, SCE_F_STRING_DQ,
         SCE_F_ESCAPECHAR, SCE_F_ESCAPECHAR, SCE_F_STRING_DQ, SCE_F_DEFAULT] ∧
    (((L.sc.state = SCE_F_STRING_SQ ∧ L.sc.ch = 39) ∨
        (L.sc.state = SCE_F_STRING_DQ ∧ L.sc.ch = 34)) →
      L.sc.atLineStart = false → L.sc.chNext = L.sc.ch →
      L.sc.startSeg ≤ L.sc.currentPos → L.sc.currentPos + 1 < p.endPos →
      (step p kw (step p kw L)).sc.state = L.sc.state ∧
      (step p kw (step p kw L)).sc.currentPos = L.sc.currentPos + 2 ∧
      (step p kw (step p kw L)).sc.styles
        = L.sc.styles ++ List.replicate (L.sc.currentPos - L.sc.startSeg) L.sc.state
            ++ [SCE_F_ESCAPECHAR, SCE_F_ESCAPECHAR]) :=
  ⟨final_of_runK (fun L => L.sc.styles) _ _ _ kw ls _ (Known.holds_nil kw) _ (by decide),
   step_doubled_quote p kw L⟩

theorem C9_doubled_quote_witness :
    (step ⟨str "\"he said \"\"hi\"\"\"\n", 18⟩ kwDemo
        (step ⟨str "\"he said \"\"hi\"\"\"\n", 18⟩ kwDemo
          (demoState (str "\"he said \"\"hi\"\"\"\n") 9))).sc.state = SCE_F_STRING_DQ ∧
    (step ⟨str "\"he said \"\"hi\"\"\"\n", 18⟩ kwDemo
        (step ⟨str "\"he said \"\"hi\"\"\"\n", 18⟩ kwDemo
          (demoState (str "\"he said \"\"hi\"\"\"\n") 9))).sc.currentPos = 11 :=
  ⟨((C9_doubled_quote ⟨str "\"he said \"\"hi\"\"\"\n", 18⟩ kwDemo
        (demoState (str "\"he said \"\"hi\"\"\"\n") 9) (fun _ => 0)).2
      (by decide) (by decide) (by decide) (by decide) (by decide)).1,
   ((C9_doubled_quote ⟨str "\"he said \"\"hi\"\"\"\n", 18⟩ kwDemo
        (demoState (str "\"he said \"\"hi\"\"\"\n") 9) (fun _ => 0)).2
      (by decide) (by decide) (by decide) (by decide) (by decide)).2.1⟩

/-- A line that begins with a folding-keyword run spelling a word in `end` and
has no other folding-keyword run: the loop reaches the end of the line with
the level lowered by one. -/
theorem fold_end_line (f : FoldInput) (n c : Nat) (s : FoldState)
    (hsty : f.styleAt s.startPos = SCE_F_FOLDING_WORD) (hprev : s.style ≠ SCE_F_FOLDING_WORD)
    (hword : foldWord f.text s.startPos = (c, -1))
    (hlen : c + 1 + (n + 1) = s.lineStartNext) (hend : s.lineStartNext ≤ f.endPos)
    (hpos : s.startPos < f.endPos)
    (hrest : ∀ pos, c + 1 ≤ pos → pos < s.lineStartNext → f.styleAt pos ≠ SCE_F_FOLDING_WORD) :
    foldLoop f (n + 2) s
      = foldLineEnd f { s with startPos := s.lineStartNext,
                               style := f.styleAt (s.lineStartNext - 1),
                               levelNext := s.levelNext + (-1) } := by
  have hadv : foldAdvance f s
      = { s with style := SCE_F_FOLDING_WORD, startPos := c + 1,
                 levelNext := s.levelNext + (-1) } := by
    unfold foldAdvance
    simp only [hsty, hprev, ne_eq, not_false_eq_true, and_self, if_true, hword]
  have hstep : foldStep f s
      = { s with style := SCE_F_FOLDING_WORD, startPos := c + 1,
                 levelNext := s.levelNext + (-1) } := by
    unfold foldStep
    simp only [hadv]
    rw [if_neg]
    omega
  show foldLoop f ((n + 1) + 1) s = _
  rw [foldLoop, if_pos hpos, hstep]
  rw [foldLoop_line f n _ (by simpa using hlen) (by simpa using hend)
    (by intro pos h1 h2; exact hrest pos h1 h2)]


/-- C8 (counterexample): with `end` and `if` in the folding-keyword table,
the `IF` of `END IF` is painted as a plain keyword. -/
theorem C8_counterexample :
    (kwDemo KeywordIndex_CodeFolding).InList (str "end") = true ∧
    (kwDemo KeywordIndex_CodeFolding).InList (str "if") = true ∧
    (ColouriseFortranDoc (str "END IF\n") 0 7 SCE_F_DEFAULT kwDemo (fun _ => 0)).sc.styles
      = [SCE_F_FOLDING_WORD, SCE_F_FOLDING_WORD, SCE_F_FOLDING_WORD, SCE_F_DEFAULT,
         SCE_F_WORD, SCE_F_WORD, SCE_F_DEFAULT] := by
  decide

theorem knownEndIf_holds (kw : LexerWordList)
    (hif : (kw KeywordIndex_CodeFolding).InList (str "if") = true)
    (hend : (kw KeywordIndex_CodeFolding).InList (str "end") = true)
    (hthen : (kw KeywordIndex_CodeFolding).InList (str "then") = false)
    (hthen' : (kw KeywordIndex_Keyword).InList (str "then") = true) :
    (knownEndIf ((kw KeywordIndex_CodeFolding).InList (str "c"))
      ((kw KeywordIndex_Keyword).InList (str "c")) ((kw KeywordIndex_Type).InList (str "c"))
      ((kw KeywordIndex_Attribute).InList (str "c"))
      ((kw KeywordIndex_Function).InListPrefixed (str "c") 40)).Holds kw := by
  constructor
  · intro e he
    simp only [knownEndIf, List.mem_cons, List.mem_singleton, List.not_mem_nil, or_false] at he
    rcases he with h | h | h | h | h | h | h | h <;> subst h <;> first | assumption | rfl
  · intro e he
    simp only [knownEndIf, List.mem_singleton] at he
    subst he
    rfl

theorem endIf_known_holds (kw : LexerWordList)
    (hend : (kw KeywordIndex_CodeFolding).InList (str "end") = true)
    (hif : (kw KeywordIndex_CodeFolding).InList (str "if") = true) :
    (⟨[(KeywordIndex_CodeFolding, str "end", true), (KeywordIndex_CodeFolding, str "if", true)],
      []⟩ : Known).Holds kw := by
  constructor
  · intro e he
    simp only [List.mem_cons, List.mem_singleton, List.not_mem_nil, or_false] at he
    rcases he with h | h <;> subst h <;> assumption
  · intro e he
    simp at he

theorem endIf_pipeline : ∀ b1 b2 b3 b4 b5 : Bool,
    (runK ⟨str "IF (C) THEN\nEND IF\n", passEnd (str "IF (C) THEN\nEND IF\n") 0 19⟩
        (knownEndIf b1 b2 b3 b4 b5) (loopBound (passEnd (str "IF (C) THEN\nEND IF\n") 0 19))
        (initLexer (str "IF (C) THEN\nEND IF\n") 0 SCE_F_DEFAULT (fun _ => 0))).map
      (fun L => decide (FoldFortranDoc (str "IF (C) THEN\nEND IF\n")
          (fun pos => (L.sc.Complete ⟨str "IF (C) THEN\nEND IF\n",
              passEnd (str "IF (C) THEN\nEND IF\n") 0 19⟩).styles.getD pos SCE_F_DEFAULT)
          (applyLineWrites (fun _ => 0) L.lineWrites) (fun _ => 0) 0 19
        = [⟨0, SC_FOLDLEVELBASE, SC_FOLDLEVELBASE + 1,
            packLevel SC_FOLDLEVELBASE (SC_FOLDLEVELBASE + 1)⟩,
           ⟨1, SC_FOLDLEVELBASE + 1, SC_FOLDLEVELBASE,
            packLevel (SC_FOLDLEVELBASE + 1) SC_FOLDLEVELBASE⟩])) = some true := by
  decide


theorem fold_end_if (styleAt : Nat → Style) (lineState levelAt : Nat → Nat)
    (h12 : styleAt 12 = SCE_F_FOLDING_WORD)
    (hrest : ∀ pos, 15 ≤ pos → pos < 19 → styleAt pos ≠ SCE_F_FOLDING_WORD)
    (hcode : GetLineCommentState (lineState 1) = 0)
    (hlv : SC_FOLDLEVELBASE < levelAt 0 >>> 16) :
    FoldFortranDoc (str "IF (C) THEN\nEND IF\n") styleAt lineState levelAt 12 7
      = [⟨1, levelAt 0 >>> 16, levelAt 0 >>> 16 - 1,
          packLevel (levelAt 0 >>> 16) (levelAt 0 >>> 16 - 1)⟩] := by
  have hline : GetLine (str "IF (C) THEN\nEND IF\n") 12 = 1 := by decide
  have hnext : LineStart (str "IF (C) THEN\nEND IF\n") 2 = 19 := by decide
  have hword : foldWord (str "IF (C) THEN\nEND IF\n") 12 = (14, -1) := by decide
  unfold FoldFortranDoc
  simp only
  have hinit : foldInit ⟨str "IF (C) THEN\nEND IF\n", styleAt, lineState, 12 + 7⟩ levelAt 12
      = { startPos := 12, lineCurrent := 1, levelCurrent := levelAt 0 >>> 16,
          levelNext := ((levelAt 0 >>> 16 : Nat) : Int),
          lineCommentPrev := GetLineCommentState (lineState 0),
          lineCommentCurrent := 0, lineStartNext := 19, style := SCE_F_DEFAULT,
          writes := [] } := by
    simp only [foldInit, hline, hnext, hcode]
    simp
  rw [hinit]
  have h5 := fold_end_line ⟨str "IF (C) THEN\nEND IF\n", styleAt, lineState, 12 + 7⟩ 3 14
    { startPos := 12, lineCurrent := 1, levelCurrent := levelAt 0 >>> 16,
      levelNext := ((levelAt 0 >>> 16 : Nat) : Int),
      lineCommentPrev := GetLineCommentState (lineState 0),
      lineCommentCurrent := 0, lineStartNext := 19, style := SCE_F_DEFAULT,
      writes := [] } h12 (by simp) hword (by simp) (by simp) (by simp) hrest
  have h7 : (7 : Nat) = (3 + 2) + 2 := rfl
  rw [h7, foldLoop_add, h5]
  simp only [foldLineEnd, foldLoop, hnext]
  rw [if_neg (by simp)]
  simp only [ne_eq, not_true_eq_false, if_false, List.nil_append]
  have hb : (SC_FOLDLEVELBASE : Int) ≤ ((levelAt 0 >>> 16 : Nat) : Int) + -1 := by
    have : ((SC_FOLDLEVELBASE : Nat) : Int) < ((levelAt 0 >>> 16 : Nat) : Int) := by
      exact_mod_cast hlv
    omega
  have hmax : max (((levelAt 0 >>> 16 : Nat) : Int) + -1) (SC_FOLDLEVELBASE : Int)
      = ((levelAt 0 >>> 16 - 1 : Nat) : Int) := by
    rw [max_eq_left hb]
    omega
  rw [hmax]
  simp only [Int.toNat_ofNat, packLevel]
  have hlt : ¬ ((levelAt 0 >>> 16 : Nat) : Int) < ((levelAt 0 >>> 16 - 1 : Nat) : Int) := by
    omega
  have hlt' : ¬ levelAt 0 >>> 16 < levelAt 0 >>> 16 - 1 := by omega
  rw [if_neg hlt, if_neg hlt']


/-- C8 (amended): with `end` and `if` in the folding-keyword table and bracket
depth 0, the line `END IF` has `END` painted as folding keyword and `IF` as
plain keyword. `FoldFortranDoc` over that line, when only the run of `END`
has the folding-keyword style, the line is no comment line and its own level
is above the base level, writes a following level exactly one lower than the
own level; after `IF (C) THEN` on the line before (with `then` a reserved
word only) the two passes open one level on the first line and close it on
the second. -/
theorem C8_end_if (kw : LexerWordList) (ls : Nat → Nat) (styleAt : Nat → Style)
    (lineState levelAt : Nat → Nat)
    (hend : (kw KeywordIndex_CodeFolding).InList (str "end") = true)
    (hif : (kw KeywordIndex_CodeFolding).InList (str "if") = true) :
    (ColouriseFortranDoc (str "END IF\n") 0 7 SCE_F_DEFAULT kw ls).sc.styles
      = [SCE_F_FOLDING_WORD, SCE_F_FOLDING_WORD, SCE_F_FOLDING_WORD, SCE_F_DEFAULT,
         SCE_F_WORD, SCE_F_WORD, SCE_F_DEFAULT] ∧
    (styleAt 12 = SCE_F_FOLDING_WORD →
      (∀ pos, 15 ≤ pos → pos < 19 → styleAt pos ≠ SCE_F_FOLDING_WORD) →
      GetLineCommentState (lineState 1) = 0 → SC_FOLDLEVELBASE < levelAt 0 >>> 16 →
      FoldFortranDoc (str "IF (C) THEN\nEND IF\n") styleAt lineState levelAt 12 7
        = [⟨1, levelAt 0 >>> 16, levelAt 0 >>> 16 - 1,
            packLevel (levelAt 0 >>> 16) (levelAt 0 >>> 16 - 1)⟩]) ∧
    ((kw KeywordIndex_CodeFolding).InList (str "then") = false →
      (kw KeywordIndex_Keyword).InList (str "then") = true →
      lexAndFold (str "IF (C) THEN\nEND IF\n") kw
        = [⟨0, SC_FOLDLEVELBASE, SC_FOLDLEVELBASE + 1,
            packLevel SC_FOLDLEVELBASE (SC_FOLDLEVELBASE + 1)⟩,
           ⟨1, SC_FOLDLEVELBASE + 1, SC_FOLDLEVELBASE,
            packLevel (SC_FOLDLEVELBASE + 1) SC_FOLDLEVELBASE⟩]) := by
  refine ⟨?_, fold_end_if styleAt lineState levelAt, ?_⟩
  · exact final_of_runK (fun L => L.sc.styles) _ _ _ kw ls _ (endIf_known_holds kw hend hif) _
      (by decide)
  · intro hthen hthen'
    have hk := knownEndIf_holds kw hif hend hthen hthen'
    have h := lexAndFold_of_runK (fun w => decide (w
        = [⟨0, SC_FOLDLEVELBASE, SC_FOLDLEVELBASE + 1,
            packLevel SC_FOLDLEVELBASE (SC_FOLDLEVELBASE + 1)⟩,
           ⟨1, SC_FOLDLEVELBASE + 1, SC_FOLDLEVELBASE,
            packLevel (SC_FOLDLEVELBASE + 1) SC_FOLDLEVELBASE⟩]))
      (str "IF (C) THEN\nEND IF\n") kw _ hk true (endIf_pipeline _ _ _ _ _)
    exact of_decide_eq_true h

theorem C8_end_if_witness :
    (ColouriseFortranDoc (str "END IF\n") 0 7 SCE_F_DEFAULT kwDemo (fun _ => 0)).sc.styles
      = [SCE_F_FOLDING_WORD, SCE_F_FOLDING_WORD, SCE_F_FOLDING_WORD, SCE_F_DEFAULT,
         SCE_F_WORD, SCE_F_WORD, SCE_F_DEFAULT] ∧
    FoldFortranDoc (str "IF (C) THEN\nEND IF\n")
        (fun pos => if 12 ≤ pos ∧ pos < 15 then SCE_F_FOLDING_WORD else SCE_F_DEFAULT)
        (fun _ => 0) (fun _ => 1027 <<< 16) 12 7
      = [⟨1, 1027, 1026, packLevel 1027 1026⟩] ∧
    lexAndFold (str "IF (C) THEN\nEND IF\n") kwDemo
      = [⟨0, SC_FOLDLEVELBASE, SC_FOLDLEVELBASE + 1,
          packLevel SC_FOLDLEVELBASE (SC_FOLDLEVELBASE + 1)⟩,
         ⟨1, SC_FOLDLEVELBASE + 1, SC_FOLDLEVELBASE,
          packLevel (SC_FOLDLEVELBASE + 1) SC_FOLDLEVELBASE⟩] :=
  ⟨(C8_end_if kwDemo (fun _ => 0)
      (fun pos => if 12 ≤ pos ∧ pos < 15 then SCE_F_FOLDING_WORD else SCE_F_DEFAULT)
      (fun _ => 0) (fun _ => 1027 <<< 16) (by decide) (by decide)).1,
   (C8_end_if kwDemo (fun _ => 0)
      (fun pos => if 12 ≤ pos ∧ pos < 15 then SCE_F_FOLDING_WORD else SCE_F_DEFAULT)
      (fun _ => 0) (fun _ => 1027 <<< 16) (by decide) (by decide)).2.1 (by decide)
      (by intro pos h1 h2; simp; omega) (by decide) (by decide),
   (C8_end_if kwDemo (fun _ => 0)
      (fun pos => if 12 ≤ pos ∧ pos < 15 then SCE_F_FOLDING_WORD else SCE_F_DEFAULT)
      (fun _ => 0) (fun _ => 1027 <<< 16) (by decide) (by decide)).2.2 (by decide) (by decide)⟩

theorem switchCase_string (p : Pass) (kw : LexerWordList) (L : Lexer)
    (hstr : L.sc.state = SCE_F_STRING_SQ ∨ L.sc.state = SCE_F_STRING_DQ) :
    switchCase p kw L = (stringCase p L, false) := by
  unfold switchCase
  rcases hstr with h | h <;> simp only [h]

theorem string_line_start_closed (p : Pass) (kw : LexerWordList) (L : Lexer)
    (hstr : L.sc.state = SCE_F_STRING_SQ ∨ L.sc.state = SCE_F_STRING_DQ)
    (hls : L.sc.atLineStart = true) (hflag : L.lineState ≠ FortranLineStateLineContinuation)
    (hseg : L.sc.startSeg ≤ L.sc.currentPos) :
    (switchCase p kw L).1.sc.state = SCE_F_DEFAULT ∧
    (switchCase p kw L).1.sc.currentPos = L.sc.currentPos ∧
    (switchCase p kw L).1.sc.styles
      = L.sc.styles ++ List.replicate (L.sc.currentPos - L.sc.startSeg) L.sc.state := by
  rw [switchCase_string p kw L hstr]
  unfold stringCase
  simp only [hls, hflag, ne_eq, not_false_eq_true, and_self, if_true]
  rw [SetState_eq _ _ hseg]
  exact ⟨rfl, rfl, rfl⟩

theorem string_line_start_open (p : Pass) (kw : LexerWordList) (L : Lexer)
    (hstr : L.sc.state = SCE_F_STRING_SQ ∨ L.sc.state = SCE_F_STRING_DQ)
    (hls : L.sc.atLineStart = true) (hflag : L.lineState = FortranLineStateLineContinuation) :
    (switchCase p kw L).1.lineState
      = (if L.sc.ch = 38 ∧ IsEOLChar L.sc.chNext then FortranLineStateLineContinuation else 0) ∧
    ((switchCase p kw L).1.sc.state = SCE_F_DEFAULT ↔
      (L.sc.ch = (if L.sc.state = SCE_F_STRING_SQ then 39 else 34) ∧ L.sc.ch ≠ L.sc.chNext)) := by
  rw [switchCase_string p kw L hstr]
  unfold stringCase
  simp only [hls, hflag, ne_eq, not_true_eq_false, and_false, if_false, if_true]
  by_cases h38 : L.sc.ch = 38 ∧ IsEOLChar L.sc.chNext = true
  · rw [if_pos h38, if_pos h38]
    refine ⟨rfl, ?_⟩
    simp only
    rcases hstr with h | h <;> simp [h, h38.1]
  · rw [if_neg h38, if_neg h38]
    by_cases h92 : L.sc.ch = 92
    · rw [if_pos h92]
      have hne : (EscapeSequence.resetEscapeState L.sc.state L.sc.chNext).1.outerState
          = L.sc.state := rfl
      split
      · refine ⟨rfl, ?_⟩
        simp only [Forward_state]
        rcases hstr with h | h <;> simp [h, h92, StyleContext.SetState]
      · refine ⟨rfl, ?_⟩
        rcases hstr with h | h <;> simp [h, h92]
    · rw [if_neg h92]
      by_cases hq : L.sc.ch = (if L.sc.state = SCE_F_STRING_SQ then 39 else 34)
      · rw [if_pos hq]
        by_cases hd : L.sc.ch = L.sc.chNext
        · rw [if_pos hd]
          refine ⟨rfl, ?_⟩
          simp only [Forward_state]
          simp [StyleContext.SetState, hd]
        · rw [if_neg hd]
          exact ⟨rfl, fun _ => ⟨hq, hd⟩, fun _ => rfl⟩
      · rw [if_neg hq]
        refine ⟨rfl, ?_⟩
        rcases hstr with h | h <;> simp [h] at hq ⊢ <;> simp [hq]

theorem string_flag_inside (p : Pass) (kw : LexerWordList) (L : Lexer)
    (hstr : L.sc.state = SCE_F_STRING_SQ ∨ L.sc.state = SCE_F_STRING_DQ)
    (hls : L.sc.atLineStart = false) :
    (switchCase p kw L).1.lineState
      = (if L.sc.ch = 38 ∧ IsEOLChar L.sc.chNext then FortranLineStateLineContinuation
         else L.lineState) := by
  rw [switchCase_string p kw L hstr]
  unfold stringCase
  simp only [hls, Bool.false_eq_true, false_and, if_false]
  by_cases h38 : L.sc.ch = 38 ∧ IsEOLChar L.sc.chNext = true
  · rw [if_pos h38, if_pos h38]
  · rw [if_neg h38, if_neg h38]
    split_ifs <;> rfl

theorem lineTail_lineState (p : Pass) (M : Lexer) :
    (lineTail p M).lineState
      = (if M.sc.atLineEnd then M.lineState &&& FortranLineStateLineContinuation
         else M.lineState) := by
  unfold lineTail
  simp only
  split <;> split <;> simp_all


theorem Forward_atLineStart {σ : Type} (p : Pass) (sc : StyleContext σ)
    (h : sc.currentPos < p.endPos) : (sc.Forward p).atLineStart = sc.atLineEnd := by
  unfold StyleContext.Forward
  rw [if_pos h]

theorem Forward_ch {σ : Type} (p : Pass) (sc : StyleContext σ)
    (h : sc.currentPos < p.endPos) : (sc.Forward p).ch = sc.chNext := by
  unfold StyleContext.Forward
  rw [if_pos h]

theorem lineTail_string (p : Pass) (M : Lexer) :
    (lineTail p M).sc.state = M.sc.state := by
  rw [lineTail_sc, Forward_state]

/-- One iteration in a string state on a byte that is neither the closing
quote nor a backslash that starts an escape: only the cursor moves, and the
continuation flag is set exactly by `&` before an end-of-line byte. -/
theorem step_string_plain (p : Pass) (kw : LexerWordList) (L : Lexer)
    (hstr : L.sc.state = SCE_F_STRING_SQ ∨ L.sc.state = SCE_F_STRING_DQ)
    (hls : L.sc.atLineStart = false)
    (hq : L.sc.ch ≠ (if L.sc.state = SCE_F_STRING_SQ then 39 else 34))
    (hesc : L.sc.ch = 92 → (EscapeSequence.resetEscapeState L.sc.state L.sc.chNext).2 = false) :
    (step p kw L).sc = L.sc.Forward p ∧
    (step p kw L).lineState
      = (if L.sc.atLineEnd then
          (if L.sc.ch = 38 ∧ IsEOLChar L.sc.chNext then FortranLineStateLineContinuation
           else L.lineState) &&& FortranLineStateLineContinuation
         else
          (if L.sc.ch = 38 ∧ IsEOLChar L.sc.chNext then FortranLineStateLineContinuation
           else L.lineState)) := by
  have hsw : (stringCase p L).sc = L.sc ∧ (stringCase p L).lineState
      = (if L.sc.ch = 38 ∧ IsEOLChar L.sc.chNext then FortranLineStateLineContinuation
         else L.lineState) := by
    unfold stringCase
    simp only [hls, Bool.false_eq_true, false_and, if_false]
    by_cases h38 : L.sc.ch = 38 ∧ IsEOLChar L.sc.chNext = true
    · rw [if_pos h38, if_pos h38]; exact ⟨rfl, rfl⟩
    · rw [if_neg h38, if_neg h38]
      by_cases h92 : L.sc.ch = 92
      · rw [if_pos h92]
        simp only [hesc h92, Bool.false_eq_true, if_false, and_self]
      · rw [if_neg h92, if_neg hq]
        exact ⟨rfl, rfl⟩
  have hne : (stringCase p L).sc.state ≠ SCE_F_DEFAULT := by
    rw [hsw.1]
    rcases hstr with h | h <;> simp [h]
  unfold step
  rw [switchCase_string p kw L hstr]
  simp only [Bool.false_eq_true, if_false]
  rw [defaultCase_of_ne p _ hne, lineTail_sc, lineTail_lineState, hsw.1, hsw.2]
  exact ⟨rfl, rfl⟩


theorem eol_cases (c : Nat) (h : IsEOLChar c = true) : c = 10 ∨ c = 13 := by
  unfold IsEOLChar at h
  simp only [Bool.or_eq_true, decide_eq_true_eq] at h
  omega

/-- A string still open on the last byte before the end-of-line byte of its
line: two iterations later the scanner stands at the start of the next line,
still in the string state, and the continuation flag is set exactly when
that last byte was `&`. -/
theorem string_line_end (p : Pass) (kw : LexerWordList) (L : Lexer)
    (hstr : L.sc.state = SCE_F_STRING_SQ ∨ L.sc.state = SCE_F_STRING_DQ)
    (hls : L.sc.atLineStart = false)
    (hq : L.sc.ch ≠ (if L.sc.state = SCE_F_STRING_SQ then 39 else 34))
    (hnext : IsEOLChar L.sc.chNext = true)
    (hpos : L.sc.currentPos + 1 < p.endPos)
    (hend0 : L.sc.atLineEnd = false) (hend1 : (L.sc.Forward p).atLineEnd = true)
    (hflag : L.lineState &&& FortranLineStateLineContinuation = 0) :
    (step p kw (step p kw L)).sc.atLineStart = true ∧
    (step p kw (step p kw L)).sc.state = L.sc.state ∧
    (step p kw (step p kw L)).sc.currentPos = L.sc.currentPos + 2 ∧
    (step p kw (step p kw L)).lineState
      = (if L.sc.ch = 38 then FortranLineStateLineContinuation else 0) := by
  have hesc : L.sc.ch = 92 →
      (EscapeSequence.resetEscapeState L.sc.state L.sc.chNext).2 = false := by
    intro _
    rw [resetEscapeState_other]
    rcases eol_cases _ hnext with h | h <;> rw [h] <;> decide
  obtain ⟨hsc1, hl1⟩ := step_string_plain p kw L hstr hls hq hesc
  rw [hend0] at hl1
  simp only [Bool.false_eq_true, if_false, hnext, and_true] at hl1
  have hp0 : L.sc.currentPos < p.endPos := by omega
  have hst1 : (step p kw L).sc.state = L.sc.state := by rw [hsc1, Forward_state]
  have hstr1 : (step p kw L).sc.state = SCE_F_STRING_SQ ∨ (step p kw L).sc.state = SCE_F_STRING_DQ := by
    rw [hst1]; exact hstr
  have hls1 : (step p kw L).sc.atLineStart = false := by
    rw [hsc1, Forward_atLineStart p _ hp0, hend0]
  have hch1 : (step p kw L).sc.ch = L.sc.chNext := by rw [hsc1, Forward_ch p _ hp0]
  have hq1 : (step p kw L).sc.ch ≠ (if (step p kw L).sc.state = SCE_F_STRING_SQ then 39 else 34) := by
    rw [hch1]
    rcases eol_cases _ hnext with h | h <;> rw [h] <;> split <;> decide
  have hesc1 : (step p kw L).sc.ch = 92 →
      (EscapeSequence.resetEscapeState (step p kw L).sc.state (step p kw L).sc.chNext).2 = false := by
    intro h
    rw [hch1] at h
    rcases eol_cases _ hnext with h' | h' <;> rw [h'] at h <;> exact absurd h (by decide)
  obtain ⟨hsc2, hl2⟩ := step_string_plain p kw (step p kw L) hstr1 hls1 hq1 hesc1
  have hend1' : (step p kw L).sc.atLineEnd = true := by rw [hsc1]; exact hend1
  have h38 : ¬ ((step p kw L).sc.ch = 38 ∧ IsEOLChar (step p kw L).sc.chNext = true) := by
    rw [hch1]
    rcases eol_cases _ hnext with h' | h' <;> rw [h'] <;> simp
  rw [hend1', if_pos rfl, if_neg h38, hl1] at hl2
  have hp1 : (step p kw L).sc.currentPos = L.sc.currentPos + 1 := by
    rw [hsc1, Forward_pos p _ hp0]
  have hp1' : (step p kw L).sc.currentPos < p.endPos := by rw [hp1]; exact hpos
  refine ⟨?_, ?_, ?_, ?_⟩
  · rw [hsc2, Forward_atLineStart p _ hp1', hend1']
  · rw [hsc2, Forward_state, hst1]
  · rw [hsc2, Forward_pos p _ hp1', hp1]
  · rw [hl2]
    by_cases h : L.sc.ch = 38
    · simp [h, FortranLineStateLineContinuation]
    · simp only [h, if_false]
      exact hflag


/-- C6: a string still open on the last byte before the end-of-line byte of
its line reaches the start of the next line in the string state with the
continuation flag set exactly when that byte was `&`; at a line start in a
string state the string is closed on the spot (default state at the first
character of the line) when the flag is not set, and goes on with the flag
cleared when it is set; inside a line the flag is set only by `&` before an
end-of-line byte. The example texts show the four cases for all keyword
tables: `&` before the line end, no `&`, `&` followed by a blank, and `&`
before a two-byte line end. -/
theorem C6_string_continuation (p : Pass) (kw : LexerWordList) (L : Lexer) (ls : Nat → Nat) :
    ((L.sc.state = SCE_F_STRING_SQ ∨ L.sc.state = SCE_F_STRING_DQ) →
      L.sc.atLineStart = false →
      L.sc.ch ≠ (if L.sc.state = SCE_F_STRING_SQ then 39 else 34) →
      IsEOLChar L.sc.chNext = true → L.sc.currentPos + 1 < p.endPos →
      L.sc.atLineEnd = false → (L.sc.Forward p).atLineEnd = true →
      L.lineState &&& FortranLineStateLineContinuation = 0 →
      (step p kw (step p kw L)).sc.atLineStart = true ∧
      (step p kw (step p kw L)).sc.state = L.sc.state ∧
      (step p kw (step p kw L)).sc.currentPos = L.sc.currentPos + 2 ∧
      (step p kw (step p kw L)).lineState
        = (if L.sc.ch = 38 then FortranLineStateLineContinuation else 0) ∧
      (L.sc.ch ≠ 38 →
        (switchCase p kw (step p kw (step p kw L))).1.sc.state = SCE_F_DEFAULT ∧
        (switchCase p kw (step p kw (step p kw L))).1.sc.currentPos = L.sc.currentPos + 2) ∧
      (L.sc.ch = 38 →
        ((switchCase p kw (step p kw (step p kw L))).1.sc.state = SCE_F_DEFAULT ↔
          ((step p kw (step p kw L)).sc.ch = (if L.sc.state = SCE_F_STRING_SQ then 39 else 34) ∧
            (step p kw (step p kw L)).sc.ch ≠ (step p kw (step p kw L)).sc.chNext)))) ∧
    ((L.sc.state = SCE_F_STRING_SQ ∨ L.sc.state = SCE_F_STRING_DQ) → L.sc.atLineStart = true →
      L.lineState ≠ FortranLineStateLineContinuation → L.sc.startSeg ≤ L.sc.currentPos →
      (switchCase p kw L).1.sc.state = SCE_F_DEFAULT ∧
      (switchCase p kw L).1.sc.currentPos = L.sc.currentPos ∧
      (switchCase p kw L).1.sc.styles
        = L.sc.styles ++ List.replicate (L.sc.currentPos - L.sc.startSeg) L.sc.state) ∧
    ((L.sc.state = SCE_F_STRING_SQ ∨ L.sc.state = SCE_F_STRING_DQ) → L.sc.atLineStart = true →
      L.lineState = FortranLineStateLineContinuation →
      (switchCase p kw L).1.lineState
        = (if L.sc.ch = 38 ∧ IsEOLChar L.sc.chNext then FortranLineStateLineContinuation else 0) ∧
      ((switchCase p kw L).1.sc.state = SCE_F_DEFAULT ↔
        (L.sc.ch = (if L.sc.state = SCE_F_STRING_SQ then 39 else 34) ∧
          L.sc.ch ≠ L.sc.chNext))) ∧
    ((L.sc.state = SCE_F_STRING_SQ ∨ L.sc.state = SCE_F_STRING_DQ) → L.sc.atLineStart = false →
      (switchCase p kw L).1.lineState
        = (if L.sc.ch = 38 ∧ IsEOLChar L.sc.chNext then FortranLineStateLineContinuation
           else L.lineState)) ∧
    (ColouriseFortranDoc (str "'ab&\n12'\n") 0 9 SCE_F_DEFAULT kw ls).sc.styles
      = [SCE_F_STRING_SQ, SCE_F_STRING_SQ, SCE_F_STRING_SQ, SCE_F_STRING_SQ, SCE_F_STRING_SQ,
         SCE_F_STRING_SQ, SCE_F_STRING_SQ, SCE_F_STRING_SQ, SCE_F_DEFAULT] ∧
    (ColouriseFortranDoc (str "'ab\n12'\n") 0 8 SCE_F_DEFAULT kw ls).sc.styles
      = [SCE_F_STRING_SQ, SCE_F_STRING_SQ, SCE_F_STRING_SQ, SCE_F_STRING_SQ, SCE_F_NUMBER,
         SCE_F_NUMBER, SCE_F_STRING_SQ, SCE_F_STRING_SQ] ∧
    (ColouriseFortranDoc (str "'ab& \n12'\n") 0 10 SCE_F_DEFAULT kw ls).sc.styles
      = [SCE_F_STRING_SQ, SCE_F_STRING_SQ, SCE_F_STRING_SQ, SCE_F_STRING_SQ, SCE_F_STRING_SQ,
         SCE_F_STRING_SQ, SCE_F_NUMBER, SCE_F_NUMBER, SCE_F_STRING_SQ, SCE_F_STRING_SQ] ∧
    (ColouriseFortranDoc (str "'ab&\r\n12'\r\n") 0 11 SCE_F_DEFAULT kw ls).sc.styles
      = [SCE_F_STRING_SQ, SCE_F_STRING_SQ, SCE_F_STRING_SQ, SCE_F_STRING_SQ, SCE_F_STRING_SQ,
         SCE_F_STRING_SQ, SCE_F_STRING_SQ, SCE_F_STRING_SQ, SCE_F_STRING_SQ, SCE_F_DEFAULT,
         SCE_F_DEFAULT] := by
  refine ⟨?_, string_line_start_closed p kw L, string_line_start_open p kw L,
    string_flag_inside p kw L, ?_, ?_, ?_, ?_⟩
  · intro hstr hls hq hnext hpos hend0 hend1 hflag
    obtain ⟨h1, h2, h3, h4⟩ := string_line_end p kw L hstr hls hq hnext hpos hend0 hend1 hflag
    have hstr2 : (step p kw (step p kw L)).sc.state = SCE_F_STRING_SQ ∨
        (step p kw (step p kw L)).sc.state = SCE_F_STRING_DQ := by rw [h2]; exact hstr
    refine ⟨h1, h2, h3, h4, ?_, ?_⟩
    · intro h38
      rw [switchCase_string p kw _ hstr2]
      unfold stringCase
      have hne : (step p kw (step p kw L)).lineState ≠ FortranLineStateLineContinuation := by
        rw [h4, if_neg h38]; decide
      simp only [h1, hne, ne_eq, not_false_eq_true, and_self, if_true]
      refine ⟨rfl, ?_⟩
      rw [← h3]
      unfold StyleContext.SetState StyleContext.ColorTo
      split <;> rfl
    · intro h38
      have hf : (step p kw (step p kw L)).lineState = FortranLineStateLineContinuation := by
        rw [h4, if_pos h38]
      have := (string_line_start_open p kw _ hstr2 h1 hf).2
      rw [h2] at this
      exact this
  · exact final_of_runK (fun L => L.sc.styles) _ _ _ kw ls _ (Known.holds_nil kw) _ (by decide)
  · exact final_of_runK (fun L => L.sc.styles) _ _ _ kw ls _ (Known.holds_nil kw) _ (by decide)
  · exact final_of_runK (fun L => L.sc.styles) _ _ _ kw ls _ (Known.holds_nil kw) _ (by decide)
  · exact final_of_runK (fun L => L.sc.styles) _ _ _ kw ls _ (Known.holds_nil kw) _ (by decide)

theorem C6_string_continuation_witness :
    (step ⟨str "'ab&\n12'\n", 10⟩ kwDemo
        (step ⟨str "'ab&\n12'\n", 10⟩ kwDemo (demoState (str "'ab&\n12'\n") 3))).sc.atLineStart
      = true ∧
    (step ⟨str "'ab&\n12'\n", 10⟩ kwDemo
        (step ⟨str "'ab&\n12'\n", 10⟩ kwDemo (demoState (str "'ab&\n12'\n") 3))).lineState
      = FortranLineStateLineContinuation ∧
    (switchCase ⟨str "'ab\n12'\n", 9⟩ kwDemo (demoState (str "'ab\n12'\n") 4)).1.sc.state
      = SCE_F_DEFAULT :=
  ⟨((C6_string_continuation ⟨str "'ab&\n12'\n", 10⟩ kwDemo (demoState (str "'ab&\n12'\n") 3)
        (fun _ => 0)).1 (by decide) (by decide) (by decide) (by decide) (by decide) (by decide)
        (by decide) (by decide)).1,
   ((C6_string_continuation ⟨str "'ab&\n12'\n", 10⟩ kwDemo (demoState (str "'ab&\n12'\n") 3)
        (fun _ => 0)).1 (by decide) (by decide) (by decide) (by decide) (by decide) (by decide)
        (by decide) (by decide)).2.2.2.1,
   ((C6_string_continuation ⟨str "'ab\n12'\n", 9⟩ kwDemo (demoState (str "'ab\n12'\n") 4)
        (fun _ => 0)).2.1 (by decide) (by decide) (by decide) (by decide)).1⟩

theorem defaultCase_eq (p : Pass) (L : Lexer) :
    defaultCase p L =
      match dispatchState p L.visibleChars L.sc with
      | none => L
      | some s =>
        { L with sc := L.sc.SetState s,
                 lineState := if s = SCE_F_COMMENT ∧ L.visibleChars = 0 ∧ L.sc.ch ∈ [67, 99, 42, 33]
                   then 1 else L.lineState,
                 kwType := if s = SCE_F_OPERATOR then .None else L.kwType,
                 parenCount := if s = SCE_F_OPERATOR then bracketDepth L.sc.ch L.parenCount
                   else L.parenCount } := by
  unfold defaultCase dispatchState bracketDepth
  dsimp only
  by_cases h0 : L.sc.state ≠ SCE_F_DEFAULT
  · rw [if_pos h0, if_pos h0]
  · rw [if_neg h0, if_neg h0]
    by_cases h1 : L.visibleChars = 0 ∧ L.sc.ch ∈ [67, 99, 42, 33]
    · rw [if_pos h1, if_pos h1]
      by_cases h2 : isDirective p L.sc = true
      · rw [if_pos h2, if_pos h2]; simp
      · rw [if_neg h2, if_neg h2]
        by_cases h3 : UnsafeLower L.sc.ch = 99 ∧ IsAGraphic L.sc.chNext = true
        · rw [if_pos h3, if_pos h3]; simp
        · rw [if_neg h3, if_neg h3]; simp [h1]
    · rw [if_neg h1, if_neg h1]
      by_cases h4 : L.visibleChars = 0 ∧ L.sc.ch = 35
      · rw [if_pos h4, if_pos h4]; simp
      · rw [if_neg h4, if_neg h4]
        by_cases h5 : L.sc.ch = 33
        · rw [if_pos h5, if_pos h5]
          dsimp only
          rw [if_neg (fun h => h1 h.2)]
          simp
        · rw [if_neg h5, if_neg h5]
          by_cases h6 : L.sc.ch = 34
          · rw [if_pos h6, if_pos h6]; simp
          · rw [if_neg h6, if_neg h6]
            by_cases h7 : L.sc.ch = 39
            · rw [if_pos h7, if_pos h7]; simp
            · rw [if_neg h7, if_neg h7]
              by_cases h8 : IsNumberStart L.sc.ch L.sc.chNext = true
              · rw [if_pos h8, if_pos h8]; simp
              · rw [if_neg h8, if_neg h8]
                by_cases h9 : IsIdentifierStart L.sc.ch = true
                · rw [if_pos h9, if_pos h9]; simp
                · rw [if_neg h9, if_neg h9]
                  by_cases h10 : L.sc.ch = 46 ∧ IsAlpha L.sc.chNext = true
                  · rw [if_pos h10, if_pos h10]; simp
                  · rw [if_neg h10, if_neg h10]
                    by_cases h11 : IsAGraphic L.sc.ch = true
                    · rw [if_pos h11, if_pos h11]; simp
                    · rw [if_neg h11, if_neg h11]


theorem ParenEq.refl (L : Lexer) : ParenEq L L := ⟨rfl, rfl, rfl, rfl, rfl, rfl⟩

theorem ParenEq.eq (L M : Lexer) (h : ParenEq L M) :
    M = { L with parenCount := M.parenCount, lineWrites := M.lineWrites } := by
  obtain ⟨h1, h2, h3, h4, h5, h6⟩ := h
  cases M; cases L
  simp only at h1 h2 h3 h4 h5 h6
  simp [h1, h2, h3, h4, h5, h6]

theorem lineTail_parenEq (p : Pass) (L M : Lexer) (h : ParenEq L M) :
    ParenEq (lineTail p L) (lineTail p M) := by
  obtain ⟨h1, h2, h3, h4, h5, h6⟩ := h
  unfold lineTail ParenEq
  simp only [h1, h2, h3, h4, h5, h6]
  split_ifs <;> simp_all

theorem defaultCase_parenEq (p : Pass) (L M : Lexer) (h : ParenEq L M) :
    ParenEq (defaultCase p L) (defaultCase p M) := by
  obtain ⟨h1, h2, h3, h4, h5, h6⟩ := h
  rw [defaultCase_eq p L, defaultCase_eq p M, h1, h3]
  cases dispatchState p L.visibleChars L.sc with
  | none => exact ⟨h1, h2, h3, h4, h5, h6⟩
  | some s =>
    exact ⟨rfl, by show (if _ then _ else _) = (if _ then _ else _); rw [h2], rfl, h4,
      by show (if _ then _ else _) = (if _ then _ else _); rw [h5], h6⟩

theorem identifierCase_parenEq (c : Classified) (L M : Lexer) (h : ParenEq L M) :
    ParenEq (identifierCase c L) (identifierCase c M) := by
  obtain ⟨h1, h2, h3, h4, h5, h6⟩ := h
  unfold identifierCase
  dsimp only
  rw [h1]
  exact ⟨rfl, h2, h3, rfl, rfl, h6⟩

theorem stringCase_parenEq (p : Pass) (L M : Lexer) (h : ParenEq L M) :
    ParenEq (stringCase p L) (stringCase p M) := by
  rw [ParenEq.eq L M h]
  generalize M.parenCount = a
  generalize M.lineWrites = b
  unfold stringCase
  dsimp only
  by_cases h0 : L.sc.atLineStart = true ∧ L.lineState ≠ FortranLineStateLineContinuation
  · rw [if_pos h0, if_pos h0]
    exact ⟨rfl, rfl, rfl, rfl, rfl, rfl⟩
  · rw [if_neg h0, if_neg h0]
    by_cases hs : L.sc.atLineStart = true
    · rw [if_pos hs, if_pos hs]
      dsimp only
      split_ifs <;> exact ⟨rfl, rfl, rfl, rfl, rfl, rfl⟩
    · rw [if_neg hs, if_neg hs]
      split_ifs <;> exact ⟨rfl, rfl, rfl, rfl, rfl, rfl⟩


theorem switchCase_parenEq (p : Pass) (kw : LexerWordList) (L M : Lexer) (h : ParenEq L M)
    (he : exits L = false) :
    ParenEq (switchCase p kw L).1 (switchCase p kw M).1 ∧
    (switchCase p kw M).2 = (switchCase p kw L).2 := by
  have hstr := stringCase_parenEq p L M h
  have hM := ParenEq.eq L M h
  rw [hM] at hstr ⊢
  generalize M.parenCount = a at hstr ⊢
  generalize M.lineWrites = b at hstr ⊢
  unfold switchCase
  dsimp only
  cases hs : L.sc.state <;> simp only [hs]
  case SCE_F_IDENTIFIER =>
    simp only [exits, hs, decide_True, Bool.true_and, Bool.not_eq_false'] at he
    simp only [he, Bool.not_true, Bool.false_eq_true, if_false]
    exact ⟨⟨rfl, rfl, rfl, rfl, rfl, rfl⟩, trivial⟩
  case SCE_F_STRING_SQ => exact ⟨hstr, trivial⟩
  case SCE_F_STRING_DQ => exact ⟨hstr, trivial⟩
  all_goals
    first
    | exact ⟨⟨rfl, rfl, rfl, rfl, rfl, rfl⟩, trivial⟩
    | (split_ifs <;>
        first
        | exact ⟨⟨rfl, rfl, rfl, rfl, rfl, rfl⟩, trivial⟩
        | exact ⟨⟨rfl, rfl, rfl, rfl, rfl, rfl⟩, rfl⟩)

theorem stepG_parenEq (p : Pass) (c : Classified) (L M : Lexer) (h : ParenEq L M) :
    ParenEq (stepG p c L) (stepG p c M) := by
  have hex : exits M = exits L := by
    unfold exits; rw [h.1]
  unfold stepG
  rw [hex]
  by_cases he : exits L = true
  · rw [if_pos he, if_pos he]
    exact lineTail_parenEq p _ _ (defaultCase_parenEq p _ _ (identifierCase_parenEq c L M h))
  · rw [if_neg he, if_neg he]
    simp only [Bool.not_eq_true] at he
    obtain ⟨h1, h2⟩ := switchCase_parenEq p (fun _ => ⟨[]⟩) L M h he
    unfold step
    dsimp only
    rw [h2]
    by_cases hc : (switchCase p (fun _ => ⟨[]⟩) L).2 = true
    · rw [if_pos hc, if_pos hc]; exact h1
    · rw [if_neg hc, if_neg hc]
      exact lineTail_parenEq p _ _ (defaultCase_parenEq p _ _ h1)

theorem classifyFrom_parenEq (p : Pass) (L M : Lexer) (h : ParenEq L M) (t : Style)
    (ht : ¬ ((t = SCE_F_WORD ∨ t = SCE_F_FOLDING_WORD) ∧ (lookahead p L.sc).1 ≠ 61)) :
    classifyFrom p M t = classifyFrom p L t := by
  obtain ⟨h1, h2, h3, h4, h5, h6⟩ := h
  unfold classifyFrom
  dsimp only
  rw [h1, h4, h5]
  by_cases hw : t = SCE_F_WORD ∨ t = SCE_F_FOLDING_WORD
  · rw [if_pos hw, if_pos hw]
    have : (lookahead p L.sc).1 = 61 := by
      by_contra hne
      exact ht ⟨hw, hne⟩
    rw [if_pos this, if_pos this]
  · rw [if_neg hw, if_neg hw]

theorem runKP_sound (p : Pass) (k : Known) (kw : LexerWordList) (hk : k.Holds kw) :
    ∀ (n : Nat) (L M L' : Lexer), ParenEq L M → runKP p k n L = some L' →
      ParenEq L' (run p kw n M) := by
  intro n
  induction n with
  | zero =>
    intro L M L' hLM h
    simp only [runKP, Option.some.injEq] at h
    subst h
    exact hLM
  | succ n ih =>
    intro L M L' hLM h
    unfold runKP at h
    unfold run
    have hmore : M.sc.More p = L.sc.More p := by rw [hLM.1]
    rw [hmore]
    by_cases hm : L.sc.More p = true
    · rw [if_pos hm] at h ⊢
      rw [step_eq_stepG]
      by_cases he : exits L = true
      · rw [if_pos he] at h
        cases ht : tableStyleK k (L.sc.GetCurrentLowered p 64) L.kwType with
        | none => simp [ht] at h
        | some t =>
          rw [ht] at h
          simp only [Option.some_bind] at h
          by_cases hbad : (t = SCE_F_WORD ∨ t = SCE_F_FOLDING_WORD) ∧ (lookahead p L.sc).1 ≠ 61
          · rw [if_pos hbad] at h
            exact absurd h (by simp)
          · rw [if_neg hbad] at h
            have hts := tableStyleK_sound k kw hk _ _ _ ht
            have hc : classify p kw M = classifyFrom p L t := by
              unfold classify
              rw [hLM.1, hLM.2.2.2.2.1, hts]
              exact classifyFrom_parenEq p L M hLM t hbad
            rw [hc]
            exact ih _ _ _ (stepG_parenEq p _ L M hLM) h
      · rw [if_neg he] at h
        simp only [Bool.not_eq_true] at he
        have heM : exits M = false := by
          unfold exits; rw [hLM.1]; exact he
        rw [stepG_noexit p _ ⟨SCE_F_DEFAULT, .None, false⟩ M heM]
        exact ih _ _ _ (stepG_parenEq p _ L M hLM) h
    · rw [if_neg hm] at h ⊢
      simp only [Option.some.injEq] at h
      subst h
      exact hLM


/-- C7 (counterexample): a `!` met in the default state at the start of a
line and followed by `$` starts a preprocessor run, not a comment. -/
theorem C7_counterexample :
    (ColouriseFortranDoc (str "!$omp x\n") 0 8 SCE_F_DEFAULT kwDemo (fun _ => 0)).sc.styles
      = [SCE_F_PREPROCESSOR, SCE_F_PREPROCESSOR, SCE_F_PREPROCESSOR, SCE_F_PREPROCESSOR,
         SCE_F_PREPROCESSOR, SCE_F_PREPROCESSOR, SCE_F_PREPROCESSOR, SCE_F_PREPROCESSOR] := by
  decide

theorem scenarioA_known : ∀ b1 b2 b3 b4 b5 c : Bool,
    (runKP ⟨str "\nx = 1.0e10  ! comment\n", 24⟩ (knownWord (str "x") b1 b2 b3 b4 b5)
        (loopBound 24)
        (initLexer (str "\nx = 1.0e10  ! comment\n") 1 SCE_F_DEFAULT
          (fun _ => if c then 2 else 0))).map
      (fun L => decide ((L.sc.Complete ⟨str "\nx = 1.0e10  ! comment\n", 24⟩).styles.drop 4
        = [SCE_F_NUMBER, SCE_F_NUMBER, SCE_F_NUMBER, SCE_F_NUMBER, SCE_F_NUMBER, SCE_F_NUMBER,
           SCE_F_DEFAULT, SCE_F_DEFAULT, SCE_F_COMMENT, SCE_F_COMMENT, SCE_F_COMMENT,
           SCE_F_COMMENT, SCE_F_COMMENT, SCE_F_COMMENT, SCE_F_COMMENT, SCE_F_COMMENT,
           SCE_F_COMMENT, SCE_F_COMMENT])) = some true := by
  decide

theorem initLexer_parenEq (text : List Nat) (startPos : Nat) (initStyle : Style)
    (ls ls' : Nat → Nat)
    (h : decodeContinuation (ls' (GetLine text startPos - 1))
      = decodeContinuation (ls (GetLine text startPos - 1))) :
    ParenEq (initLexer text startPos initStyle ls) (initLexer text startPos initStyle ls') := by
  unfold initLexer
  dsimp only
  refine ⟨rfl, ?_, rfl, rfl, rfl, rfl⟩
  show (if _ then _ else _) = (if _ then _ else _)
  split
  · exact h
  · rfl

theorem and_two_cases (m : Nat) : m &&& 2 = 0 ∨ m &&& 2 = 2 := by
  rw [and_two_eq]
  have : m % 4 < 4 := Nat.mod_lt _ (by decide)
  interval_cases m % 4 <;> decide

theorem scenarioA (kw : LexerWordList) (ls : Nat → Nat) :
    (ColouriseFortranDoc (str "\nx = 1.0e10  ! comment\n") 1 22 SCE_F_DEFAULT kw ls).sc.styles.drop 4
      = [SCE_F_NUMBER, SCE_F_NUMBER, SCE_F_NUMBER, SCE_F_NUMBER, SCE_F_NUMBER, SCE_F_NUMBER,
         SCE_F_DEFAULT, SCE_F_DEFAULT, SCE_F_COMMENT, SCE_F_COMMENT, SCE_F_COMMENT,
         SCE_F_COMMENT, SCE_F_COMMENT, SCE_F_COMMENT, SCE_F_COMMENT, SCE_F_COMMENT,
         SCE_F_COMMENT, SCE_F_COMMENT] := by
  have hc : ∃ c : Bool, decodeContinuation (ls 0) = decodeContinuation (if c then 2 else 0) := by
    unfold decodeContinuation FortranLineStateLineContinuation
    rcases and_two_cases (ls 0) with h | h
    · exact ⟨false, by rw [h]; rfl⟩
    · exact ⟨true, by rw [h]; rfl⟩
  obtain ⟨c, hc⟩ := hc
  have hline : GetLine (str "\nx = 1.0e10  ! comment\n") 1 - 1 = 0 := by decide
  have hpe : ParenEq
      (initLexer (str "\nx = 1.0e10  ! comment\n") 1 SCE_F_DEFAULT (fun _ => if c then 2 else 0))
      (initLexer (str "\nx = 1.0e10  ! comment\n") 1 SCE_F_DEFAULT ls) := by
    apply initLexer_parenEq
    rw [hline]
    exact hc
  have hk := scenarioA_known ((kw KeywordIndex_CodeFolding).InList (str "x"))
      ((kw KeywordIndex_Keyword).InList (str "x")) ((kw KeywordIndex_Type).InList (str "x"))
      ((kw KeywordIndex_Attribute).InList (str "x"))
      ((kw KeywordIndex_Function).InListPrefixed (str "x") 40) c
  rw [Option.map_eq_some'] at hk
  obtain ⟨L', h1, h2⟩ := hk
  have hs := runKP_sound ⟨str "\nx = 1.0e10  ! comment\n", 24⟩ _ kw
    (knownOf_holds kw (str "x")) _ _ _ L' hpe h1
  have hpass : passEnd (str "\nx = 1.0e10  ! comment\n") 1 22 = 24 := by decide
  unfold ColouriseFortranDoc
  dsimp only
  rw [hpass, hs.1]
  exact of_decide_eq_true h2


theorem bang_dispatch (p : Pass) (L : Lexer) (hs : L.sc.state = SCE_F_DEFAULT)
    (hch : L.sc.ch = 33) :
    (defaultCase p L).sc.state
      = (if L.visibleChars = 0 ∧ isDirective p L.sc = true then SCE_F_PREPROCESSOR
         else SCE_F_COMMENT) := by
  rw [defaultCase_eq]
  have hd : dispatchState p L.visibleChars L.sc
      = some (if L.visibleChars = 0 ∧ isDirective p L.sc = true then SCE_F_PREPROCESSOR
              else SCE_F_COMMENT) := by
    unfold dispatchState
    rw [if_neg (by simp [hs])]
    by_cases hv : L.visibleChars = 0
    · rw [if_pos ⟨hv, by rw [hch]; decide⟩]
      by_cases hdir : isDirective p L.sc = true
      · rw [if_pos hdir, if_pos ⟨hv, hdir⟩]
      · rw [if_neg hdir, if_neg (by rw [hch]; exact fun h => absurd h.1 (by decide)),
          if_neg (fun h => hdir h.2)]
    · rw [if_neg (fun h => hv h.1), if_neg (fun h => hv h.1), if_pos hch,
        if_neg (fun h => hv h.1)]
  rw [hd]
  simp [StyleContext.SetState]

theorem comment_runs (p : Pass) (kw : LexerWordList) (L : Lexer)
    (hs : L.sc.state = SCE_F_COMMENT ∨ L.sc.state = SCE_F_PREPROCESSOR)
    (hls : L.sc.atLineStart = false) :
    (step p kw L).sc = L.sc.Forward p := by
  have e : switchCase p kw L = (L, false) := by
    unfold switchCase
    rcases hs with h | h <;> simp [h, hls]
  have hne : L.sc.state ≠ SCE_F_DEFAULT := by
    rcases hs with h | h <;> simp [h]
  unfold step
  simp only [e, Bool.false_eq_true, if_false]
  rw [defaultCase_of_ne p L hne, lineTail_sc]

theorem comment_line_start (p : Pass) (kw : LexerWordList) (L : Lexer)
    (hs : L.sc.state = SCE_F_COMMENT ∨ L.sc.state = SCE_F_PREPROCESSOR)
    (hls : L.sc.atLineStart = true) (hseg : L.sc.startSeg ≤ L.sc.currentPos) :
    (switchCase p kw L).1.sc.state = SCE_F_DEFAULT ∧
    (switchCase p kw L).1.sc.currentPos = L.sc.currentPos ∧
    (switchCase p kw L).1.sc.styles
      = L.sc.styles ++ List.replicate (L.sc.currentPos - L.sc.startSeg) L.sc.state := by
  have e : switchCase p kw L = ({ L with sc := L.sc.SetState SCE_F_DEFAULT }, false) := by
    unfold switchCase
    rcases hs with h | h <;> simp [h, hls]
  rw [e]
  dsimp only
  rw [SetState_eq _ _ hseg]
  exact ⟨rfl, rfl, rfl⟩

/-- C7 (amended): the line `x = 1.0e10  ! comment`, entered in the default
state at a line start, for any keyword tables and any persisted state of the
line before (any bracket depth): the six characters `1.0e10` are one number
run, followed by two blanks in the default style, and every character from
the `!` to the end of the line, the line end included, is comment. In
general a `!` met in the default state starts a comment, except as the first
visible character of its line when a `$` or one of `dec$`, `dir$`, `gcc$`,
`ms$` follows, where it starts a preprocessor run; either run goes on to the
end of its line and is closed at the start of the next line, which starts in
the default state. -/
theorem C7_number_and_comment (p : Pass) (kw : LexerWordList) (L : Lexer) (ls : Nat → Nat) :
    (ColouriseFortranDoc (str "\nx = 1.0e10  ! comment\n") 1 22 SCE_F_DEFAULT kw ls).sc.styles.drop 4
      = [SCE_F_NUMBER, SCE_F_NUMBER, SCE_F_NUMBER, SCE_F_NUMBER, SCE_F_NUMBER, SCE_F_NUMBER,
         SCE_F_DEFAULT, SCE_F_DEFAULT, SCE_F_COMMENT, SCE_F_COMMENT, SCE_F_COMMENT,
         SCE_F_COMMENT, SCE_F_COMMENT, SCE_F_COMMENT, SCE_F_COMMENT, SCE_F_COMMENT,
         SCE_F_COMMENT, SCE_F_COMMENT] ∧
    (L.sc.state = SCE_F_DEFAULT → L.sc.ch = 33 →
      (defaultCase p L).sc.state
        = (if L.visibleChars = 0 ∧ isDirective p L.sc = true then SCE_F_PREPROCESSOR
           else SCE_F_COMMENT)) ∧
    ((L.sc.state = SCE_F_COMMENT ∨ L.sc.state = SCE_F_PREPROCESSOR) → L.sc.atLineStart = false →
      (step p kw L).sc = L.sc.Forward p) ∧
    ((L.sc.state = SCE_F_COMMENT ∨ L.sc.state = SCE_F_PREPROCESSOR) → L.sc.atLineStart = true →
      L.sc.startSeg ≤ L.sc.currentPos →
      (switchCase p kw L).1.sc.state = SCE_F_DEFAULT ∧
      (switchCase p kw L).1.sc.currentPos = L.sc.currentPos ∧
      (switchCase p kw L).1.sc.styles
        = L.sc.styles ++ List.replicate (L.sc.currentPos - L.sc.startSeg) L.sc.state) :=
  ⟨scenarioA kw ls, bang_dispatch p L, comment_runs p kw L, comment_line_start p kw L⟩

theorem C7_number_and_comment_witness :
    (defaultCase ⟨str "x ! c\ny\n", 9⟩
        (switchCase ⟨str "x ! c\ny\n", 9⟩ kwDemo (demoState (str "x ! c\ny\n") 2)).1).sc.state
      = SCE_F_COMMENT ∧
    (step ⟨str "x ! c\ny\n", 9⟩ kwDemo (demoState (str "x ! c\ny\n") 3)).sc.state
      = SCE_F_COMMENT ∧
    (switchCase ⟨str "x ! c\ny\n", 9⟩ kwDemo (demoState (str "x ! c\ny\n") 6)).1.sc.state
      = SCE_F_DEFAULT :=
  ⟨(C7_number_and_comment ⟨str "x ! c\ny\n", 9⟩ kwDemo
      (switchCase ⟨str "x ! c\ny\n", 9⟩ kwDemo (demoState (str "x ! c\ny\n") 2)).1
      (fun _ => 0)).2.1 (by decide) (by decide),
   by
    have h := (C7_number_and_comment ⟨str "x ! c\ny\n", 9⟩ kwDemo
      (demoState (str "x ! c\ny\n") 3) (fun _ => 0)).2.2.1 (by decide) (by decide)
    rw [h]
    decide,
   ((C7_number_and_comment ⟨str "x ! c\ny\n", 9⟩ kwDemo
      (demoState (str "x ! c\ny\n") 6) (fun _ => 0)).2.2.2 (by decide) (by decide)
      (by decide)).1⟩

theorem charAt_ne_zero (text : List Nat) (pos : Nat) (h : charAt text pos ≠ 0) :
    pos < text.length := by
  by_contra hlt
  apply h
  unfold charAt
  rw [List.getD_eq_default]
  omega

theorem ScOK.pos_lt_text {σ : Type} {p : Pass} {startPos : Nat} {sc : StyleContext σ}
    (h : ScOK p startPos sc) (hm : sc.currentPos < p.endPos) (hch : sc.ch ≠ 0) :
    sc.currentPos < p.text.length := by
  apply charAt_ne_zero
  rw [← (h.chars hm).1]
  exact hch

theorem ScOK.next_lt_text {σ : Type} {p : Pass} {startPos : Nat} {sc : StyleContext σ}
    (h : ScOK p startPos sc) (hm : sc.currentPos < p.endPos) (hch : sc.chNext ≠ 0) :
    sc.currentPos + 1 < p.text.length := by
  apply charAt_ne_zero
  rw [← (h.chars hm).2]
  exact hch

theorem Forward_fields {σ : Type} (p : Pass) (sc : StyleContext σ) :
    (sc.Forward p).currentPos = (if sc.currentPos < p.endPos then sc.currentPos + 1
      else sc.currentPos) ∧
    (sc.Forward p).startSeg = sc.startSeg ∧ (sc.Forward p).state = sc.state ∧
    (sc.Forward p).styles = sc.styles := by
  unfold StyleContext.Forward
  split <;> exact ⟨rfl, rfl, rfl, rfl⟩

theorem SetState_fields {σ : Type} (sc : StyleContext σ) (s : σ) :
    (sc.SetState s).currentPos = sc.currentPos ∧
    (sc.SetState s).startSeg = max sc.startSeg sc.currentPos ∧ (sc.SetState s).state = s ∧
    (sc.SetState s).ch = sc.ch ∧ (sc.SetState s).chNext = sc.chNext := by
  unfold StyleContext.SetState StyleContext.ColorTo
  split
  · refine ⟨rfl, ?_, rfl, rfl, rfl⟩
    dsimp only
    omega
  · refine ⟨rfl, ?_, rfl, rfl, rfl⟩
    dsimp only
    omega

theorem ScOK.forward {σ : Type} {p : Pass} {startPos : Nat} {sc : StyleContext σ}
    (h : ScOK p startPos sc) : ScOK p startPos (sc.Forward p) := by
  unfold StyleContext.Forward
  split
  · rename_i hm
    exact ⟨by have := h.seg_le; dsimp only; omega, by dsimp only; omega, h.seg_text, h.painted,
      fun _ => ⟨(h.chars hm).2, rfl⟩⟩
  · rename_i hm
    exact ⟨h.seg_le, h.pos_le, h.seg_text, h.painted, fun h' => absurd h' hm⟩

theorem ScOK.setState {σ : Type} {p : Pass} {startPos : Nat} {sc : StyleContext σ}
    (h : ScOK p startPos sc) (hpos : sc.currentPos ≤ p.text.length) (s : σ) :
    ScOK p startPos (sc.SetState s) := by
  unfold StyleContext.SetState StyleContext.ColorTo
  rw [if_neg (Nat.not_lt.mpr h.seg_le)]
  refine ⟨Nat.le_refl _, h.pos_le, hpos, ?_, h.chars⟩
  dsimp only
  rw [List.length_append, List.length_replicate]
  have := h.painted
  have := h.seg_le
  omega

theorem ScOK.changeState {σ : Type} {p : Pass} {startPos : Nat} {sc : StyleContext σ}
    (h : ScOK p startPos sc) (s : σ) : ScOK p startPos (sc.ChangeState s) :=
  ⟨h.seg_le, h.pos_le, h.seg_text, h.painted, h.chars⟩

theorem ScOK.rewind {σ : Type} {p : Pass} {startPos : Nat} {sc : StyleContext σ}
    (h : ScOK p startPos sc) : ScOK p startPos (sc.Rewind p) := by
  unfold StyleContext.Rewind
  exact ⟨Nat.le_refl _, Nat.le_trans h.seg_le h.pos_le, h.seg_text, h.painted,
    fun _ => ⟨rfl, rfl⟩⟩

theorem passEnd_le (text : List Nat) (startPos length : Nat) :
    passEnd text startPos length ≤ text.length + 1 := by
  unfold passEnd
  split <;> omega

theorem ScOK.init {σ : Type} (text : List Nat) (startPos length : Nat) (s : σ)
    (h : startPos + length ≤ text.length) :
    ScOK ⟨text, passEnd text startPos length⟩ startPos (StyleContext.init text startPos s) := by
  unfold StyleContext.init
  refine ⟨Nat.le_refl _, ?_, by dsimp only; omega, by simp, fun _ => ⟨rfl, rfl⟩⟩
  dsimp only
  unfold passEnd
  split <;> omega

theorem stringCase_form (p : Pass) (L : Lexer)
    (hstr : L.sc.state = SCE_F_STRING_SQ ∨ L.sc.state = SCE_F_STRING_DQ) :
    SwitchForm p L.sc (stringCase p L).sc ∧ OuterOK (stringCase p L) ∨
    SwitchForm p L.sc (stringCase p L).sc ∧ (stringCase p L).escSeq = L.escSeq := by
  have hne : L.sc.state ≠ SCE_F_OPERATOR := by rcases hstr with h | h <;> simp [h]
  have hne2 : L.sc.state ≠ SCE_F_OPERATOR2 := by rcases hstr with h | h <;> simp [h]
  have hout : ∀ c, (EscapeSequence.resetEscapeState L.sc.state c).1.outerState = L.sc.state :=
    fun _ => rfl
  unfold stringCase
  dsimp only
  by_cases h0 : L.sc.atLineStart = true ∧ L.lineState ≠ FortranLineStateLineContinuation
  · rw [if_pos h0]
    exact Or.inr ⟨Or.inr (Or.inl ⟨L.sc, rfl, Or.inl rfl, hne2⟩), rfl⟩
  · rw [if_neg h0]
    by_cases hs : L.sc.atLineStart = true
    · rw [if_pos hs]
      dsimp only
      by_cases h38 : L.sc.ch = 38 ∧ IsEOLChar L.sc.chNext = true
      · rw [if_pos h38]; exact Or.inr ⟨Or.inl ⟨rfl, hne⟩, rfl⟩
      · rw [if_neg h38]
        by_cases h92 : L.sc.ch = 92
        · rw [if_pos h92]
          by_cases hr : (EscapeSequence.resetEscapeState L.sc.state L.sc.chNext).2 = true
          · rw [if_pos hr]
            refine Or.inl ⟨Or.inr (Or.inr (Or.inr (Or.inr (Or.inr ⟨rfl, hstr⟩)))), ?_⟩
            unfold OuterOK
            rw [show ({ L with lineState := 0, escSeq := (EscapeSequence.resetEscapeState L.sc.state L.sc.chNext).1, sc := (L.sc.SetState SCE_F_ESCAPECHAR).Forward p } : Lexer).escSeq.outerState = L.sc.state from rfl]
            exact Or.inr hstr
          · rw [if_neg hr]
            refine Or.inl ⟨Or.inl ⟨rfl, hne⟩, ?_⟩
            unfold OuterOK
            rw [show ({ L with lineState := 0, escSeq := (EscapeSequence.resetEscapeState L.sc.state L.sc.chNext).1 } : Lexer).escSeq.outerState = L.sc.state from rfl]
            exact Or.inr hstr
        · rw [if_neg h92]
          by_cases hq : L.sc.ch = (if L.sc.state = SCE_F_STRING_SQ then 39 else 34)
          · rw [if_pos hq]
            by_cases hd : L.sc.ch = L.sc.chNext
            · rw [if_pos hd]
              refine Or.inl ⟨Or.inr (Or.inr (Or.inr (Or.inr (Or.inr ⟨rfl, hstr⟩)))), ?_⟩
              exact Or.inr hstr
            · rw [if_neg hd]
              refine Or.inr ⟨Or.inr (Or.inr (Or.inl ⟨rfl, ?_⟩)), rfl⟩
              rw [hq]; split <;> decide
          · rw [if_neg hq]; exact Or.inr ⟨Or.inl ⟨rfl, hne⟩, rfl⟩
    · rw [if_neg hs]
      by_cases h38 : L.sc.ch = 38 ∧ IsEOLChar L.sc.chNext = true
      · rw [if_pos h38]; exact Or.inr ⟨Or.inl ⟨rfl, hne⟩, rfl⟩
      · rw [if_neg h38]
        by_cases h92 : L.sc.ch = 92
        · rw [if_pos h92]
          by_cases hr : (EscapeSequence.resetEscapeState L.sc.state L.sc.chNext).2 = true
          · rw [if_pos hr]
            refine Or.inl ⟨Or.inr (Or.inr (Or.inr (Or.inr (Or.inr ⟨rfl, hstr⟩)))), ?_⟩
            exact Or.inr hstr
          · rw [if_neg hr]
            refine Or.inl ⟨Or.inl ⟨rfl, hne⟩, ?_⟩
            exact Or.inr hstr
        · rw [if_neg h92]
          by_cases hq : L.sc.ch = (if L.sc.state = SCE_F_STRING_SQ then 39 else 34)
          · rw [if_pos hq]
            by_cases hd : L.sc.ch = L.sc.chNext
            · rw [if_pos hd]
              refine Or.inl ⟨Or.inr (Or.inr (Or.inr (Or.inr (Or.inr ⟨rfl, hstr⟩)))), ?_⟩
              exact Or.inr hstr
            · rw [if_neg hd]
              refine Or.inr ⟨Or.inr (Or.inr (Or.inl ⟨rfl, ?_⟩)), rfl⟩
              rw [hq]; split <;> decide
          · rw [if_neg hq]; exact Or.inr ⟨Or.inl ⟨rfl, hne⟩, rfl⟩


theorem switchCase_form (p : Pass) (kw : LexerWordList) (L : Lexer) :
    (OuterOK L → OuterOK (switchCase p kw L).1) ∧
    (((switchCase p kw L).2 = true ∧ L.sc.state = SCE_F_ESCAPECHAR ∧
        (switchCase p kw L).1.sc = L.sc.SetState L.escSeq.outerState) ∨
     ((switchCase p kw L).2 = false ∧ SwitchForm p L.sc (switchCase p kw L).1.sc)) := by
  have hstr := stringCase_form p L
  generalize hr : switchCase p kw L = r
  unfold switchCase at hr
  dsimp only at hr
  cases hs : L.sc.state <;> simp only [hs] at hr
  case SCE_F_STRING_SQ =>
    subst hr
    rcases hstr (Or.inl hs) with h | h
    · exact ⟨fun _ => h.2, Or.inr ⟨rfl, h.1⟩⟩
    · refine ⟨fun ho => ?_, Or.inr ⟨rfl, h.1⟩⟩
      unfold OuterOK at ho ⊢
      rw [h.2]; exact ho
  case SCE_F_STRING_DQ =>
    subst hr
    rcases hstr (Or.inr hs) with h | h
    · exact ⟨fun _ => h.2, Or.inr ⟨rfl, h.1⟩⟩
    · refine ⟨fun ho => ?_, Or.inr ⟨rfl, h.1⟩⟩
      unfold OuterOK at ho ⊢
      rw [h.2]; exact ho
  case SCE_F_ESCAPECHAR =>
    by_cases he : (L.escSeq.atEscapeEnd L.sc.ch).2 = true
    · rw [if_pos he] at hr
      subst hr
      exact ⟨fun ho => ho, Or.inl ⟨rfl, rfl, rfl⟩⟩
    · rw [if_neg he] at hr
      subst hr
      exact ⟨fun ho => ho, Or.inr ⟨rfl, Or.inl ⟨rfl, by rw [hs]; decide⟩⟩⟩
  case SCE_F_OPERATOR =>
    subst hr
    exact ⟨fun ho => ho, Or.inr ⟨rfl, Or.inr (Or.inl ⟨L.sc, rfl, Or.inl rfl, by rw [hs]; decide⟩)⟩⟩
  case SCE_F_OPERATOR2 =>
    by_cases h46 : L.sc.ch = 46
    · rw [if_pos h46] at hr
      subst hr
      exact ⟨fun ho => ho, Or.inr ⟨rfl, Or.inr (Or.inr (Or.inl ⟨rfl, by rw [h46]; decide⟩))⟩⟩
    · rw [if_neg h46] at hr
      by_cases ha : (!IsAlpha L.sc.ch) = true
      · rw [if_pos ha] at hr
        subst hr
        exact ⟨fun ho => ho, Or.inr ⟨rfl, Or.inr (Or.inr (Or.inr (Or.inl ⟨rfl, hs⟩)))⟩⟩
      · rw [if_neg ha] at hr
        subst hr
        exact ⟨fun ho => ho, Or.inr ⟨rfl, Or.inl ⟨rfl, by rw [hs]; decide⟩⟩⟩
  case SCE_F_NUMBER =>
    by_cases h1 : (!IsIdentifierChar L.sc.ch) = true
    · rw [if_pos h1] at hr
      by_cases h2 : IsFloatExponent L.sc.chPrev L.sc.ch L.sc.chNext = true
      · rw [if_pos h2] at hr
        subst hr
        exact ⟨fun ho => ho, Or.inr ⟨rfl, Or.inr (Or.inr (Or.inr (Or.inr (Or.inl ⟨rfl, hs⟩))))⟩⟩
      · rw [if_neg h2] at hr
        split at hr
        · subst hr
          exact ⟨fun ho => ho, Or.inr ⟨rfl, Or.inr (Or.inl ⟨L.sc, rfl, Or.inl rfl, by rw [hs]; decide⟩)⟩⟩
        · subst hr
          exact ⟨fun ho => ho, Or.inr ⟨rfl, Or.inl ⟨rfl, by rw [hs]; decide⟩⟩⟩
    · rw [if_neg h1] at hr
      subst hr
      exact ⟨fun ho => ho, Or.inr ⟨rfl, Or.inl ⟨rfl, by rw [hs]; decide⟩⟩⟩
  case SCE_F_IDENTIFIER =>
    by_cases h1 : (!IsIdentifierChar L.sc.ch) = true
    · rw [if_pos h1] at hr
      subst hr
      refine ⟨fun ho => ho, Or.inr ⟨rfl, Or.inr (Or.inl ?_)⟩⟩
      unfold identifierCase
      dsimp only
      by_cases hc : (classify p kw L).state ≠ SCE_F_IDENTIFIER
      · rw [if_pos hc]; exact ⟨_, rfl, Or.inr ⟨_, rfl⟩, by rw [hs]; decide⟩
      · rw [if_neg hc]; exact ⟨_, rfl, Or.inl rfl, by rw [hs]; decide⟩
    · rw [if_neg h1] at hr
      subst hr
      exact ⟨fun ho => ho, Or.inr ⟨rfl, Or.inl ⟨rfl, by rw [hs]; decide⟩⟩⟩
  case SCE_F_COMMENT =>
    by_cases h1 : L.sc.atLineStart = true
    · rw [if_pos h1] at hr
      subst hr
      exact ⟨fun ho => ho, Or.inr ⟨rfl, Or.inr (Or.inl ⟨L.sc, rfl, Or.inl rfl, by rw [hs]; decide⟩)⟩⟩
    · rw [if_neg h1] at hr
      subst hr
      exact ⟨fun ho => ho, Or.inr ⟨rfl, Or.inl ⟨rfl, by rw [hs]; decide⟩⟩⟩
  case SCE_F_PREPROCESSOR =>
    by_cases h1 : L.sc.atLineStart = true
    · rw [if_pos h1] at hr
      subst hr
      exact ⟨fun ho => ho, Or.inr ⟨rfl, Or.inr (Or.inl ⟨L.sc, rfl, Or.inl rfl, by rw [hs]; decide⟩)⟩⟩
    · rw [if_neg h1] at hr
      subst hr
      exact ⟨fun ho => ho, Or.inr ⟨rfl, Or.inl ⟨rfl, by rw [hs]; decide⟩⟩⟩
  all_goals
    subst hr
    exact ⟨fun ho => ho, Or.inr ⟨rfl, Or.inl ⟨rfl, by rw [hs]; decide⟩⟩⟩

theorem rank_le (s : Style) : rank s ≤ 2 := by
  unfold rank; split_ifs <;> omega

theorem escBit_le (s : Style) : escBit s ≤ 1 := by
  unfold escBit; split_ifs <;> omega

theorem rank_of_ne (s : Style) (h1 : s ≠ SCE_F_OPERATOR) (h2 : s ≠ SCE_F_OPERATOR2) :
    rank s = 2 := by
  unfold rank; rw [if_neg h1, if_neg h2]

theorem scanMeasure_lt (p : Pass) (sc sc' : StyleContext Style)
    (h : 3 * (p.endPos + 1 - sc'.startSeg) + rank sc'.state
          < 3 * (p.endPos + 1 - sc.startSeg) + rank sc.state ∨
        (3 * (p.endPos + 1 - sc'.startSeg) + rank sc'.state
          ≤ 3 * (p.endPos + 1 - sc.startSeg) + rank sc.state ∧
         2 * (p.endPos - sc'.currentPos) + escBit sc'.state
          < 2 * (p.endPos - sc.currentPos) + escBit sc.state)) :
    scanMeasure p sc' < scanMeasure p sc := by
  unfold scanMeasure
  have hb := escBit_le sc'.state
  rcases h with h | ⟨h1, h2⟩
  · have := Nat.mul_le_mul_right (2 * p.endPos + 4) (Nat.succ_le_of_lt h)
    rw [Nat.succ_mul] at this
    omega
  · have := Nat.mul_le_mul_right (2 * p.endPos + 4) h1
    omega

theorem scanMeasure_bound (p : Pass) (sc : StyleContext Style) :
    scanMeasure p sc + 1 < loopBound p.endPos := by
  unfold scanMeasure loopBound
  have hb := escBit_le sc.state
  have hr := rank_le sc.state
  have h1 : 3 * (p.endPos + 1 - sc.startSeg) + rank sc.state ≤ 3 * (p.endPos + 1) + 2 := by omega
  have := Nat.mul_le_mul_right (2 * p.endPos + 4) h1
  have e : (3 * (p.endPos + 1) + 3) * (2 * p.endPos + 4)
      = (3 * (p.endPos + 1) + 2) * (2 * p.endPos + 4) + (2 * p.endPos + 4) := by ring
  omega

theorem defaultCase_sc_form (p : Pass) (R : Lexer) :
    (defaultCase p R).escSeq = R.escSeq ∧
    ((defaultCase p R).sc = R.sc ∨
      (R.sc.state = SCE_F_DEFAULT ∧ ∃ s, (defaultCase p R).sc = R.sc.SetState s)) := by
  rw [defaultCase_eq]
  cases hd : dispatchState p R.visibleChars R.sc with
  | none => exact ⟨rfl, Or.inl rfl⟩
  | some s =>
    refine ⟨rfl, Or.inr ⟨?_, s, rfl⟩⟩
    by_contra hne
    unfold dispatchState at hd
    rw [if_pos hne] at hd
    exact absurd hd (by simp)


theorem Settled.of_forward (p : Pass) (Y : StyleContext Style) (hseg : Y.startSeg ≤ Y.currentPos) :
    Settled p (Y.Forward p) := by
  intro _
  obtain ⟨h1, h2, _, _⟩ := Forward_fields p Y
  rw [h1, h2]
  split <;> omega

/-- The end of an iteration that did not take `continue`: the dispatch and
the step forward keep the cursor consistent and lower the measure, when the
`switch` did not raise it and either lowered it or did not move the cursor
back. -/
theorem tail_progress (p : Pass) (startPos : Nat) (R : Lexer) (sc : StyleContext Style)
    (hok : ScOK p startPos R.sc) (hm : sc.currentPos < p.endPos)
    (hlen : R.sc.state = SCE_F_DEFAULT → R.sc.currentPos ≤ p.text.length)
    (hA : 3 * (p.endPos + 1 - R.sc.startSeg) + rank R.sc.state
        ≤ 3 * (p.endPos + 1 - sc.startSeg) + rank sc.state)
    (hB : 3 * (p.endPos + 1 - R.sc.startSeg) + rank R.sc.state
        < 3 * (p.endPos + 1 - sc.startSeg) + rank sc.state ∨ sc.currentPos ≤ R.sc.currentPos) :
    ScOK p startPos (lineTail p (defaultCase p R)).sc ∧
    Settled p (lineTail p (defaultCase p R)).sc ∧
    scanMeasure p (lineTail p (defaultCase p R)).sc < scanMeasure p sc := by
  rw [lineTail_sc]
  obtain ⟨_, hd⟩ := defaultCase_sc_form p R
  have hY : ScOK p startPos (defaultCase p R).sc ∧
      (defaultCase p R).sc.currentPos = R.sc.currentPos ∧
      3 * (p.endPos + 1 - (defaultCase p R).sc.startSeg) + rank (defaultCase p R).sc.state
        ≤ 3 * (p.endPos + 1 - R.sc.startSeg) + rank R.sc.state := by
    rcases hd with h | ⟨hs, s, h⟩
    · rw [h]; exact ⟨hok, rfl, Nat.le_refl _⟩
    · rw [h]
      obtain ⟨f1, f2, f3, _, _⟩ := SetState_fields R.sc s
      refine ⟨hok.setState (hlen hs) s, f1, ?_⟩
      rw [f2, f3, hs]
      have := rank_le s
      have := hok.seg_le
      have : rank SCE_F_DEFAULT = 2 := rfl
      omega
  obtain ⟨hY1, hY2, hY3⟩ := hY
  refine ⟨hY1.forward, Settled.of_forward p _ hY1.seg_le, ?_⟩
  apply scanMeasure_lt
  obtain ⟨g1, g2, g3, _⟩ := Forward_fields p (defaultCase p R).sc
  rw [g1, g2, g3, hY2]
  have hpe := hok.pos_le
  have he := escBit_le (defaultCase p R).sc.state
  rcases hB with hB | hB
  · left; omega
  · right
    refine ⟨by omega, ?_⟩
    split <;> omega


theorem lineTail_outer (p : Pass) (M : Lexer) (h : OuterOK M) : OuterOK (lineTail p M) := by
  unfold OuterOK at h ⊢
  rw [lineTail_escSeq]; exact h

theorem defaultCase_outer (p : Pass) (M : Lexer) (h : OuterOK M) : OuterOK (defaultCase p M) := by
  unfold OuterOK at h ⊢
  rw [(defaultCase_sc_form p M).1]; exact h

/-- One iteration of the loop of `ColouriseFortranDoc`, entered inside the
range: the cursor stays consistent, and the measure goes down unless the
iteration was entered in the operator state at the very start of the pending
segment. -/
theorem step_progress (p : Pass) (kw : LexerWordList) (startPos : Nat) (L : Lexer)
    (hE : p.endPos ≤ p.text.length + 1) (hok : ScOK p startPos L.sc) (hout : OuterOK L)
    (hm : L.sc.currentPos < p.endPos) :
    ScOK p startPos (step p kw L).sc ∧ OuterOK (step p kw L) ∧ Settled p (step p kw L).sc ∧
    (Settled p L.sc → scanMeasure p (step p kw L).sc < scanMeasure p L.sc) := by
  obtain ⟨ho, hf⟩ := switchCase_form p kw L
  have hposlen : L.sc.currentPos ≤ p.text.length := by omega
  have hseg := hok.seg_le
  unfold step
  dsimp only
  rcases hf with ⟨hc, hs, hsc⟩ | ⟨hc, hform⟩
  · rw [if_pos hc]
    have hO := ho hout
    obtain ⟨f1, f2, f3, _, _⟩ := SetState_fields L.sc L.escSeq.outerState
    have hst : L.escSeq.outerState ≠ SCE_F_OPERATOR ∧ L.escSeq.outerState ≠ SCE_F_OPERATOR2 ∧
        L.escSeq.outerState ≠ SCE_F_ESCAPECHAR := by
      rcases hout with h | h | h <;> rw [h] <;> decide
    refine ⟨by rw [hsc]; exact hok.setState hposlen _, hO, ?_, fun _ => ?_⟩
    · intro h
      rw [hsc, f3] at h
      exact absurd h hst.1
    · apply scanMeasure_lt
      rw [hsc, f1, f2, f3, hs, rank_of_ne _ hst.1 hst.2.1]
      have e1 : rank SCE_F_ESCAPECHAR = 2 := rfl
      have e2 : escBit SCE_F_ESCAPECHAR = 1 := rfl
      have e3 : escBit L.escSeq.outerState = 0 := by
        unfold escBit; rw [if_neg hst.2.2]
      rw [e1, e2, e3]
      right
      omega
  · rw [if_neg (by rw [hc]; decide)]
    have hO := lineTail_outer p _ (defaultCase_outer p _ (ho hout))
    have key : ∀ (hokR : ScOK p startPos (switchCase p kw L).1.sc)
        (hlen : (switchCase p kw L).1.sc.state = SCE_F_DEFAULT →
          (switchCase p kw L).1.sc.currentPos ≤ p.text.length)
        (hA : Settled p L.sc →
          3 * (p.endPos + 1 - (switchCase p kw L).1.sc.startSeg)
              + rank (switchCase p kw L).1.sc.state
            ≤ 3 * (p.endPos + 1 - L.sc.startSeg) + rank L.sc.state ∧
          (3 * (p.endPos + 1 - (switchCase p kw L).1.sc.startSeg)
              + rank (switchCase p kw L).1.sc.state
            < 3 * (p.endPos + 1 - L.sc.startSeg) + rank L.sc.state ∨
            L.sc.currentPos ≤ (switchCase p kw L).1.sc.currentPos)),
        ScOK p startPos (lineTail p (defaultCase p (switchCase p kw L).1)).sc ∧
        OuterOK (lineTail p (defaultCase p (switchCase p kw L).1)) ∧
        Settled p (lineTail p (defaultCase p (switchCase p kw L).1)).sc ∧
        (Settled p L.sc →
          scanMeasure p (lineTail p (defaultCase p (switchCase p kw L).1)).sc
            < scanMeasure p L.sc) := by
      intro hokR hlen hA
      refine ⟨?_, hO, ?_, ?_⟩
      · rw [lineTail_sc]
        obtain ⟨_, hd⟩ := defaultCase_sc_form p (switchCase p kw L).1
        rcases hd with h | ⟨hs, s, h⟩
        · rw [h]; exact hokR.forward
        · rw [h]; exact (hokR.setState (hlen hs) s).forward
      · rw [lineTail_sc]
        obtain ⟨_, hd⟩ := defaultCase_sc_form p (switchCase p kw L).1
        apply Settled.of_forward
        rcases hd with h | ⟨hs, s, h⟩
        · rw [h]; exact hokR.seg_le
        · rw [h]; exact (hokR.setState (hlen hs) s).seg_le
      · intro hset
        exact (tail_progress p startPos _ L.sc hokR hm hlen (hA hset).1 (hA hset).2).2.2
    rcases hform with ⟨h, hne⟩ | ⟨sc0, h, h0, hne2⟩ | ⟨h, hch⟩ | ⟨h, hs⟩ | ⟨h, hs⟩ | ⟨h, hs⟩
    · -- the cursor is unchanged
      apply key
      · rw [h]; exact hok
      · intro _; rw [h]; exact hposlen
      · intro _; rw [h]; exact ⟨Nat.le_refl _, Or.inr (Nat.le_refl _)⟩
    · -- the segment is closed on the spot
      have hok0 : ScOK p startPos sc0 := by
        rcases h0 with h0 | ⟨s, h0⟩
        · rw [h0]; exact hok
        · rw [h0]; exact hok.changeState s
      have hp0 : sc0.currentPos = L.sc.currentPos ∧ sc0.startSeg = L.sc.startSeg := by
        rcases h0 with h0 | ⟨s, h0⟩ <;> rw [h0] <;> exact ⟨rfl, rfl⟩
      obtain ⟨f1, f2, f3, _, _⟩ := SetState_fields sc0 SCE_F_DEFAULT
      apply key
      · rw [h]; exact hok0.setState (by rw [hp0.1]; exact hposlen) _
      · intro _; rw [h, f1, hp0.1]; exact hposlen
      · intro hset
        rw [h, f1, f2, f3, hp0.1, hp0.2]
        have e1 : rank SCE_F_DEFAULT = 2 := rfl
        rw [e1]
        by_cases hop : L.sc.state = SCE_F_OPERATOR
        · have := hset hop
          have e2 : rank L.sc.state = 0 := by rw [hop]; rfl
          rw [e2]
          exact ⟨by omega, Or.inr (Nat.le_refl _)⟩
        · rw [rank_of_ne _ hop hne2]
          exact ⟨by omega, Or.inr (Nat.le_refl _)⟩
    · -- one step forward and the segment closed
      have hlt := hok.pos_lt_text hm hch
      obtain ⟨g1, g2, g3, _⟩ := Forward_fields p L.sc
      obtain ⟨f1, f2, f3, _, _⟩ := SetState_fields (L.sc.Forward p) SCE_F_DEFAULT
      rw [if_pos hm] at g1
      apply key
      · rw [h]; exact hok.forward.setState (by rw [g1]; omega) _
      · intro _; rw [h, f1, g1]; omega
      · intro _
        rw [h, f1, f2, f3, g1, g2]
        have e1 : rank SCE_F_DEFAULT = 2 := rfl
        rw [e1]
        exact ⟨by omega, Or.inl (by omega)⟩
    · -- the rewind
      obtain ⟨f1, f2, f3, _, _⟩ := SetState_fields (L.sc.Rewind p) SCE_F_OPERATOR
      have r1 : (L.sc.Rewind p).currentPos = L.sc.startSeg := rfl
      have r2 : (L.sc.Rewind p).startSeg = L.sc.startSeg := rfl
      apply key
      · rw [h]; exact hok.rewind.setState (by rw [r1]; exact hok.seg_text) _
      · intro hst; rw [h, f3] at hst; exact absurd hst (by decide)
      · intro _
        rw [h, f2, f3, r1, r2, hs]
        have e1 : rank SCE_F_OPERATOR = 0 := rfl
        have e2 : rank SCE_F_OPERATOR2 = 1 := rfl
        rw [e1, e2]
        exact ⟨by omega, Or.inl (by omega)⟩
    · -- one step forward in a number
      obtain ⟨g1, g2, g3, _⟩ := Forward_fields p L.sc
      rw [if_pos hm] at g1
      apply key
      · rw [h]; exact hok.forward
      · intro hst; rw [h, g3, hs] at hst; exact absurd hst (by decide)
      · intro _
        rw [h, g1, g2, g3]
        exact ⟨Nat.le_refl _, Or.inr (by omega)⟩
    · -- an escape sequence is opened
      obtain ⟨f1, f2, f3, _, _⟩ := SetState_fields L.sc SCE_F_ESCAPECHAR
      obtain ⟨g1, g2, g3, _⟩ := Forward_fields p (L.sc.SetState SCE_F_ESCAPECHAR)
      rw [f1, if_pos hm] at g1
      apply key
      · rw [h]; exact (hok.setState hposlen _).forward
      · intro hst; rw [h, g3, f3] at hst; exact absurd hst (by decide)
      · intro _
        rw [h, g1, g2, g3, f2, f3]
        have e1 : rank SCE_F_ESCAPECHAR = 2 := rfl
        have e2 : rank L.sc.state = 2 := by
          rcases hs with hs | hs <;> rw [hs] <;> rfl
        rw [e1, e2]
        exact ⟨by omega, Or.inr (by omega)⟩

theorem run_terminates (p : Pass) (kw : LexerWordList) (startPos : Nat)
    (hE : p.endPos ≤ p.text.length + 1) :
    ∀ (n : Nat) (L : Lexer), ScOK p startPos L.sc → OuterOK L → Settled p L.sc →
      scanMeasure p L.sc < n →
      ScOK p startPos (run p kw n L).sc ∧ ¬ (run p kw n L).sc.currentPos < p.endPos := by
  intro n
  induction n with
  | zero => intro L _ _ _ h; exact absurd h (Nat.not_lt_zero _)
  | succ n ih =>
    intro L hok hout hset hlt
    unfold run
    by_cases hm : L.sc.More p = true
    · rw [if_pos hm]
      have hm' : L.sc.currentPos < p.endPos := by
        simpa [StyleContext.More] using hm
      obtain ⟨h1, h2, h3, h4⟩ := step_progress p kw startPos L hE hok hout hm'
      have := h4 hset
      exact ih (step p kw L) h1 h2 h3 (by omega)
    · rw [if_neg hm]
      refine ⟨hok, ?_⟩
      simpa [StyleContext.More] using hm

theorem run_loopBound (p : Pass) (kw : LexerWordList) (startPos : Nat)
    (hE : p.endPos ≤ p.text.length + 1) (L : Lexer) (hok : ScOK p startPos L.sc)
    (hout : OuterOK L) :
    ScOK p startPos (run p kw (loopBound p.endPos) L).sc ∧
    (run p kw (loopBound p.endPos) L).sc.currentPos = p.endPos ∧
    (run p kw (loopBound p.endPos) L).sc.More p = false := by
  have key : ScOK p startPos (run p kw (loopBound p.endPos) L).sc ∧
      ¬ (run p kw (loopBound p.endPos) L).sc.currentPos < p.endPos := by
    have hb : loopBound p.endPos = (loopBound p.endPos - 1) + 1 := by
      unfold loopBound; omega
    rw [hb]
    unfold run
    by_cases hm : L.sc.More p = true
    · rw [if_pos hm]
      have hm' : L.sc.currentPos < p.endPos := by
        simpa [StyleContext.More] using hm
      obtain ⟨h1, h2, h3, _⟩ := step_progress p kw startPos L hE hok hout hm'
      have hbound := scanMeasure_bound p (step p kw L).sc
      exact run_terminates p kw startPos hE (loopBound p.endPos - 1)
        (step p kw L) h1 h2 h3 (by omega)
    · rw [if_neg hm]
      exact ⟨hok, by simpa [StyleContext.More] using hm⟩
  have hle := key.1.pos_le
  refine ⟨key.1, by omega, ?_⟩
  simp only [StyleContext.More, decide_eq_false_iff_not]
  exact key.2

theorem Complete_length {σ : Type} (p : Pass) (startPos : Nat) (sc : StyleContext σ)
    (hok : ScOK p startPos sc) (hpos : sc.currentPos = p.endPos) :
    (sc.Complete p).styles.length + startPos
      = (if p.text.length < p.endPos then p.endPos - 1 else p.endPos) := by
  unfold StyleContext.Complete StyleContext.ColorTo
  rw [hpos]
  have h1 := hok.seg_text
  have h2 := hok.seg_le
  have h3 := hok.painted
  rw [hpos] at h2
  by_cases hl : p.text.length < p.endPos
  · rw [if_pos hl, if_neg (by omega)]
    dsimp only
    rw [List.length_append, List.length_replicate]
    omega
  · rw [if_neg hl, if_neg (by omega)]
    dsimp only
    rw [List.length_append, List.length_replicate]
    omega

theorem passEnd_cases (text : List Nat) (startPos length : Nat)
    (h : startPos + length ≤ text.length) :
    (if text.length < passEnd text startPos length then passEnd text startPos length - 1
      else passEnd text startPos length) = startPos + length := by
  unfold passEnd
  by_cases hl : startPos + length < text.length
  · rw [if_pos hl, if_neg (by omega)]
  · rw [if_neg hl, if_pos (by omega)]
    omega

/-- The loop of `ColouriseFortranDoc` ends within its bound of iterations, at
the end of the range, and every position of the range has a style then. -/
theorem fortran_terminates (text : List Nat) (startPos length : Nat) (initStyle : Style)
    (kw : LexerWordList) (ls : Nat → Nat) (h : startPos + length ≤ text.length) :
    (run ⟨text, passEnd text startPos length⟩ kw (loopBound (passEnd text startPos length))
        (initLexer text startPos initStyle ls)).sc.More ⟨text, passEnd text startPos length⟩
      = false ∧
    (ColouriseFortranDoc text startPos length initStyle kw ls).sc.styles.length = length := by
  have hok : ScOK ⟨text, passEnd text startPos length⟩ startPos
      (initLexer text startPos initStyle ls).sc := ScOK.init text startPos length initStyle h
  have hout : OuterOK (initLexer text startPos initStyle ls) := Or.inl rfl
  obtain ⟨r1, r2, r3⟩ := run_loopBound ⟨text, passEnd text startPos length⟩ kw startPos
    (passEnd_le text startPos length) _ hok hout
  refine ⟨r3, ?_⟩
  have := Complete_length ⟨text, passEnd text startPos length⟩ startPos _ r1 r2
  dsimp only at this
  rw [passEnd_cases text startPos length h] at this
  unfold ColouriseFortranDoc
  dsimp only
  omega

theorem tail_pos (p : Pass) (R : Lexer) :
    (lineTail p (defaultCase p R)).sc.currentPos
      = (if R.sc.currentPos < p.endPos then R.sc.currentPos + 1 else R.sc.currentPos) := by
  rw [lineTail_sc]
  obtain ⟨g1, _, _, _⟩ := Forward_fields p (defaultCase p R).sc
  rw [g1]
  obtain ⟨_, hd⟩ := defaultCase_sc_form p R
  rcases hd with h | ⟨_, s, h⟩
  · rw [h]
  · rw [h, (SetState_fields R.sc s).1]

/-- One iteration of the loop of `ColouriseFortranDoc`, entered inside the
range, moves the cursor forward, except when it ends an escape sequence (the
cursor stays and the state before the escape returns) and when it rewinds a
dotted operator (the cursor goes to the byte after the dot, in the operator
state). -/
theorem step_advances (p : Pass) (kw : LexerWordList) (startPos : Nat) (L : Lexer)
    (hok : ScOK p startPos L.sc) (hm : L.sc.currentPos < p.endPos) :
    L.sc.currentPos < (step p kw L).sc.currentPos ∨
    (L.sc.state = SCE_F_ESCAPECHAR ∧ (step p kw L).sc.currentPos = L.sc.currentPos ∧
      (step p kw L).sc.state = L.escSeq.outerState) ∨
    (L.sc.state = SCE_F_OPERATOR2 ∧ (step p kw L).sc.state = SCE_F_OPERATOR ∧
      (step p kw L).sc.currentPos = L.sc.startSeg + 1) := by
  obtain ⟨_, hf⟩ := switchCase_form p kw L
  have hseg := hok.seg_le
  unfold step
  dsimp only
  rcases hf with ⟨hc, hs, hsc⟩ | ⟨hc, hform⟩
  · rw [if_pos hc]
    obtain ⟨f1, _, f3, _, _⟩ := SetState_fields L.sc L.escSeq.outerState
    exact Or.inr (Or.inl ⟨hs, by rw [hsc, f1], by rw [hsc, f3]⟩)
  · rw [if_neg (by rw [hc]; decide), tail_pos]
    rcases hform with ⟨h, _⟩ | ⟨sc0, h, h0, _⟩ | ⟨h, _⟩ | ⟨h, hs⟩ | ⟨h, _⟩ | ⟨h, _⟩
    · left; rw [h, if_pos hm]; omega
    · left
      have hp0 : sc0.currentPos = L.sc.currentPos := by
        rcases h0 with h0 | ⟨s, h0⟩
        · rw [h0]
        · rw [h0]; rfl
      rw [h, (SetState_fields sc0 SCE_F_DEFAULT).1, hp0, if_pos hm]; omega
    · left
      obtain ⟨g1, _, _, _⟩ := Forward_fields p L.sc
      rw [if_pos hm] at g1
      rw [h, (SetState_fields _ SCE_F_DEFAULT).1, g1]
      split <;> omega
    · right; right
      obtain ⟨f1, _, f3, _, _⟩ := SetState_fields (L.sc.Rewind p) SCE_F_OPERATOR
      have r1 : (L.sc.Rewind p).currentPos = L.sc.startSeg := rfl
      refine ⟨hs, ?_, ?_⟩
      · rw [lineTail_sc, Forward_state, defaultCase_of_ne p _ (by rw [h, f3]; decide), h, f3]
      · rw [h, f1, r1, if_pos (by omega)]
    · left
      obtain ⟨g1, _, _, _⟩ := Forward_fields p L.sc
      rw [if_pos hm] at g1
      rw [h, g1]
      split <;> omega
    · left
      obtain ⟨g1, _, _, _⟩ := Forward_fields p (L.sc.SetState SCE_F_ESCAPECHAR)
      rw [(SetState_fields L.sc SCE_F_ESCAPECHAR).1, if_pos hm] at g1
      rw [h, g1]
      split <;> omega

theorem InText.closed {σ : Type} {p : Pass} {startPos pos0 : Nat} {sc : StyleContext σ}
    (h : InText p startPos pos0 sc) (s : σ) : InText p startPos pos0 (sc.SetState s) := by
  obtain ⟨f1, _, _, _, _⟩ := SetState_fields sc s
  exact ⟨h.1.setState h.2.2 s, by rw [f1]; exact h.2.1, by rw [f1]; exact h.2.2⟩

theorem InText.restyled {σ : Type} {p : Pass} {startPos pos0 : Nat} {sc : StyleContext σ}
    (h : InText p startPos pos0 sc) (s : σ) : InText p startPos pos0 (sc.ChangeState s) :=
  ⟨h.1.changeState s, h.2.1, h.2.2⟩

theorem InText.moved {σ : Type} {p : Pass} {startPos pos0 : Nat} {sc : StyleContext σ}
    (h : InText p startPos pos0 sc) (hch : sc.currentPos < p.endPos → sc.ch ≠ 0) :
    InText p startPos pos0 (sc.Forward p) := by
  obtain ⟨g1, _, _, _⟩ := Forward_fields p sc
  refine ⟨h.1.forward, ?_, ?_⟩
  · rw [g1]; have := h.2.1; split <;> omega
  · rw [g1]
    by_cases hm : sc.currentPos < p.endPos
    · rw [if_pos hm]
      have := h.1.pos_lt_text hm (hch hm)
      omega
    · rw [if_neg hm]; exact h.2.2

theorem alpha_ne_zero (c : Nat) (h : IsAlpha c = true) : c ≠ 0 := by
  intro h0; rw [h0] at h; exact absurd h (by decide)

theorem bracketDoc_length (n : Nat) : (bracketDoc n).length = n + 5 := by
  unfold bracketDoc
  rw [List.length_append, List.length_replicate]
  rfl

theorem bracketDoc_succ (n : Nat) : bracketDoc (n + 1) = 40 :: bracketDoc n := by
  unfold bracketDoc
  rw [List.replicate_succ]
  rfl

theorem charAt_bracket (n j : Nat) (h : j < n) : charAt (bracketDoc n) j = 40 := by
  unfold charAt bracketDoc
  rw [List.getD_append _ _ _ _ (by rw [List.length_replicate]; exact h)]
  rw [List.getD_eq_getElem _ _ (by rw [List.length_replicate]; exact h)]
  simp

theorem charAt_tail (n i : Nat) : charAt (bracketDoc n) (n + i) = charAt (str "\nend\n") i := by
  unfold charAt bracketDoc
  rw [List.getD_append_right _ _ _ _ (by rw [List.length_replicate]; omega)]
  rw [List.length_replicate, Nat.add_sub_cancel_left]

theorem countLineEnds_cons_bracket (cs : List Nat) (m : Nat) :
    countLineEnds (40 :: cs) (m + 1) = countLineEnds cs m := by
  rw [countLineEnds]
  simp [endsLine]

theorem lineStartFrom_cons_bracket (cs : List Nat) (q l : Nat) :
    lineStartFrom (40 :: cs) q (l + 1) = lineStartFrom cs (q + 1) (l + 1) := by
  rw [lineStartFrom]
  simp [endsLine]

theorem countLineEnds_bracket (n : Nat) : ∀ m, m ≤ n → countLineEnds (bracketDoc n) m = 0 := by
  induction n with
  | zero => intro m hm; have : m = 0 := by omega
            subst this; rfl
  | succ n ih =>
    intro m hm
    rw [bracketDoc_succ]
    cases m with
    | zero => rfl
    | succ m =>
      rw [countLineEnds_cons_bracket, ih m (by omega)]

theorem countLineEnds_tail (n : Nat) : ∀ i,
    countLineEnds (bracketDoc n) (n + i) = countLineEnds (str "\nend\n") i := by
  induction n with
  | zero => intro i; rw [Nat.zero_add]; rfl
  | succ n ih =>
    intro i
    rw [bracketDoc_succ, show n + 1 + i = (n + i) + 1 by omega, countLineEnds_cons_bracket,
      ih i]

theorem lineStartFrom_bracket (n : Nat) : ∀ (q l : Nat),
    lineStartFrom (bracketDoc n) q (l + 1) = lineStartFrom (str "\nend\n") (q + n) (l + 1) := by
  induction n with
  | zero => intro q l; rfl
  | succ n ih =>
    intro q l
    rw [bracketDoc_succ, lineStartFrom_cons_bracket, ih (q + 1) l,
      show q + 1 + n = q + (n + 1) by omega]

theorem GetLine_bracket (n m : Nat) (h : m ≤ n) : GetLine (bracketDoc n) m = 0 :=
  countLineEnds_bracket n m h

theorem GetLine_tail (n i : Nat) :
    GetLine (bracketDoc n) (n + i) = countLineEnds (str "\nend\n") i :=
  countLineEnds_tail n i

theorem LineStart_bracket_one (n : Nat) : LineStart (bracketDoc n) 1 = n + 1 := by
  unfold LineStart
  rw [lineStartFrom_bracket n 0 0, Nat.zero_add]
  have : ∀ q, lineStartFrom (str "\nend\n") q 1 = q + 1 := by
    intro q; simp [lineStartFrom, str, endsLine]
  exact this n

theorem LineStart_bracket_two (n : Nat) : LineStart (bracketDoc n) 2 = n + 5 := by
  unfold LineStart
  rw [lineStartFrom_bracket n 0 1, Nat.zero_add]
  have : ∀ q, lineStartFrom (str "\nend\n") q 2 = q + 5 := by
    intro q; simp [lineStartFrom, str, endsLine]
  exact this n

theorem LineStart_bracket_three (n : Nat) : LineStart (bracketDoc n) 3 = n + 5 := by
  unfold LineStart
  rw [lineStartFrom_bracket n 0 2, Nat.zero_add]
  have : ∀ q, lineStartFrom (str "\nend\n") q 3 = q + 5 := by
    intro q; simp [lineStartFrom, str, endsLine]
  exact this n

theorem GetLine_bracket_end (n : Nat) : GetLine (bracketDoc n) (bracketDoc n).length = 2 := by
  rw [bracketDoc_length, GetLine_tail]
  decide

theorem atLineEndAt_bracket0 (n pos : Nat) :
    atLineEndAt (bracketDoc n) 0 (n + 1) pos = decide (n ≤ pos) := by
  unfold atLineEndAt
  rw [GetLine_bracket_end, if_pos (by decide)]
  simp

theorem dispatch_bracket (p : Pass) (vc : Nat) (sc : StyleContext Style)
    (hs : sc.state = SCE_F_DEFAULT) (hch : sc.ch = 40) :
    dispatchState p vc sc = some SCE_F_OPERATOR := by
  unfold dispatchState
  rw [if_neg (by simp [hs]), hch]
  simp [IsNumberStart, IsIdentifierStart, IsAGraphic, IsADigit, IsAlpha]

theorem step_bracket (p : Pass) (kw : LexerWordList) (n j : Nat) (ht : p.text = bracketDoc n)
    (h1 : 1 ≤ j) (hj : j < n) (hE : j < p.endPos) :
    step p kw (bracketState n j) = bracketState n (j + 1) := by
  have e1 : switchCase p kw (bracketState n j)
      = ({ bracketState n j with sc := (bracketState n j).sc.SetState SCE_F_DEFAULT }, false) :=
    rfl
  have hch : charAt (bracketDoc n) j = 40 := charAt_bracket n j hj
  have e2 : (bracketState n j).sc.SetState SCE_F_DEFAULT
      = { (bracketState n j).sc with
            styles := List.replicate j SCE_F_OPERATOR, startSeg := j, state := SCE_F_DEFAULT } := by
    rw [SetState_eq _ _ (by show j - 1 ≤ j; omega)]
    simp only [bracketState]
    congr 1
    rw [← List.replicate_add]
    congr 1
    omega
  unfold step
  rw [e1]
  dsimp only
  rw [if_neg (by decide), e2, defaultCase_eq]
  rw [dispatch_bracket p _ _ rfl (by show charAt (bracketDoc n) j = 40; exact hch)]
  dsimp only
  unfold lineTail
  simp only [bracketState, hch, StyleContext.SetState, StyleContext.ColorTo, StyleContext.Forward,
    hE, if_true, ht, atLineEndAt_bracket0, bracketDepth]
  simp [Nat.not_le.mpr hj, hE]
  exact atLineEndAt_bracket0 n (j + 1)

theorem run_succ (p : Pass) (kw : LexerWordList) (m : Nat) (L : Lexer) :
    run p kw (m + 1) L = if L.sc.More p then run p kw m (step p kw L) else L := rfl

theorem run_stop (p : Pass) (kw : LexerWordList) (m : Nat) (L : Lexer)
    (h : L.sc.More p = false) : run p kw m L = L := by
  cases m with
  | zero => rfl
  | succ m => rw [run_succ, if_neg (by rw [h]; decide)]

theorem run_add (p : Pass) (kw : LexerWordList) : ∀ (a b : Nat) (L : Lexer),
    run p kw (a + b) L = run p kw b (run p kw a L) := by
  intro a
  induction a with
  | zero => intro b L; rw [Nat.zero_add]; rfl
  | succ a ih =>
    intro b L
    rw [show a + 1 + b = (a + b) + 1 by omega, run_succ, run_succ p kw a]
    by_cases hm : L.sc.More p = true
    · rw [if_pos hm, if_pos hm]
      exact ih b _
    · rw [if_neg hm, if_neg hm, run_stop p kw b L (by simpa using hm)]

theorem step_bracket_first (p : Pass) (kw : LexerWordList) (n : Nat) (ls : Nat → Nat)
    (ht : p.text = bracketDoc n) (hn : 1 ≤ n) (hE : 0 < p.endPos) :
    step p kw (initLexer (bracketDoc n) 0 SCE_F_DEFAULT ls) = bracketState n 1 := by
  have hch : charAt (bracketDoc n) 0 = 40 := charAt_bracket n 0 hn
  have hline : GetLine (bracketDoc n) 0 = 0 := GetLine_bracket n 0 (Nat.zero_le _)
  have hls0 : LineStart (bracketDoc n) 0 = 0 := by
    unfold LineStart; cases bracketDoc n <;> rfl
  have hinit : initLexer (bracketDoc n) 0 SCE_F_DEFAULT ls
      = { sc := { currentPos := 0, currentLine := 0, lineStartNext := n + 1, atLineStart := true,
                  atLineEnd := false, state := SCE_F_DEFAULT, chPrev := 0,
                  ch := 40, chNext := charAt (bracketDoc n) 1,
                  startSeg := 0, styles := [] },
          lineState := 0, visibleChars := 0, parenCount := 0, ifConstruct := false,
          kwType := .None, escSeq := { outerState := SCE_F_DEFAULT, digitsLeft := 0 },
          lineWrites := [] } := by
    unfold initLexer StyleContext.init
    simp only [hline, hch, hls0, Nat.zero_add, LineStart_bracket_one, atLineEndAt_bracket0]
    simp
    omega
  rw [hinit]
  have e1 : ∀ L : Lexer, L.sc.state = SCE_F_DEFAULT → switchCase p kw L = (L, false) := by
    intro L hs
    unfold switchCase
    simp only [hs]
  unfold step
  rw [e1 _ rfl]
  dsimp only
  rw [if_neg (by decide), defaultCase_eq, dispatch_bracket p _ _ rfl rfl]
  dsimp only
  unfold lineTail
  simp only [bracketState, StyleContext.SetState, StyleContext.ColorTo, StyleContext.Forward,
    hE, if_true, ht, atLineEndAt_bracket0, bracketDepth]
  simp [isspacechar, hE]
  exact atLineEndAt_bracket0 n 1

theorem run_bracket (p : Pass) (kw : LexerWordList) (n : Nat) (ht : p.text = bracketDoc n) :
    ∀ (j i : Nat), 1 ≤ i → i + j ≤ n → i + j ≤ p.endPos →
      run p kw j (bracketState n i) = bracketState n (i + j) := by
  intro j
  induction j with
  | zero => intro i _ _ _; rfl
  | succ j ih =>
    intro i hi hn hE
    rw [run_succ]
    have hm : (bracketState n i).sc.More p = true := by
      simp only [StyleContext.More, bracketState, decide_eq_true_eq]
      omega
    rw [if_pos hm, step_bracket p kw n i ht hi (by omega) (by omega), ih (i + 1) (by omega)
      (by omega) (by omega)]
    congr 1
    omega

theorem atLineEndAt_bracket1 (n pos : Nat) :
    atLineEndAt (bracketDoc n) 1 (n + 5) pos = decide (n + 4 ≤ pos) := by
  unfold atLineEndAt
  rw [GetLine_bracket_end, if_pos (by decide)]
  simp

theorem tail_chars (n : Nat) :
    charAt (bracketDoc n) n = 10 ∧ charAt (bracketDoc n) (n + 1) = 101 ∧
    charAt (bracketDoc n) (n + 2) = 110 ∧ charAt (bracketDoc n) (n + 3) = 100 ∧
    charAt (bracketDoc n) (n + 4) = 10 ∧ charAt (bracketDoc n) (n + 5) = 0 ∧
    charAt (bracketDoc n) (n + 6) = 0 := by
  refine ⟨?_, ?_, ?_, ?_, ?_, ?_, ?_⟩
  · have := charAt_tail n 0; rw [Nat.add_zero] at this; rw [this]; rfl
  · rw [charAt_tail]; rfl
  · rw [charAt_tail]; rfl
  · rw [charAt_tail]; rfl
  · rw [charAt_tail]; rfl
  · rw [charAt_tail]; rfl
  · rw [charAt_tail]; rfl

theorem step_bracket_eol (p : Pass) (kw : LexerWordList) (n : Nat) (ht : p.text = bracketDoc n)
    (hn : 1 ≤ n) (hE : n < p.endPos) :
    step p kw (bracketState n n)
      = lineStartState n n n (List.replicate n SCE_F_OPERATOR) [(0, encodeLineState 0 n)] 10 := by
  obtain ⟨c0, c1, c2, _⟩ := tail_chars n
  have e1 : switchCase p kw (bracketState n n)
      = ({ bracketState n n with sc := (bracketState n n).sc.SetState SCE_F_DEFAULT }, false) :=
    rfl
  have e2 : (bracketState n n).sc.SetState SCE_F_DEFAULT
      = { (bracketState n n).sc with
            styles := List.replicate n SCE_F_OPERATOR, startSeg := n, state := SCE_F_DEFAULT } := by
    rw [SetState_eq _ _ (by show n - 1 ≤ n; omega)]
    simp only [bracketState]
    congr 1
    rw [← List.replicate_add]
    congr 1
    omega
  have hd : ∀ (vc : Nat) (sc : StyleContext Style), sc.state = SCE_F_DEFAULT → sc.ch = 10 →
      dispatchState p vc sc = none := by
    intro vc sc hs hch
    unfold dispatchState
    rw [if_neg (by simp [hs]), hch]
    simp [IsNumberStart, IsIdentifierStart, IsAGraphic, IsADigit, IsAlpha]
  unfold step
  rw [e1]
  dsimp only
  rw [if_neg (by decide), e2, defaultCase_eq]
  rw [hd _ _ rfl (by show charAt (bracketDoc n) n = 10; exact c0)]
  dsimp only
  unfold lineTail
  simp only [bracketState, lineStartState, c0, c1, StyleContext.Forward, hE, if_true, ht,
    atLineEndAt_bracket1, LineStart_bracket_two, Nat.zero_add]
  simp [c2, FortranLineStateLineContinuation]
  rw [if_pos hE, LineStart_bracket_two, atLineEndAt_bracket1]
  simp

theorem switchCase_default (p : Pass) (kw : LexerWordList) (L : Lexer)
    (hs : L.sc.state = SCE_F_DEFAULT) : switchCase p kw L = (L, false) := by
  unfold switchCase
  simp only [hs]

theorem step_line_start (p : Pass) (kw : LexerWordList) (n pc seg : Nat) (sty : List Style)
    (lw : List (Nat × Nat)) (cp : Nat) (ht : p.text = bracketDoc n) (hseg : seg ≤ n + 1)
    (hE : n + 1 < p.endPos) :
    step p kw (lineStartState n pc seg sty lw cp)
      = identState n pc (sty ++ List.replicate (n + 1 - seg) SCE_F_DEFAULT) lw 1 := by
  obtain ⟨_, c1, c2, c3, _⟩ := tail_chars n
  have hd : dispatchState p 0 (lineStartState n pc seg sty lw cp).sc = some SCE_F_IDENTIFIER := by
    unfold dispatchState
    simp [lineStartState, IsNumberStart, IsIdentifierStart, IsAGraphic, IsADigit, IsAlpha]
  unfold step
  rw [switchCase_default p kw _ rfl]
  dsimp only
  rw [if_neg (by decide), defaultCase_eq]
  rw [show (lineStartState n pc seg sty lw cp).visibleChars = 0 from rfl, hd]
  dsimp only
  rw [SetState_eq _ _ (by show seg ≤ n + 1; exact hseg)]
  unfold lineTail
  simp only [lineStartState, identState, StyleContext.Forward, hE, if_true, ht,
    atLineEndAt_bracket1, c1, c2]
  simp [isspacechar, hE, c3, show n + 2 + 1 = n + 3 from rfl, show n + 1 + 1 = n + 2 from rfl]
  rw [atLineEndAt_bracket1]
  simp

theorem step_ident (p : Pass) (kw : LexerWordList) (n pc : Nat) (sty : List Style)
    (lw : List (Nat × Nat)) (i : Nat) (ht : p.text = bracketDoc n) (hi : i = 1 ∨ i = 2)
    (hE : n + 1 + i < p.endPos) :
    step p kw (identState n pc sty lw i) = identState n pc sty lw (i + 1) := by
  obtain ⟨_, c1, c2, c3, c4, c5, _⟩ := tail_chars n
  have hch : IsIdentifierChar (charAt (bracketDoc n) (n + 1 + i)) = true := by
    rcases hi with h | h <;> subst h
    · rw [show n + 1 + 1 = n + 2 from rfl, c2]; decide
    · rw [show n + 1 + 2 = n + 3 from rfl, c3]; decide
  have e1 : switchCase p kw (identState n pc sty lw i) = (identState n pc sty lw i, false) := by
    unfold switchCase
    simp only [identState, hch, Bool.not_true, Bool.false_eq_true, if_false]
  unfold step
  rw [e1]
  dsimp only
  rw [if_neg (by decide), defaultCase_of_ne p _ (by show SCE_F_IDENTIFIER ≠ SCE_F_DEFAULT; decide)]
  unfold lineTail
  rcases hi with h | h <;> subst h
  · simp only [identState, StyleContext.Forward, hE, if_true, ht, atLineEndAt_bracket1]
    simp [hE, show n + 1 + 1 = n + 2 from rfl, show n + 2 + 1 = n + 3 from rfl,
      show n + 2 + 2 = n + 4 from rfl]
    rw [atLineEndAt_bracket1]
    simp
  · simp only [identState, StyleContext.Forward, hE, if_true, ht, atLineEndAt_bracket1]
    simp [hE, show n + 1 + 2 = n + 3 from rfl, show n + 2 + 2 = n + 4 from rfl,
      show n + 1 + 3 = n + 4 from rfl, show n + 2 + 3 = n + 5 from rfl]
    rw [atLineEndAt_bracket1]
    simp

theorem drop_bracket (n i : Nat) :
    (bracketDoc n).drop (n + i) = (str "\nend\n").drop i := by
  unfold bracketDoc
  rw [List.drop_append_eq_append_drop, List.length_replicate,
    List.drop_eq_nil_of_le (by rw [List.length_replicate]; omega), List.nil_append,
    Nat.add_sub_cancel_left]

theorem exit_word (p : Pass) (n pc : Nat) (sty : List Style) (lw : List (Nat × Nat))
    (ht : p.text = bracketDoc n) :
    (identState n pc sty lw 3).sc.GetCurrentLowered p 64 = str "end" := by
  unfold StyleContext.GetCurrentLowered GetRangeLowered
  rw [ht]
  show ((((bracketDoc n).drop (n + 1)).take (n + 1 + 3 - (n + 1))).take (64 - 1)).map
    MakeLowerCase = str "end"
  rw [drop_bracket, show n + 1 + 3 - (n + 1) = 3 by omega]
  decide

theorem exit_lookahead (p : Pass) (n pc : Nat) (sty : List Style) (lw : List (Nat × Nat)) :
    (lookahead p (identState n pc sty lw 3).sc).1 = 0 := by
  obtain ⟨_, _, _, _, c4, c5, _⟩ := tail_chars n
  unfold lookahead
  simp only [identState, show n + 1 + 3 = n + 4 from rfl, show n + 2 + 3 = n + 5 from rfl, c4, c5]
  rw [if_pos ⟨by decide, by omega⟩]
  simp only [Nat.sub_self]
  rfl

theorem exit_styles (p : Pass) (kw : LexerWordList) (n pc : Nat) (sty : List Style)
    (lw : List (Nat × Nat)) :
    (step p kw (identState n pc sty lw 3)).sc.styles
      = sty ++ List.replicate 3 (classify p kw (identState n pc sty lw 3)).state := by
  obtain ⟨_, _, _, _, c4, _⟩ := tail_chars n
  have hch : (identState n pc sty lw 3).sc.ch = 10 := by
    show charAt (bracketDoc n) (n + 1 + 3) = 10
    exact c4
  have hex : exits (identState n pc sty lw 3) = true := by
    unfold exits
    rw [hch]
    rfl
  rw [step_eq_stepG]
  unfold stepG
  rw [if_pos hex, lineTail_sc, Forward_styles]
  obtain ⟨h1, h2, h3⟩ := identifierCase_styles (classify p kw (identState n pc sty lw 3))
    (identState n pc sty lw 3) rfl (by show n + 1 ≤ n + 1 + 3; omega)
  have hdn : dispatchState p
      (identifierCase (classify p kw (identState n pc sty lw 3))
        (identState n pc sty lw 3)).visibleChars
      (identifierCase (classify p kw (identState n pc sty lw 3))
        (identState n pc sty lw 3)).sc = none := by
    have hch' : (identifierCase (classify p kw (identState n pc sty lw 3))
        (identState n pc sty lw 3)).sc.ch = 10 := by
      unfold identifierCase
      dsimp only
      rw [(SetState_fields _ _).2.2.2.1]
      split <;> exact hch
    unfold dispatchState
    rw [if_neg (by simp [h3]), hch']
    simp [IsNumberStart, IsIdentifierStart, IsAGraphic, IsADigit, IsAlpha]
  rw [defaultCase_eq, hdn]
  dsimp only
  rw [h1]
  show sty ++ List.replicate (n + 1 + 3 - (n + 1)) _ = _
  rw [show n + 1 + 3 - (n + 1) = 3 by omega]

theorem exit_folding (p : Pass) (n : Nat) (sty : List Style) (lw : List (Nat × Nat))
    (ht : p.text = bracketDoc n) :
    (classify p kwDemo (identState n 0 sty lw 3)).state = SCE_F_FOLDING_WORD := by
  unfold classify
  rw [exit_word p n 0 sty lw ht]
  have ht2 : tableStyle kwDemo (str "end") KeywordType.None = SCE_F_FOLDING_WORD := by decide
  rw [show (identState n 0 sty lw 3).kwType = KeywordType.None from rfl, ht2]
  unfold classifyFrom
  dsimp only
  rw [if_pos (Or.inr rfl), exit_lookahead, if_neg (by decide),
    if_neg (by show ¬ ((0 : Nat) ≠ 0); simp), if_neg (by decide), exit_word p n 0 sty lw ht]
  have hc : classifyFolding (str "end") KeywordType.None false 0
      = ⟨SCE_F_FOLDING_WORD, .End, false⟩ := by decide
  rw [show (identState n 0 sty lw 3).ifConstruct = false from rfl,
    show (identState n 0 sty lw 3).kwType = KeywordType.None from rfl, hc]
  rw [if_neg (by intro h; exact absurd h.2.2.1 (by decide))]

theorem exit_in_brackets (p : Pass) (kw : LexerWordList) (n pc : Nat) (sty : List Style)
    (lw : List (Nat × Nat)) (hpc : pc ≠ 0) :
    (classify p kw (identState n pc sty lw 3)).state ≠ SCE_F_FOLDING_WORD :=
  classifyFrom_paren p _ _ hpc

theorem SetState_initial {σ : Type} (sc : StyleContext σ) (s : σ) :
    sc.styles <+: (sc.SetState s).styles := by
  unfold StyleContext.SetState StyleContext.ColorTo
  split
  · exact List.prefix_refl _
  · exact List.prefix_append _ _

theorem switchForm_initial (p : Pass) (sc sc' : StyleContext Style) (h : SwitchForm p sc sc') :
    sc.styles <+: sc'.styles := by
  rcases h with ⟨h, _⟩ | ⟨sc0, h, h0, _⟩ | ⟨h, _⟩ | ⟨h, _⟩ | ⟨h, _⟩ | ⟨h, _⟩
  · rw [h]
  · rw [h]
    have : sc0.styles = sc.styles := by
      rcases h0 with h0 | ⟨s, h0⟩
      · rw [h0]
      · rw [h0]; rfl
    rw [← this]
    exact SetState_initial _ _
  · rw [h]
    have := SetState_initial (sc.Forward p) SCE_F_DEFAULT
    rw [Forward_styles] at this
    exact this
  · rw [h]
    exact SetState_initial (sc.Rewind p) SCE_F_OPERATOR
  · rw [h, Forward_styles]
  · rw [h, Forward_styles]
    exact SetState_initial _ _

theorem step_initial (p : Pass) (kw : LexerWordList) (L : Lexer) :
    L.sc.styles <+: (step p kw L).sc.styles := by
  obtain ⟨_, hf⟩ := switchCase_form p kw L
  unfold step
  dsimp only
  rcases hf with ⟨hc, _, hsc⟩ | ⟨hc, hform⟩
  · rw [if_pos hc, hsc]
    exact SetState_initial _ _
  · rw [if_neg (by rw [hc]; decide), lineTail_sc, Forward_styles]
    have h1 := switchForm_initial p _ _ hform
    obtain ⟨_, hd⟩ := defaultCase_sc_form p (switchCase p kw L).1
    rcases hd with h | ⟨_, s, h⟩
    · rw [h]; exact h1
    · rw [h]; exact List.IsPrefix.trans h1 (SetState_initial _ _)

theorem run_initial (p : Pass) (kw : LexerWordList) : ∀ (m : Nat) (L : Lexer),
    L.sc.styles <+: (run p kw m L).sc.styles := by
  intro m
  induction m with
  | zero => intro L; exact List.prefix_refl _
  | succ m ih =>
    intro L
    rw [run_succ]
    split
    · exact List.IsPrefix.trans (step_initial p kw L) (ih _)
    · exact List.prefix_refl _

theorem ColorTo_initial {σ : Type} (sc : StyleContext σ) (pos : Nat) (s : σ) :
    sc.styles <+: (sc.ColorTo pos s).styles := by
  unfold StyleContext.ColorTo
  split
  · exact List.prefix_refl _
  · exact List.prefix_append _ _

theorem Complete_initial {σ : Type} (p : Pass) (sc : StyleContext σ) :
    sc.styles <+: (sc.Complete p).styles := by
  unfold StyleContext.Complete
  exact ColorTo_initial _ _ _

theorem getD_of_initial {α : Type} (l l' : List α) (h : l <+: l') (i : Nat) (hi : i < l.length)
    (d : α) : l'.getD i d = l.getD i d := by
  obtain ⟨t, rfl⟩ := h
  rw [List.getD_append _ _ _ _ hi]

theorem loopBound_ge (e : Nat) : e ≤ loopBound e := by
  unfold loopBound
  have : 2 * e + 4 ≤ (3 * (e + 1) + 3) * (2 * e + 4) :=
    Nat.le_mul_of_pos_left _ (by omega)
  omega

theorem run_one (p : Pass) (kw : LexerWordList) (m : Nat) (L : Lexer)
    (h : L.sc.currentPos < p.endPos) : run p kw (m + 1) L = run p kw m (step p kw L) := by
  rw [run_succ, if_pos (by simpa [StyleContext.More] using h)]

theorem passEnd_bracket_whole (n : Nat) : passEnd (bracketDoc n) 0 (n + 5) = n + 6 := by
  unfold passEnd
  rw [bracketDoc_length, if_neg (by omega)]

theorem passEnd_bracket_first (n : Nat) : passEnd (bracketDoc n) 0 (n + 1) = n + 1 := by
  unfold passEnd
  rw [bracketDoc_length, if_pos (by omega)]
  omega

theorem passEnd_bracket_second (n : Nat) : passEnd (bracketDoc n) (n + 1) 4 = n + 6 := by
  unfold passEnd
  rw [bracketDoc_length, if_neg (by omega)]

theorem run_to_line_start (p : Pass) (kw : LexerWordList) (n : Nat) (ls : Nat → Nat)
    (ht : p.text = bracketDoc n) (hn : 1 ≤ n) (hE : n < p.endPos) (m : Nat) :
    run p kw (n + 1 + m) (initLexer (bracketDoc n) 0 SCE_F_DEFAULT ls)
      = run p kw m (lineStartState n n n (List.replicate n SCE_F_OPERATOR)
          [(0, encodeLineState 0 n)] 10) := by
  have h0 : (initLexer (bracketDoc n) 0 SCE_F_DEFAULT ls).sc.currentPos < p.endPos := by
    show 0 < p.endPos
    omega
  rw [show n + 1 + m = ((n - 1) + (1 + m)) + 1 by omega, run_one p kw _ _ h0,
    step_bracket_first p kw n ls ht hn (by omega), run_add,
    run_bracket p kw n ht (n - 1) 1 (Nat.le_refl _) (by omega) (by omega),
    show 1 + (n - 1) = n by omega, show 1 + m = m + 1 by omega,
    run_one p kw _ _ (by show n < p.endPos; exact hE), step_bracket_eol p kw n ht hn hE]

theorem run_over_end (p : Pass) (kw : LexerWordList) (n pc seg : Nat) (sty : List Style)
    (lw : List (Nat × Nat)) (cp : Nat) (ht : p.text = bracketDoc n) (hseg : seg ≤ n + 1)
    (hE : n + 5 < p.endPos) (m : Nat) :
    run p kw (4 + m) (lineStartState n pc seg sty lw cp)
      = run p kw m (step p kw
          (identState n pc (sty ++ List.replicate (n + 1 - seg) SCE_F_DEFAULT) lw 3)) := by
  rw [show 4 + m = (m + 3) + 1 by omega,
    run_one p kw _ _ (by show n + 1 < p.endPos; omega),
    step_line_start p kw n pc seg sty lw cp ht hseg (by omega),
    run_one p kw _ _ (by show n + 1 + 1 < p.endPos; omega),
    step_ident p kw n pc _ lw 1 ht (Or.inl rfl) (by omega),
    run_one p kw _ _ (by show n + 1 + 2 < p.endPos; omega),
    step_ident p kw n pc _ lw 2 ht (Or.inr rfl) (by omega),
    run_one p kw _ _ (by show n + 1 + 3 < p.endPos; omega)]

theorem initLexer_second (n : Nat) (ls : Nat → Nat) (h1 : decodeParenCount (ls 0) = 0)
    (h2 : decodeContinuation (ls 0) = 0) :
    initLexer (bracketDoc n) (n + 1) SCE_F_DEFAULT ls = lineStartState n 0 (n + 1) [] [] 0 := by
  obtain ⟨_, c1, c2, _⟩ := tail_chars n
  have hline : GetLine (bracketDoc n) (n + 1) = 1 := by
    rw [GetLine_tail]; decide
  unfold initLexer StyleContext.init
  simp only [hline, LineStart_bracket_one, LineStart_bracket_two, atLineEndAt_bracket1, c1,
    show n + 1 + 1 = n + 2 from rfl, c2, show (1 : Nat) + 1 = 2 from rfl]
  simp [lineStartState, h1, h2]

theorem whole_pass_end (kw : LexerWordList) (ls : Nat → Nat) (n : Nat) (hn : 1 ≤ n) :
    (ColouriseFortranDoc (bracketDoc n) 0 (n + 5) SCE_F_DEFAULT kw ls).sc.styles.getD (n + 1)
      SCE_F_DEFAULT ≠ SCE_F_FOLDING_WORD := by
  unfold ColouriseFortranDoc
  dsimp only
  rw [passEnd_bracket_whole]
  obtain ⟨r, hr⟩ : ∃ r, loopBound (n + 6) = n + 1 + (4 + r) :=
    ⟨loopBound (n + 6) - (n + 5), by have := loopBound_ge (n + 6); omega⟩
  rw [hr, run_to_line_start ⟨bracketDoc n, n + 6⟩ kw n ls rfl hn (by show n < n + 6; omega),
    run_over_end ⟨bracketDoc n, n + 6⟩ kw n n n _ _ 10 rfl (by omega) (by show n + 5 < n + 6; omega)]
  have hpre := List.IsPrefix.trans
    (run_initial ⟨bracketDoc n, n + 6⟩ kw r (step ⟨bracketDoc n, n + 6⟩ kw
      (identState n n (List.replicate n SCE_F_OPERATOR ++ List.replicate (n + 1 - n) SCE_F_DEFAULT)
        [(0, encodeLineState 0 n)] 3)))
    (Complete_initial ⟨bracketDoc n, n + 6⟩ _)
  rw [exit_styles] at hpre
  rw [getD_of_initial _ _ hpre (n + 1) (by simp)]
  rw [List.getD_append_right _ _ _ _ (by simp)]
  have hlen : (List.replicate n SCE_F_OPERATOR
      ++ List.replicate (n + 1 - n) SCE_F_DEFAULT).length = n + 1 := by simp
  rw [hlen, Nat.sub_self]
  exact exit_in_brackets _ kw n n _ _ (by omega)

theorem first_pass_end (kw : LexerWordList) (ls : Nat → Nat) (n : Nat) (hn : 1 ≤ n) :
    (ColouriseFortranDoc (bracketDoc n) 0 (n + 1) SCE_F_DEFAULT kw ls).lineWrites
      = [(0, encodeLineState 0 n)] ∧
    (ColouriseFortranDoc (bracketDoc n) 0 (n + 1) SCE_F_DEFAULT kw ls).sc.styles
      = List.replicate n SCE_F_OPERATOR ++ [SCE_F_DEFAULT] := by
  unfold ColouriseFortranDoc
  dsimp only
  rw [passEnd_bracket_first]
  obtain ⟨r, hr⟩ : ∃ r, loopBound (n + 1) = n + 1 + r :=
    ⟨loopBound (n + 1) - (n + 1), by have := loopBound_ge (n + 1); omega⟩
  rw [hr, run_to_line_start ⟨bracketDoc n, n + 1⟩ kw n ls rfl hn (by show n < n + 1; omega),
    run_stop _ _ _ _ (by simp [StyleContext.More, lineStartState])]
  refine ⟨rfl, ?_⟩
  unfold StyleContext.Complete StyleContext.ColorTo
  simp [lineStartState, bracketDoc_length]

theorem second_pass_end (ls : Nat → Nat) (n : Nat) (h1 : decodeParenCount (ls 0) = 0)
    (h2 : decodeContinuation (ls 0) = 0) :
    (ColouriseFortranDoc (bracketDoc n) (n + 1) 4 SCE_F_DEFAULT kwDemo ls).sc.styles.getD 0
      SCE_F_DEFAULT = SCE_F_FOLDING_WORD := by
  unfold ColouriseFortranDoc
  dsimp only
  rw [passEnd_bracket_second, initLexer_second n ls h1 h2]
  obtain ⟨r, hr⟩ : ∃ r, loopBound (n + 6) = 4 + r :=
    ⟨loopBound (n + 6) - 4, by have := loopBound_ge (n + 6); omega⟩
  rw [hr, run_over_end ⟨bracketDoc n, n + 6⟩ kwDemo n 0 (n + 1) [] [] 0 rfl (Nat.le_refl _)
    (by show n + 5 < n + 6; omega)]
  have hpre := List.IsPrefix.trans
    (run_initial ⟨bracketDoc n, n + 6⟩ kwDemo r (step ⟨bracketDoc n, n + 6⟩ kwDemo
      (identState n 0 ([] ++ List.replicate (n + 1 - (n + 1)) SCE_F_DEFAULT) [] 3)))
    (Complete_initial ⟨bracketDoc n, n + 6⟩ _)
  rw [exit_styles, exit_folding _ n _ _ rfl] at hpre
  rw [getD_of_initial _ _ hpre 0 (by simp)]
  simp

theorem depth_lost (n : Nat) (hn : 1 ≤ n) (henc : encodeLineState 0 n = 0) :
    LineStart (bracketDoc n) 1 = n + 1 ∧
    (ColouriseFortranDoc (bracketDoc n) 0 (n + 1) SCE_F_DEFAULT kwDemo
        (fun _ => 0)).lineWrites = [(0, 0)] ∧
    (ColouriseFortranDoc (bracketDoc n) 0 (n + 1) SCE_F_DEFAULT kwDemo
        (fun _ => 0)).sc.styles.getLast? = some SCE_F_DEFAULT ∧
    (ColouriseFortranDoc (bracketDoc n) 0 (n + 5) SCE_F_DEFAULT kwDemo
        (fun _ => 0)).sc.styles.getD (n + 1) SCE_F_DEFAULT ≠ SCE_F_FOLDING_WORD ∧
    ((ColouriseFortranDoc (bracketDoc n) 0 (n + 1) SCE_F_DEFAULT kwDemo
        (fun _ => 0)).sc.styles ++
      (ColouriseFortranDoc (bracketDoc n) (n + 1) 4 SCE_F_DEFAULT kwDemo
        (applyLineWrites (fun _ => 0)
          (ColouriseFortranDoc (bracketDoc n) 0 (n + 1) SCE_F_DEFAULT kwDemo
            (fun _ => 0)).lineWrites)).sc.styles).getD (n + 1) SCE_F_DEFAULT
      = SCE_F_FOLDING_WORD ∧
    (ColouriseFortranDoc (bracketDoc n) 0 (n + 5) SCE_F_DEFAULT kwDemo
        (fun _ => 0)).sc.styles ≠
      (ColouriseFortranDoc (bracketDoc n) 0 (n + 1) SCE_F_DEFAULT kwDemo
        (fun _ => 0)).sc.styles ++
      (ColouriseFortranDoc (bracketDoc n) (n + 1) 4 SCE_F_DEFAULT kwDemo
        (applyLineWrites (fun _ => 0)
          (ColouriseFortranDoc (bracketDoc n) 0 (n + 1) SCE_F_DEFAULT kwDemo
            (fun _ => 0)).lineWrites)).sc.styles := by
  obtain ⟨hA1, hA2⟩ := first_pass_end kwDemo (fun _ => 0) n hn
  rw [henc] at hA1
  have hP := whole_pass_end kwDemo (fun _ => 0) n hn
  have hB := second_pass_end (applyLineWrites (fun _ => 0) [(0, 0)]) n
    (by decide) (by decide)
  have hsplit : ((List.replicate n SCE_F_OPERATOR ++ [SCE_F_DEFAULT]) ++
      (ColouriseFortranDoc (bracketDoc n) (n + 1) 4 SCE_F_DEFAULT kwDemo
        (applyLineWrites (fun _ => 0) [(0, 0)])).sc.styles).getD (n + 1) SCE_F_DEFAULT
      = SCE_F_FOLDING_WORD := by
    rw [List.getD_append_right _ _ _ _ (by simp)]
    have hlen : (List.replicate n SCE_F_OPERATOR ++ [SCE_F_DEFAULT]).length
        = n + 1 := by simp
    rw [hlen, Nat.sub_self]
    exact hB
  refine ⟨LineStart_bracket_one _, hA1, ?_, hP, ?_, ?_⟩
  · rw [hA2]; simp
  · rw [hA1, hA2]; exact hsplit
  · rw [hA1, hA2]
    intro heq
    rw [heq] at hP
    exact hP hsplit

/-- C2 (the code at the failing input): the text of 2^24 opening brackets
followed by the line `end`, with `end` a folding keyword. The pass over the
whole text reaches the second line at bracket depth 2^24 and does not paint
`end` as a folding keyword. The pass over the first line alone persists the
line state 0, because the depth shifted left by 8 does not fit in 32 bits,
and ends in the default style; the pass over the second line, started in
that style with that line state, reads back the depth 0 and paints `end` as
a folding keyword. The styles of the whole pass therefore differ from those
of the two passes. -/
theorem C2_bracket_depth_lost :
    LineStart (bracketDoc (2 ^ 24)) 1 = 2 ^ 24 + 1 ∧
    (ColouriseFortranDoc (bracketDoc (2 ^ 24)) 0 (2 ^ 24 + 1) SCE_F_DEFAULT kwDemo
        (fun _ => 0)).lineWrites = [(0, 0)] ∧
    (ColouriseFortranDoc (bracketDoc (2 ^ 24)) 0 (2 ^ 24 + 1) SCE_F_DEFAULT kwDemo
        (fun _ => 0)).sc.styles.getLast? = some SCE_F_DEFAULT ∧
    (ColouriseFortranDoc (bracketDoc (2 ^ 24)) 0 (2 ^ 24 + 5) SCE_F_DEFAULT kwDemo
        (fun _ => 0)).sc.styles.getD (2 ^ 24 + 1) SCE_F_DEFAULT ≠ SCE_F_FOLDING_WORD ∧
    ((ColouriseFortranDoc (bracketDoc (2 ^ 24)) 0 (2 ^ 24 + 1) SCE_F_DEFAULT kwDemo
        (fun _ => 0)).sc.styles ++
      (ColouriseFortranDoc (bracketDoc (2 ^ 24)) (2 ^ 24 + 1) 4 SCE_F_DEFAULT kwDemo
        (applyLineWrites (fun _ => 0)
          (ColouriseFortranDoc (bracketDoc (2 ^ 24)) 0 (2 ^ 24 + 1) SCE_F_DEFAULT kwDemo
            (fun _ => 0)).lineWrites)).sc.styles).getD (2 ^ 24 + 1) SCE_F_DEFAULT
      = SCE_F_FOLDING_WORD ∧
    (ColouriseFortranDoc (bracketDoc (2 ^ 24)) 0 (2 ^ 24 + 5) SCE_F_DEFAULT kwDemo
        (fun _ => 0)).sc.styles ≠
      (ColouriseFortranDoc (bracketDoc (2 ^ 24)) 0 (2 ^ 24 + 1) SCE_F_DEFAULT kwDemo
        (fun _ => 0)).sc.styles ++
      (ColouriseFortranDoc (bracketDoc (2 ^ 24)) (2 ^ 24 + 1) 4 SCE_F_DEFAULT kwDemo
        (applyLineWrites (fun _ => 0)
          (ColouriseFortranDoc (bracketDoc (2 ^ 24)) 0 (2 ^ 24 + 1) SCE_F_DEFAULT kwDemo
            (fun _ => 0)).lineWrites)).sc.styles :=
  depth_lost (2 ^ 24) Nat.one_le_two_pow (by decide)

end Fortran

namespace SAS

open Style

/-! ### The SAS tokenizer -/

/-- C19 (the code at the failing input): a `*` that opens a line or follows
a `;` starts a comment that runs to the next `;`, but after the `*/` of a
block comment the `*` is painted as an operator: `chPrevNonWhite` is then
the last visible byte inside the comment, never the closing `/`. -/
theorem C19_star_after_block_comment :
    (ColouriseSASDoc (str "* c;\n") 0 5 SCE_SAS_DEFAULT (fun _ => ⟨[]⟩)).sc.styles
      = [SCE_SAS_COMMENT, SCE_SAS_COMMENT, SCE_SAS_COMMENT, SCE_SAS_COMMENT, SCE_SAS_DEFAULT] ∧
    (ColouriseSASDoc (str "x; * d;\n") 0 8 SCE_SAS_DEFAULT (fun _ => ⟨[]⟩)).sc.styles
      = [SCE_SAS_IDENTIFIER, SCE_SAS_OPERATOR, SCE_SAS_DEFAULT, SCE_SAS_COMMENT, SCE_SAS_COMMENT,
         SCE_SAS_COMMENT, SCE_SAS_COMMENT, SCE_SAS_DEFAULT] ∧
    (ColouriseSASDoc (str "/* c */ * d;\n") 0 13 SCE_SAS_DEFAULT (fun _ => ⟨[]⟩)).sc.styles
      = [SCE_SAS_COMMENTBLOCK, SCE_SAS_COMMENTBLOCK, SCE_SAS_COMMENTBLOCK, SCE_SAS_COMMENTBLOCK,
         SCE_SAS_COMMENTBLOCK, SCE_SAS_COMMENTBLOCK, SCE_SAS_COMMENTBLOCK, SCE_SAS_DEFAULT,
         SCE_SAS_OPERATOR, SCE_SAS_DEFAULT, SCE_SAS_IDENTIFIER, SCE_SAS_OPERATOR,
         SCE_SAS_DEFAULT] ∧
    (run ⟨str "/* c */ * d;\n", 14⟩ (fun _ => ⟨[]⟩) 5
      (initLexer (str "/* c */ * d;\n") 0 SCE_SAS_DEFAULT)).sc.currentPos = 8 ∧
    (run ⟨str "/* c */ * d;\n", 14⟩ (fun _ => ⟨[]⟩) 5
      (initLexer (str "/* c */ * d;\n") 0 SCE_SAS_DEFAULT)).chPrevNonWhite = 99 := by
  decide

theorem forwardWhileAlpha_inText (p : Pass) (startPos pos0 : Nat) :
    ∀ (n : Nat) (sc : StyleContext Style), Fortran.InText p startPos pos0 sc →
      Fortran.InText p startPos pos0 (forwardWhileAlpha p n sc) := by
  intro n
  induction n with
  | zero => intro sc h; exact h
  | succ n ih =>
    intro sc h
    unfold forwardWhileAlpha
    by_cases ha : IsAlpha sc.ch = true
    · rw [if_pos ha]
      exact ih _ (h.moved (fun _ => Fortran.alpha_ne_zero _ ha))
    · rw [if_neg ha]; exact h

/-- The loop of lines 77-79 ends: with the iterations that `switchCase` allows
it, the byte on which it stops is not a letter. -/
theorem forwardWhileAlpha_ends (p : Pass) :
    ∀ (n : Nat) (sc : StyleContext Style), sc.currentPos ≤ p.endPos →
      p.endPos + 1 - sc.currentPos ≤ n → IsAlpha (forwardWhileAlpha p n sc).ch = false := by
  intro n
  induction n with
  | zero => intro sc h1 h2; omega
  | succ n ih =>
    intro sc h1 h2
    unfold forwardWhileAlpha
    by_cases ha : IsAlpha sc.ch = true
    · rw [if_pos ha]
      by_cases hm : sc.currentPos < p.endPos
      · apply ih
        · rw [Fortran.Forward_pos p sc hm]; omega
        · rw [Fortran.Forward_pos p sc hm]; omega
      · have hch : (sc.Forward p).ch = 32 := by
          unfold StyleContext.Forward; rw [if_neg hm]
        have hstop : ∀ m (sc' : StyleContext Style), sc'.ch = 32 →
            forwardWhileAlpha p m sc' = sc' := by
          intro m sc' h32
          cases m with
          | zero => rfl
          | succ m =>
            unfold forwardWhileAlpha
            rw [if_neg (by rw [h32]; decide)]
        rw [hstop n _ hch, hch]
        decide
    · rw [if_neg ha]
      simpa using ha

theorem sas_lineTail_sc (p : Pass) (L : Lexer) : (lineTail p L).sc = L.sc.Forward p := by
  unfold lineTail
  dsimp only
  split_ifs <;> rfl

theorem wordCase_inText (p : Pass) (kw : LexerWordList) (startPos pos0 : Nat)
    (sc : StyleContext Style) (h : Fortran.InText p startPos pos0 sc) :
    Fortran.InText p startPos pos0 (wordCase p kw sc) := by
  unfold wordCase
  dsimp only
  split_ifs
  all_goals first
    | exact h
    | exact h.closed _
    | exact (h.restyled _).closed _

theorem commentCase_inText (p : Pass) (startPos pos0 : Nat) (L : Lexer)
    (h : Fortran.InText p startPos pos0 L.sc) (hm : L.sc.currentPos < p.endPos) :
    Fortran.InText p startPos pos0 (commentCase p L).sc := by
  have keyA : L.sc.ch = 59 →
      Fortran.InText p startPos pos0 (L.sc.ForwardSetState p SCE_SAS_DEFAULT) := by
    intro hch
    unfold StyleContext.ForwardSetState
    exact (h.moved (fun _ => by rw [hch]; decide)).closed _
  have keyB : L.sc.Match 42 47 = true →
      Fortran.InText p startPos pos0 ((L.sc.Forward p).ForwardSetState p SCE_SAS_DEFAULT) := by
    intro hmatch
    unfold StyleContext.ForwardSetState
    simp only [StyleContext.Match, Bool.and_eq_true, decide_eq_true_eq] at hmatch
    have h1 := h.moved (fun _ => by rw [hmatch.1]; decide)
    refine (h1.moved (fun _ => ?_)).closed _
    rw [Fortran.Forward_ch p _ hm, hmatch.2]; decide
  have hsc : (commentCase p L).sc = L.sc ∨
      (L.sc.ch = 59 ∧ (commentCase p L).sc = L.sc.ForwardSetState p SCE_SAS_DEFAULT) ∨
      (L.sc.Match 42 47 = true ∧
        (commentCase p L).sc = (L.sc.Forward p).ForwardSetState p SCE_SAS_DEFAULT) := by
    unfold commentCase
    dsimp only
    by_cases hs : L.sc.state = SCE_SAS_COMMENT
    · have hn : ¬ L.sc.state ≠ SCE_SAS_COMMENT := fun h' => h' hs
      by_cases hch : L.sc.ch = 59
      · right; left
        refine ⟨hch, ?_⟩
        split_ifs <;> first | rfl | (exfalso; simp_all)
      · left
        split_ifs <;> first | rfl | (exfalso; simp_all)
    · by_cases hmt : L.sc.Match 42 47 = true
      · right; right
        refine ⟨hmt, ?_⟩
        split_ifs <;> first | rfl | (exfalso; simp_all)
      · left
        split_ifs <;> first | rfl | (exfalso; simp_all)
  rcases hsc with e | ⟨hch, e⟩ | ⟨hmt, e⟩
  · rw [e]; exact h
  · rw [e]; exact keyA hch
  · rw [e]; exact keyB hmt

theorem switchCase_inText (p : Pass) (kw : LexerWordList) (startPos pos0 : Nat) (L : Lexer)
    (h : Fortran.InText p startPos pos0 L.sc) (hm : L.sc.currentPos < p.endPos) :
    Fortran.InText p startPos pos0 (switchCase p kw L).sc := by
  have hw := wordCase_inText p kw startPos pos0 L.sc h
  have hc := commentCase_inText p startPos pos0 L h hm
  have hq : ∀ q : Nat, L.sc.ch = q → q ≠ 0 →
      Fortran.InText p startPos pos0
        ((forwardWhileAlpha p (p.endPos + 1 - (L.sc.Forward p).currentPos)
          (L.sc.Forward p)).SetState SCE_SAS_DEFAULT) := by
    intro q hq hq0
    exact (forwardWhileAlpha_inText p startPos pos0 _ _
      (h.moved (fun _ => by rw [hq]; exact hq0))).closed _
  unfold switchCase
  dsimp only
  cases hs : L.sc.state <;> simp only [hs] <;> first
    | exact h
    | exact h.closed _
    | exact hw
    | exact hc
    | (split_ifs with h1
       · first
         | exact h.closed _
         | exact hq _ h1 (by decide)
       · exact h)

theorem ite_lineState_sc (c : Prop) [Decidable c] (L1 : Lexer) (v : Nat) :
    (if c then { L1 with lineState := v } else L1).sc = L1.sc := by
  split <;> rfl

theorem defaultCase_inText (p : Pass) (startPos pos0 : Nat) (L : Lexer)
    (h : Fortran.InText p startPos pos0 L.sc) :
    Fortran.InText p startPos pos0 (defaultCase p L).sc := by
  have hsc : (defaultCase p L).sc = L.sc ∨ (∃ s, (defaultCase p L).sc = L.sc.SetState s) ∨
      (L.sc.Match 47 42 = true ∧
        (defaultCase p L).sc = (L.sc.SetState SCE_SAS_COMMENTBLOCK).Forward p) ∨
      (∃ s, (defaultCase p L).sc = (L.sc.SetState SCE_SAS_OPERATOR).ChangeState s) := by
    unfold defaultCase
    dsimp only
    by_cases h0 : L.sc.state ≠ SCE_SAS_DEFAULT
    · rw [if_pos h0]; exact Or.inl rfl
    · rw [if_neg h0]
      by_cases h1 : L.sc.ch = 34
      · rw [if_pos h1]; right; left; exact ⟨_, ite_lineState_sc _ _ _⟩
      · rw [if_neg h1]
        by_cases h2 : L.sc.ch = 39
        · rw [if_pos h2]; right; left; exact ⟨_, ite_lineState_sc _ _ _⟩
        · rw [if_neg h2]
          by_cases h3 : L.sc.Match 47 42 = true
          · rw [if_pos h3]; right; right; left; exact ⟨h3, ite_lineState_sc _ _ _⟩
          · rw [if_neg h3]
            by_cases h4 : L.sc.Match 37 42 = true
            · rw [if_pos h4]; right; left; exact ⟨_, ite_lineState_sc _ _ _⟩
            · rw [if_neg h4]
              by_cases h5 : IsNumberStart L.sc.ch L.sc.chNext = true
              · rw [if_pos h5]; right; left; exact ⟨_, ite_lineState_sc _ _ _⟩
              · rw [if_neg h5]
                by_cases h6 : IsIdentifierStart L.sc.ch = true ∨
                    (L.sc.ch = 37 ∧ IsIdentifierStart L.sc.chNext = true)
                · rw [if_pos h6]; right; left; exact ⟨_, ite_lineState_sc _ _ _⟩
                · rw [if_neg h6]
                  by_cases h7 : IsAGraphic L.sc.ch = true
                  · rw [if_pos h7]
                    by_cases h8 : L.sc.ch = 42 ∧ L.chPrevNonWhite ∈ [0, 59, 47]
                    · rw [if_pos h8]; right; right; right; exact ⟨_, ite_lineState_sc _ _ _⟩
                    · rw [if_neg h8]
                      by_cases h9 : L.visibleChars = 0 ∧
                          (L.sc.ch = 125 ∨ L.sc.ch = 93 ∨ L.sc.ch = 41)
                      · rw [if_pos h9]; right; left; exact ⟨_, ite_lineState_sc _ _ _⟩
                      · rw [if_neg h9]; right; left; exact ⟨_, ite_lineState_sc _ _ _⟩
                  · rw [if_neg h7]; left; exact ite_lineState_sc _ _ _
  rcases hsc with e | ⟨s, e⟩ | ⟨hmt, e⟩ | ⟨s, e⟩
  · rw [e]; exact h
  · rw [e]; exact h.closed s
  · rw [e]
    simp only [StyleContext.Match, Bool.and_eq_true, decide_eq_true_eq] at hmt
    refine (h.closed _).moved (fun _ => ?_)
    rw [(Fortran.SetState_fields L.sc SCE_SAS_COMMENTBLOCK).2.2.2.1, hmt.1]; decide
  · rw [e]; exact (h.closed _).restyled s

/-- One iteration of the loop of `ColouriseSASDoc`, entered inside the range,
keeps the cursor consistent and moves it forward. -/
theorem sas_step_progress (p : Pass) (kw : LexerWordList) (startPos : Nat) (L : Lexer)
    (hE : p.endPos ≤ p.text.length + 1) (hok : Fortran.ScOK p startPos L.sc)
    (hm : L.sc.currentPos < p.endPos) :
    Fortran.ScOK p startPos (step p kw L).sc ∧
    L.sc.currentPos < (step p kw L).sc.currentPos := by
  have h0 : Fortran.InText p startPos L.sc.currentPos L.sc :=
    ⟨hok, Nat.le_refl _, by omega⟩
  have h1 := switchCase_inText p kw startPos _ L h0 hm
  have h2 := defaultCase_inText p startPos _ _ h1
  unfold step
  rw [sas_lineTail_sc]
  refine ⟨h2.1.forward, ?_⟩
  rw [(Fortran.Forward_fields p _).1]
  have := h2.2.1
  have := h2.1.pos_le
  split <;> omega

theorem sas_run_terminates (p : Pass) (kw : LexerWordList) (startPos : Nat)
    (hE : p.endPos ≤ p.text.length + 1) :
    ∀ (n : Nat) (L : Lexer), Fortran.ScOK p startPos L.sc →
      p.endPos - L.sc.currentPos < n →
      Fortran.ScOK p startPos (run p kw n L).sc ∧ (run p kw n L).sc.currentPos = p.endPos := by
  intro n
  induction n with
  | zero => intro L _ h; exact absurd h (Nat.not_lt_zero _)
  | succ n ih =>
    intro L hok hlt
    unfold run
    by_cases hm : L.sc.More p = true
    · rw [if_pos hm]
      have hm' : L.sc.currentPos < p.endPos := by
        simpa [StyleContext.More] using hm
      obtain ⟨h1, h2⟩ := sas_step_progress p kw startPos L hE hok hm'
      exact ih (step p kw L) h1 (by omega)
    · rw [if_neg hm]
      have : ¬ L.sc.currentPos < p.endPos := by simpa [StyleContext.More] using hm
      have := hok.pos_le
      exact ⟨hok, by omega⟩

/-- The loop of `ColouriseSASDoc` ends within its bound of iterations, at the
end of the range, and every position of the range has a style then. -/
theorem sas_terminates (text : List Nat) (startPos length : Nat) (initStyle : Style)
    (kw : LexerWordList) (h : startPos + length ≤ text.length) :
    (run ⟨text, passEnd text startPos length⟩ kw (passEnd text startPos length + 1 - startPos)
        (initLexer text startPos initStyle)).sc.More ⟨text, passEnd text startPos length⟩
      = false ∧
    (ColouriseSASDoc text startPos length initStyle kw).sc.styles.length = length := by
  have hok : Fortran.ScOK ⟨text, passEnd text startPos length⟩ startPos
      (initLexer text startPos initStyle).sc :=
    Fortran.ScOK.init text startPos length initStyle h
  have hpos : (initLexer text startPos initStyle).sc.currentPos = startPos := rfl
  have hle := hok.pos_le
  rw [hpos] at hle
  dsimp only at hle
  obtain ⟨r1, r2⟩ := sas_run_terminates ⟨text, passEnd text startPos length⟩ kw startPos
    (Fortran.passEnd_le text startPos length) (passEnd text startPos length + 1 - startPos) _ hok
    (by rw [hpos]; dsimp only; omega)
  refine ⟨?_, ?_⟩
  · simp only [StyleContext.More, decide_eq_false_iff_not]
    rw [r2]; exact Nat.lt_irrefl _
  · have := Fortran.Complete_length ⟨text, passEnd text startPos length⟩ startPos _ r1 r2
    dsimp only at this
    rw [Fortran.passEnd_cases text startPos length h] at this
    unfold ColouriseSASDoc
    dsimp only
    omega

/-- C1: for every text, every range inside it, every initial style and all
keyword tables, the loops of `ColouriseFortranDoc` and `ColouriseSASDoc` end
within the iterations the model gives them (`More()` is false at the end),
and the styles painted are exactly as many as the positions of the range.
Every iteration entered with a consistent cursor inside the range keeps the
cursor consistent; in the SAS loop it moves the cursor forward; in the
Fortran loop it moves the cursor forward, or ends an escape sequence without
moving (the state is then the default state or a string state, so the next
iteration is no such exception), or rewinds a dotted operator to the byte
after the dot in the operator state (from which the next iteration moves
forward). The inner loop of the SAS string case ends on a byte that is not a
letter. -/
theorem C1_loops_terminate (text : List Nat) (startPos length : Nat) (fStyle : Fortran.Style)
    (sStyle : Style) (kw : LexerWordList) (ls : Nat → Nat)
    (h : startPos + length ≤ text.length) :
    ((Fortran.run ⟨text, passEnd text startPos length⟩ kw
          (Fortran.loopBound (passEnd text startPos length))
          (Fortran.initLexer text startPos fStyle ls)).sc.More
        ⟨text, passEnd text startPos length⟩ = false ∧
      (Fortran.ColouriseFortranDoc text startPos length fStyle kw ls).sc.styles.length
        = length) ∧
    ((run ⟨text, passEnd text startPos length⟩ kw (passEnd text startPos length + 1 - startPos)
          (initLexer text startPos sStyle)).sc.More ⟨text, passEnd text startPos length⟩
        = false ∧
      (ColouriseSASDoc text startPos length sStyle kw).sc.styles.length = length) ∧
    (∀ L : Fortran.Lexer, Fortran.ScOK ⟨text, passEnd text startPos length⟩ startPos L.sc →
      Fortran.OuterOK L → L.sc.currentPos < passEnd text startPos length →
      Fortran.ScOK ⟨text, passEnd text startPos length⟩ startPos
        (Fortran.step ⟨text, passEnd text startPos length⟩ kw L).sc ∧
      Fortran.OuterOK (Fortran.step ⟨text, passEnd text startPos length⟩ kw L) ∧
      (L.sc.currentPos < (Fortran.step ⟨text, passEnd text startPos length⟩ kw L).sc.currentPos ∨
        (L.sc.state = Fortran.Style.SCE_F_ESCAPECHAR ∧
          (Fortran.step ⟨text, passEnd text startPos length⟩ kw L).sc.currentPos
            = L.sc.currentPos ∧
          ((Fortran.step ⟨text, passEnd text startPos length⟩ kw L).sc.state
              = Fortran.Style.SCE_F_DEFAULT ∨
            (Fortran.step ⟨text, passEnd text startPos length⟩ kw L).sc.state
              = Fortran.Style.SCE_F_STRING_SQ ∨
            (Fortran.step ⟨text, passEnd text startPos length⟩ kw L).sc.state
              = Fortran.Style.SCE_F_STRING_DQ)) ∨
        (L.sc.state = Fortran.Style.SCE_F_OPERATOR2 ∧
          (Fortran.step ⟨text, passEnd text startPos length⟩ kw L).sc.state
            = Fortran.Style.SCE_F_OPERATOR ∧
          (Fortran.step ⟨text, passEnd text startPos length⟩ kw L).sc.currentPos
            = L.sc.startSeg + 1))) ∧
    (∀ L : Lexer, Fortran.ScOK ⟨text, passEnd text startPos length⟩ startPos L.sc →
      L.sc.currentPos < passEnd text startPos length →
      Fortran.ScOK ⟨text, passEnd text startPos length⟩ startPos
        (step ⟨text, passEnd text startPos length⟩ kw L).sc ∧
      L.sc.currentPos < (step ⟨text, passEnd text startPos length⟩ kw L).sc.currentPos) ∧
    (∀ sc : StyleContext Style, sc.currentPos ≤ passEnd text startPos length →
      IsAlpha (forwardWhileAlpha ⟨text, passEnd text startPos length⟩
        (passEnd text startPos length + 1 - sc.currentPos) sc).ch = false) := by
  refine ⟨Fortran.fortran_terminates text startPos length fStyle kw ls h,
    sas_terminates text startPos length sStyle kw h, ?_, ?_, ?_⟩
  · intro L hok hout hm
    obtain ⟨h1, h2, _, _⟩ := Fortran.step_progress ⟨text, passEnd text startPos length⟩ kw
      startPos L (Fortran.passEnd_le text startPos length) hok hout hm
    refine ⟨h1, h2, ?_⟩
    rcases Fortran.step_advances ⟨text, passEnd text startPos length⟩ kw startPos L hok hm
      with ha | ⟨hs, hp, hst⟩ | hr
    · exact Or.inl ha
    · refine Or.inr (Or.inl ⟨hs, hp, ?_⟩)
      rw [hst]; exact hout
    · exact Or.inr (Or.inr hr)
  · intro L hok hm
    exact sas_step_progress ⟨text, passEnd text startPos length⟩ kw startPos L
      (Fortran.passEnd_le text startPos length) hok hm
  · intro sc hle
    exact forwardWhileAlpha_ends ⟨text, passEnd text startPos length⟩ _ sc hle (Nat.le_refl _)

theorem C1_loops_terminate_witness :
    (Fortran.ColouriseFortranDoc (str "x = .a 'b\\n'\n") 0 13 Fortran.Style.SCE_F_DEFAULT
        Fortran.kwDemo (fun _ => 0)).sc.styles.length = 13 ∧
    (ColouriseSASDoc (str "x = .a 'b\\n'\n") 0 13 SCE_SAS_DEFAULT
        (fun _ => ⟨[]⟩)).sc.styles.length = 13 :=
  ⟨(C1_loops_terminate (str "x = .a 'b\\n'\n") 0 13 Fortran.Style.SCE_F_DEFAULT SCE_SAS_DEFAULT
      Fortran.kwDemo (fun _ => 0) (by decide)).1.2,
   (C1_loops_terminate (str "x = .a 'b\\n'\n") 0 13 Fortran.Style.SCE_F_DEFAULT SCE_SAS_DEFAULT
      (fun _ => ⟨[]⟩) (fun _ => 0) (by decide)).2.1.2⟩

end SAS

end Lexilla
